import Mathlib

/-!
# Verification of the Vue 2 reactivity and virtual-DOM reconciliation core

This development gives a shallow embedding, in Lean 4, of the algorithmic core
of the repository: the fine-grained observer system
(`src/core/observer/{index.js,array.js,dep.js,watcher.js}`) and the virtual-DOM
patching algorithm (`src/core/vdom/patch.js`, `src/core/vdom/vnode.js`), and
proves properties of the embedded definitions.

Conventions used throughout:

* JavaScript values are modelled by the inductive `JSVal`; `NaN` is a separate
  constructor so that strict equality (`===`, modelled by `strictEq`) can fail
  on it reflexively, as in JavaScript.
* JavaScript object identity (`===` on objects) is modelled by numeric ids.
* Mutable state is threaded explicitly; functions that mutate return the new
  state.  Observable effects (DOM calls, module hooks, warnings) are recorded
  in an explicit operation trace.
* `undefined`/missing values are modelled with `Option`.
* Dev-mode (`process.env.NODE_ENV !== 'production'`) is taken to be on, so the
  diagnostic warnings present in the source are part of the model.
-/

/-- JavaScript runtime values (the fragment needed by the reactivity core).
`nan` is kept apart from other numbers because `NaN === NaN` is `false`.
`obj`/`arr` are references identified by a numeric object id. -/
inductive JSVal where
  | undef
  | null
  | bool (b : Bool)
  | num (q : ℚ)
  | nan
  | str (s : String)
  | obj (id : ℕ)
  | arr (id : ℕ)
deriving DecidableEq, Repr

/-- JavaScript strict equality `===` on `JSVal`: structural equality except
that `NaN` is not equal to anything, itself included. -/
def strictEq (a b : JSVal) : Bool :=
  match a, b with
  | .nan, _ => false
  | _, .nan => false
  | a, b => decide (a = b)

/-- `isObject` from `src/shared/util.js` semantics used by the observer:
`obj !== null && typeof obj === 'object'`; true exactly on objects and
arrays in our value model. -/
def JSVal.isObject : JSVal → Bool
  | .obj _ => true
  | .arr _ => true
  | _ => false

theorem strictEq_refl_of_ne_nan (a : JSVal) (h : a ≠ .nan) : strictEq a a = true := by
  cases a <;> simp [strictEq] at h ⊢

theorem strictEq_nan : strictEq .nan .nan = false := rfl

/-! ## The Dependency Node / Watcher model

`src/core/observer/dep.js` (`Dep`) and `src/core/observer/watcher.js`
(`Watcher`).  A `Dep`'s subscriber list is a list of watcher ids; the store of
all deps is a function from dep id to its subscriber list.  A `Watcher`'s two
dep sets (`deps`/`depIds` from the previous evaluation, `newDeps`/`newDepIds`
being collected) are lists of dep ids; in the source `deps` holds `Dep`
objects and `depIds` their ids, which in this id-based model coincide. -/

/-- The subscriber lists of all Dependency Nodes, indexed by dep id
(`Dep.subs` for each dep). -/
def DepStore := ℕ → List ℕ

/-- The `Watcher` class fields relevant to dependency tracking, scheduling and
running (`src/core/observer/watcher.js`). `value` is the result cache. -/
structure Watcher where
  id : ℕ
  deep : Bool
  user : Bool
  lazy : Bool
  sync : Bool
  dirty : Bool
  active : Bool
  deps : List ℕ
  newDeps : List ℕ
  depIds : List ℕ
  newDepIds : List ℕ
  value : JSVal
deriving DecidableEq, Repr

/-- `remove` from `src/shared/util.js` (the file itself is not part of the
sources at hand; its behaviour — delete the first occurrence of `item` from
`arr` via `indexOf`/`splice`, used by `Dep.removeSub` — is fixed by the spec's
"unsubscribe" step).  It is `List.erase`. -/
def utilRemove (l : List ℕ) (x : ℕ) : List ℕ := l.erase x

/-- `Dep.addSub`: push the subscriber onto the subscriber list. -/
def depAddSub (store : DepStore) (depId : ℕ) (w : ℕ) : DepStore :=
  fun i => if i = depId then store i ++ [w] else store i

/-- `Dep.removeSub`: remove the subscriber from the subscriber list. -/
def depRemoveSub (store : DepStore) (depId : ℕ) (w : ℕ) : DepStore :=
  fun i => if i = depId then utilRemove (store i) w else store i

/-- `Dep.notify`: the subscriber list is snapshotted (`this.subs.slice()`) and
`update()` is invoked on each element in order.  (`config.async` defaults to
true, so the dev-only re-sort for sync mode does not run.)  The result is the
list of watcher ids whose `update()` gets invoked, in invocation order. -/
def depNotify (store : DepStore) (depId : ℕ) : List ℕ :=
  store depId

/-- `Watcher.addDep`: during an evaluation, record a dep in the new dep set if
not already recorded, and subscribe to it unless the previous evaluation had
already subscribed (`depIds.has(id)`). -/
def watcherAddDep (w : Watcher) (store : DepStore) (depId : ℕ) :
    Watcher × DepStore :=
  if depId ∈ w.newDepIds then (w, store)
  else
    let w := { w with newDepIds := w.newDepIds ++ [depId],
                      newDeps := w.newDeps ++ [depId] }
    if depId ∈ w.depIds then (w, store)
    else (w, depAddSub store depId w.id)

/-- One evaluation's sequence of reactive reads: each read of a reactive field
calls `dep.depend()`, which calls `Dep.target.addDep(dep)` on the active
watcher.  `collectDeps` folds `addDep` over the reads in order. -/
def collectDeps (w : Watcher) (store : DepStore) : List ℕ → Watcher × DepStore
  | [] => (w, store)
  | d :: rest =>
      let p := watcherAddDep w store d
      collectDeps p.1 p.2 rest

/-- `Watcher.cleanupDeps`: walk the previous dep list from the last element
down (`let i = this.deps.length; while (i--)`), unsubscribing from every dep
whose id is not in the new id set; then swap the new sets into the previous
sets and clear the new ones. -/
def cleanupDeps (w : Watcher) (store : DepStore) : Watcher × DepStore :=
  let store' := w.deps.foldr
    (fun d s => if d ∈ w.newDepIds then s else depRemoveSub s d w.id) store
  ({ w with depIds := w.newDepIds, newDepIds := [],
            deps := w.newDeps, newDeps := [] }, store')

/-- `Watcher.update` (the subscriber interface invoked by `Dep.notify`):
a lazy watcher is only marked dirty; a sync watcher runs `run()` inline
(`watcherRun` below); otherwise the watcher is handed to the scheduler
(`queueWatcher`, outside this fragment). -/
inductive UpdateEffect where
  | markedDirty
  | ranInline
  | queuedToScheduler
deriving DecidableEq, Repr

def watcherUpdate (w : Watcher) : Watcher × UpdateEffect :=
  if w.lazy then ({ w with dirty := true }, .markedDirty)
  else if w.sync then (w, .ranInline)
  else (w, .queuedToScheduler)

/-- Apply `update()` to each watcher in the given id list, in order (the loop
body of `Dep.notify`). -/
def applyUpdates (watchers : ℕ → Watcher) : List ℕ → (ℕ → Watcher)
  | [] => watchers
  | i :: rest =>
      applyUpdates (fun j => if j = i then (watcherUpdate (watchers j)).1 else watchers j) rest

/-- One reactive property created by `defineReactive`
(`src/core/observer/index.js`): the closed-over `val` and the property's
`Dep`.  This models the common case of a plain data property (no
pre-existing getter/setter on the descriptor). -/
structure ReactiveField where
  value : JSVal
  depId : ℕ
deriving DecidableEq, Repr

/-- `reactiveSetter` from `defineReactive` plus the `dep.notify()` it triggers:
if the new value is strictly equal to the old, or both are `NaN`
(`newVal !== newVal && value !== value`), return without storing or
notifying; otherwise store, re-observe (`observe(newVal)`, tracked outside
this fragment), and notify the field's dep, which invokes `update()` on each
subscriber.  Returns (field, watcher store, ids whose `update()` ran). -/
def reactiveSetter (f : ReactiveField) (store : DepStore) (watchers : ℕ → Watcher)
    (newVal : JSVal) : ReactiveField × (ℕ → Watcher) × List ℕ :=
  let value := f.value
  if strictEq newVal value || (!strictEq newVal newVal && !strictEq value value) then
    (f, watchers, [])
  else
    let f := { f with value := newVal }
    let invoked := depNotify store f.depId
    (f, applyUpdates watchers invoked, invoked)

/-- `Watcher.run` (`src/core/observer/watcher.js`).  `this.get()` is modelled
as producing `getResult` (the evaluator's value; the dependency
re-collection `get` performs is `collectDeps`/`cleanupDeps`).  Returns the
updated watcher, whether the getter was re-evaluated, and the
`(value, oldValue)` pair passed to `this.cb` when the callback fires. -/
def watcherRun (w : Watcher) (getResult : JSVal) :
    Watcher × Bool × Option (JSVal × JSVal) :=
  if w.active then
    if !strictEq getResult w.value || getResult.isObject || w.deep then
      ({ w with value := getResult }, true, some (getResult, w.value))
    else (w, true, none)
  else (w, false, none)

/-- `Watcher.teardown`: when still active, unsubscribe from every dep in
`deps` (iterated from the end) and clear the `active` flag.  Removal from
`vm._watchers` concerns the component instance, outside this fragment. -/
def watcherTeardown (w : Watcher) (store : DepStore) : Watcher × DepStore :=
  if w.active then
    let store' := w.deps.foldr (fun d s => depRemoveSub s d w.id) store
    ({ w with active := false }, store')
  else (w, store)

/-! ## Intercepted array mutators (`src/core/observer/array.js`) -/

/-- The seven mutating `Array.prototype` methods intercepted by the observer. -/
inductive ArrMethod where
  | push | pop | shift | unshift | splice | sort | reverse
deriving DecidableEq, Repr

/-- The `inserted` computation in the mutator's `switch`: `push`/`unshift`
insert their arguments, `splice` inserts `args.slice(2)`; for the other
methods `inserted` stays `undefined`. -/
def insertedOf : ArrMethod → List JSVal → Option (List JSVal)
  | .push, args => some args
  | .unshift, args => some args
  | .splice, args => some (args.drop 2)
  | _, _ => none

/-- The part of `observe(value)` (`src/core/observer/index.js`) visible here:
a plain object or array that does not yet carry an `__ob__` gets an
`Observer` attached.  The state is the set of object ids carrying one. -/
def observeVal (observed : List ℕ) (v : JSVal) : List ℕ :=
  match v with
  | .obj i => if i ∈ observed then observed else observed ++ [i]
  | .arr i => if i ∈ observed then observed else observed ++ [i]
  | _ => observed

/-- `Observer.observeArray`: `observe` every element of `items` in order. -/
def observeArrayIds (observed : List ℕ) (items : List JSVal) : List ℕ :=
  items.foldl observeVal observed

/-- An observed array: the target's contents, its `Observer`'s dep, and the
global record of which object ids already have an `Observer`. -/
structure ObsArray where
  arr : List JSVal
  depId : ℕ
  observedIds : List ℕ
deriving DecidableEq, Repr

/-- Events performed by one intercepted mutator call, in order. -/
inductive MutOp where
  | appliedOriginal (method : ArrMethod)
  | observeCall (v : JSVal)
  | notifyDep (depId : ℕ)
deriving DecidableEq, Repr

/-- The `mutator` installed over each intercepted method: apply the original
`Array.prototype` method (a host primitive, supplied as `original`, yielding
the new contents and the return value), then `observeArray` the newly
inserted elements if any, then `ob.dep.notify()`.  Returns the new state,
the original method's return value, and the event trace. -/
def arrayMutator (method : ArrMethod)
    (original : List JSVal → List JSVal → List JSVal × JSVal)
    (st : ObsArray) (args : List JSVal) : ObsArray × JSVal × List MutOp :=
  let r := original st.arr args
  let st1 : ObsArray := { st with arr := r.1 }
  match insertedOf method args with
  | some items =>
      ({ st1 with observedIds := observeArrayIds st1.observedIds items }, r.2,
        .appliedOriginal method :: items.map .observeCall ++ [.notifyDep st1.depId])
  | none => (st1, r.2, [.appliedOriginal method, .notifyDep st1.depId])

/-! ## `set` (`src/core/observer/index.js`) -/

/-- Property keys passed to `set`.  Keys that are valid array indices
(`isValidArrayIndex`: a non-negative integer) are modelled as `idx`; all
other property names as `name`. -/
inductive SetKey where
  | idx (n : ℕ)
  | name (s : String)
deriving DecidableEq, Repr

/-- `isValidArrayIndex` (`src/shared/util.js`): true exactly for
non-negative-integer keys, which `SetKey.idx` models. -/
def validArrayIndex : SetKey → Bool
  | .idx _ => true
  | .name _ => false

/-- A `set` target: a plain object (string-keyed own properties) or an array,
possibly carrying an `Observer` (`hasOb`) with its root-usage count
(`vmCount`), possibly a Vue instance (`_isVue`). -/
structure SetTarget where
  isVue : Bool
  isArray : Bool
  arr : List JSVal
  fields : List (String × JSVal)
  hasOb : Bool
  vmCount : ℕ
deriving DecidableEq, Repr

/-- `key in target` (own or inherited property; the modelled objects have
string-keyed own properties only and arrays have their index range, and no
key of interest lives on `Object.prototype`). -/
def keyInTarget (t : SetTarget) (key : SetKey) : Bool :=
  if t.isArray then
    match key with
    | .idx n => n < t.arr.length
    | .name _ => false
  else
    match key with
    | .idx _ => false
    | .name s => (t.fields.map Prod.fst).contains s

/-- `target.length = Math.max(target.length, key); target.splice(key, 1, val)`:
replace in range, extend (with holes, read back as `undefined`) past the
end. -/
def spliceSet (arr : List JSVal) (n : ℕ) (v : JSVal) : List JSVal :=
  if n < arr.length then arr.set n v
  else arr ++ List.replicate (n - arr.length) .undef ++ [v]

/-- Set a string field on the object's own properties. -/
def setField (fields : List (String × JSVal)) (s : String) (v : JSVal) :
    List (String × JSVal) :=
  if (fields.map Prod.fst).contains s then
    fields.map (fun p => if p.1 = s then (s, v) else p)
  else fields ++ [(s, v)]

/-- Events performed by one `set` call, in order. -/
inductive SetOp where
  | warned
  | splicedAt (n : ℕ)
  | assigned
  | definedReactive
  | notified
deriving DecidableEq, Repr

/-- `set(target, key, val)` (`src/core/observer/index.js`), for object/array
targets (the dev warning for `undefined`/primitive targets cannot fire
here): 1. valid array index → length-extend and splice; 2. existing own
property → plain assignment; 3. Vue instance or root `$data`
(`ob.vmCount` ≠ 0) → dev warning only; 4. unobserved target → plain
assignment; 5. otherwise `defineReactive` on `ob.value` and `ob.dep.notify()`.
Returns the new target, the return value (always `val`), and the trace. -/
def jsSet (t : SetTarget) (key : SetKey) (v : JSVal) :
    SetTarget × JSVal × List SetOp :=
  if t.isArray && validArrayIndex key then
    match key with
    | .idx n => ({ t with arr := spliceSet t.arr n v }, v, [.splicedAt n])
    | .name _ => (t, v, [])
  else if keyInTarget t key then
    match key with
    | .name s => ({ t with fields := setField t.fields s v }, v, [.assigned])
    | .idx n => ({ t with arr := t.arr.set n v }, v, [.assigned])
  else if t.isVue || (t.hasOb && decide (t.vmCount ≠ 0)) then
    (t, v, [.warned])
  else if !t.hasOb then
    match key with
    | .name s => ({ t with fields := setField t.fields s v }, v, [.assigned])
    | .idx n => ({ t with arr := t.arr.set n v }, v, [.assigned])
  else
    match key with
    | .name s =>
        ({ t with fields := setField t.fields s v }, v, [.definedReactive, .notified])
    | .idx n => ({ t with arr := t.arr.set n v }, v, [.definedReactive, .notified])

/-! ## Theorems: reactivity -/

/-- A sample watcher used by concrete witnesses. -/
def sampleWatcher : Watcher :=
  { id := 7, deep := false, user := false, lazy := true, sync := false,
    dirty := false, active := true, deps := [], newDeps := [],
    depIds := [], newDepIds := [], value := .num 0 }

/-- **C2.** Writing a value that is strictly equal to the current one, or
writing `NaN` over `NaN`, makes the reactive setter a no-op: the stored value
is untouched, `notify()` is not called, no subscriber's `update()` runs and
no watcher is marked dirty. -/
theorem reactive_setter_same_value_noop
    (f : ReactiveField) (store : DepStore) (watchers : ℕ → Watcher) (n : JSVal)
    (h : strictEq n f.value = true ∨
         (strictEq n n = false ∧ strictEq f.value f.value = false)) :
    reactiveSetter f store watchers n = (f, watchers, []) := by
  unfold reactiveSetter
  rcases h with h | ⟨h1, h2⟩
  · simp [h]
  · simp [h1, h2]

theorem reactive_setter_same_value_noop_witness :
    reactiveSetter ⟨.nan, 0⟩ (fun _ => [7]) (fun _ => sampleWatcher) .nan
        = (⟨.nan, 0⟩, (fun _ => sampleWatcher), []) ∧
    reactiveSetter ⟨.num 3, 0⟩ (fun _ => [7]) (fun _ => sampleWatcher) (.num 3)
        = (⟨.num 3, 0⟩, (fun _ => sampleWatcher), []) := by
  constructor
  · exact reactive_setter_same_value_noop _ _ _ _ (Or.inr (by decide))
  · exact reactive_setter_same_value_noop _ _ _ _ (Or.inl (by decide))

/-- **C10.** `Watcher.run` re-evaluates and fires `cb(newValue, oldValue)`
exactly when the watcher is active and the new value differs strictly, is an
object/array, or the watcher is deep; an equal primitive on a shallow watcher
leaves the cache untouched with no callback; an inactive (torn-down) watcher
does neither, and `teardown` clears the active flag. -/
theorem watcher_run_and_teardown_spec (w : Watcher) (g : JSVal) (store : DepStore) :
    (w.active = true →
      strictEq g w.value = true ∧ g.isObject = false ∧ w.deep = false →
      watcherRun w g = (w, true, none)) ∧
    (w.active = true →
      ¬(strictEq g w.value = true ∧ g.isObject = false ∧ w.deep = false) →
      watcherRun w g = ({ w with value := g }, true, some (g, w.value))) ∧
    (w.active = false → watcherRun w g = (w, false, none)) ∧
    (watcherTeardown w store).1.active = false ∧
    watcherRun (watcherTeardown w store).1 g
        = ((watcherTeardown w store).1, false, none) := by
  refine ⟨?_, ?_, ?_, ?_, ?_⟩
  · rintro ha ⟨h1, h2, h3⟩
    simp [watcherRun, ha, h1, h2, h3]
  · intro ha h
    have key : strictEq g w.value = false ∨ g.isObject = true ∨ w.deep = true := by
      by_cases h1 : strictEq g w.value = true
      · by_cases h2 : g.isObject = true
        · exact Or.inr (Or.inl h2)
        · by_cases h3 : w.deep = true
          · exact Or.inr (Or.inr h3)
          · exact absurd ⟨h1, Bool.eq_false_iff.mpr h2, Bool.eq_false_iff.mpr h3⟩ h
      · exact Or.inl (Bool.eq_false_iff.mpr h1)
    have hcond : (!strictEq g w.value || g.isObject || w.deep) = true := by
      rcases key with h1 | h2 | h3
      · simp [h1]
      · simp [h2]
      · simp [h3]
    simp [watcherRun, ha, hcond]
  · intro ha; simp [watcherRun, ha]
  · unfold watcherTeardown
    by_cases ha : w.active = true <;> simp [ha]
  · unfold watcherTeardown
    by_cases ha : w.active = true <;> simp [ha, watcherRun]

theorem watcher_run_and_teardown_spec_witness :
    watcherRun { sampleWatcher with value := .num 1 } (.num 1)
        = ({ sampleWatcher with value := .num 1 }, true, none) ∧
    watcherRun { sampleWatcher with value := .num 1 } (.num 2)
        = ({ sampleWatcher with value := .num 2 }, true,
            some (.num 2, .num 1)) ∧
    watcherRun { sampleWatcher with active := false } (.num 2)
        = ({ sampleWatcher with active := false }, false, none) := by
  refine ⟨?_, ?_, ?_⟩
  · exact (watcher_run_and_teardown_spec _ (.num 1) (fun _ => [])).1 rfl
      (by refine ⟨by decide, by decide, rfl⟩)
  · exact (watcher_run_and_teardown_spec _ (.num 2) (fun _ => [])).2.1 rfl
      (by intro h; exact absurd h.1 (by decide))
  · exact (watcher_run_and_teardown_spec _ (.num 2) (fun _ => [])).2.2.1 rfl

/-- **C8.** Every intercepted mutating array method first applies the
underlying `Array.prototype` operation, then `observe`s each newly inserted
element (the arguments for `push`/`unshift`, `args.slice(2)` for `splice`,
nothing otherwise), and finally calls `notify()` on the array `Observer`'s
dep exactly once, as the last event of the call. -/
theorem array_mutator_order_and_single_notify (method : ArrMethod)
    (original : List JSVal → List JSVal → List JSVal × JSVal)
    (st : ObsArray) (args : List JSVal) :
    (arrayMutator method original st args).1.arr = (original st.arr args).1 ∧
    (arrayMutator method original st args).2.1 = (original st.arr args).2 ∧
    (arrayMutator method original st args).2.2
        = .appliedOriginal method ::
            ((insertedOf method args).getD []).map .observeCall
            ++ [.notifyDep st.depId] ∧
    ((arrayMutator method original st args).2.2.count (.notifyDep st.depId)) = 1 ∧
    (arrayMutator method original st args).2.2.getLast? = some (.notifyDep st.depId) ∧
    (arrayMutator method original st args).1.observedIds
        = observeArrayIds st.observedIds ((insertedOf method args).getD []) ∧
    (arrayMutator method original st args).1.depId = st.depId := by
  have hobs : ∀ items : List JSVal,
      (items.map MutOp.observeCall).count (.notifyDep st.depId) = 0 := by
    intro items
    refine List.count_eq_zero.mpr ?_
    intro hmem
    rcases List.mem_map.mp hmem with ⟨v, _, hv⟩
    exact MutOp.noConfusion hv
  have hlast : ∀ items : List JSVal,
      (MutOp.appliedOriginal method :: items.map .observeCall
          ++ [MutOp.notifyDep st.depId]).getLast? = some (.notifyDep st.depId) := by
    intro items
    exact List.getLast?_concat _
  have hcount : ∀ items : List JSVal,
      (MutOp.appliedOriginal method :: items.map .observeCall
          ++ [MutOp.notifyDep st.depId]).count (.notifyDep st.depId) = 1 := by
    intro items
    simp [List.count_append, List.count_cons, hobs items]
  cases method
  case push => exact ⟨rfl, rfl, rfl, hcount args, hlast args, rfl, rfl⟩
  case pop => exact ⟨rfl, rfl, rfl, hcount [], hlast [], rfl, rfl⟩
  case shift => exact ⟨rfl, rfl, rfl, hcount [], hlast [], rfl, rfl⟩
  case unshift => exact ⟨rfl, rfl, rfl, hcount args, hlast args, rfl, rfl⟩
  case splice =>
    exact ⟨rfl, rfl, rfl, hcount (args.drop 2), hlast (args.drop 2), rfl, rfl⟩
  case sort => exact ⟨rfl, rfl, rfl, hcount [], hlast [], rfl, rfl⟩
  case reverse => exact ⟨rfl, rfl, rfl, hcount [], hlast [], rfl, rfl⟩

/-- **C9 counterexample.** `set` on an array that is a component's root
reactive data (its `Observer` has `vmCount = 1`) with a valid array index
that is not yet a property: the claim requires a warning and no change, but
the code takes the array-splice path first, mutating the target with no
warning. -/
theorem jsSet_root_array_counterexample :
    (jsSet ⟨false, true, [], [], true, 1⟩ (.idx 0) (.num 1)).1
        ≠ ⟨false, true, [], [], true, 1⟩ ∧
    SetOp.warned ∉ (jsSet ⟨false, true, [], [], true, 1⟩ (.idx 0) (.num 1)).2.2 ∧
    (jsSet ⟨false, true, [], [], true, 1⟩ (.idx 0) (.num 1)).1.arr = [.num 1] := by
  decide

/-- **C9 (amended).** For a `set(target, key, val)` where the target is a Vue
instance or a root reactive data object (`vmCount ≠ 0`), the key is not
already a property, and the array-index fast path does not apply (the target
is not an array being written at a valid array index), the call only emits
the non-fatal warning and returns `val`: the target is unchanged, nothing is
defined reactive and no `notify()` is issued. -/
theorem jsSet_root_guard_noop (t : SetTarget) (key : SetKey) (v : JSVal)
    (hroot : t.isVue = true ∨ (t.hasOb = true ∧ t.vmCount ≠ 0))
    (habs : keyInTarget t key = false)
    (hnotidx : ¬(t.isArray = true ∧ validArrayIndex key = true)) :
    jsSet t key v = (t, v, [.warned]) := by
  have h1 : ¬((t.isArray && validArrayIndex key) = true) := by
    intro hc
    rcases Bool.and_eq_true_iff.mp hc with ⟨ha, hb⟩
    exact hnotidx ⟨ha, hb⟩
  have h2 : ¬(keyInTarget t key = true) := by simp [habs]
  have h3 : (t.isVue || (t.hasOb && decide (t.vmCount ≠ 0))) = true := by
    rcases hroot with h | ⟨h, h'⟩
    · simp [h]
    · simp [h, h']
  simp only [jsSet]
  rw [if_neg h1, if_neg h2, if_pos h3]

theorem jsSet_root_guard_noop_witness :
    jsSet ⟨false, false, [], [("a", .num 1)], true, 2⟩ (.name "b") (.num 5)
        = (⟨false, false, [], [("a", .num 1)], true, 2⟩, .num 5, [.warned]) := by
  exact jsSet_root_guard_noop _ _ _ (Or.inr ⟨rfl, by decide⟩) (by decide)
    (by decide)

/-- Pointwise behaviour of `Dep.removeSub` in the store. -/
theorem depRemoveSub_self (s : DepStore) (e wid : ℕ) :
    depRemoveSub s e wid e = (s e).erase wid := by
  simp [depRemoveSub, utilRemove]

theorem depRemoveSub_ne (s : DepStore) (e wid d : ℕ) (h : d ≠ e) :
    depRemoveSub s e wid d = s d := by
  simp [depRemoveSub, if_neg h]

/-- The pruning fold of `cleanupDeps` never increases the number of
occurrences of the watcher in any subscriber list. -/
theorem cleanup_fold_count_le (wid : ℕ) (newIds : List ℕ) (d : ℕ) :
    ∀ (l : List ℕ) (store : DepStore),
      (((l.foldr (fun e s => if e ∈ newIds then s else depRemoveSub s e wid)
          store) d).count wid) ≤ (store d).count wid := by
  intro l
  induction l with
  | nil => intro store; exact le_rfl
  | cons e rest ih =>
      intro store
      simp only [List.foldr_cons]
      by_cases he : e ∈ newIds
      · simp only [if_pos he]; exact ih store
      · simp only [if_neg he]
        by_cases hd : d = e
        · subst hd
          rw [depRemoveSub_self]
          refine le_trans (le_trans (Nat.le_of_eq (List.count_erase_self _ _))
            (Nat.sub_le _ _)) (ih store)
        · rw [depRemoveSub_ne _ _ _ _ hd]
          exact ih store

/-- After the pruning fold of `cleanupDeps` over a list containing `d` with
`d` not retained, the watcher no longer occurs in `d`'s subscriber list
(provided it occurred at most once, the `addDep` discipline). -/
theorem cleanup_fold_removes (wid : ℕ) (newIds : List ℕ) (d : ℕ)
    (hnew : d ∉ newIds) :
    ∀ (l : List ℕ) (store : DepStore), d ∈ l →
      (store d).count wid ≤ 1 →
      (((l.foldr (fun e s => if e ∈ newIds then s else depRemoveSub s e wid)
          store) d).count wid) = 0 := by
  intro l
  induction l with
  | nil => intro store h; exact absurd h (List.not_mem_nil d)
  | cons e rest ih =>
      intro store hmem hcnt
      simp only [List.foldr_cons]
      by_cases hdr : d ∈ rest
      · have h0 := ih store hdr hcnt
        by_cases he : e ∈ newIds
        · simp only [if_pos he]; exact h0
        · simp only [if_neg he]
          by_cases hd : d = e
          · subst hd
            rw [depRemoveSub_self, List.count_erase_self, h0]
          · rw [depRemoveSub_ne _ _ _ _ hd]
            exact h0
      · have hde : d = e := by
          rcases List.mem_cons.mp hmem with h | h
          · exact h
          · exact absurd h hdr
        subst hde
        simp only [if_neg hnew]
        rw [depRemoveSub_self, List.count_erase_self]
        have hle := cleanup_fold_count_le wid newIds d rest store
        omega

/-- **C3.** After `cleanupDeps`, the watcher is unsubscribed from every dep of
the previous evaluation that the current evaluation did not read, the new dep
set replaces the previous one, the working set is cleared, and a subsequent
`notify()` on the stale dep no longer invokes this watcher's `update()`. -/
theorem cleanupDeps_prunes_stale (w : Watcher) (store : DepStore) (d : ℕ)
    (hd : d ∈ w.deps) (hnew : d ∉ w.newDepIds)
    (hcnt : ((store d).count w.id) ≤ 1) :
    w.id ∉ (cleanupDeps w store).2 d ∧
    w.id ∉ depNotify (cleanupDeps w store).2 d ∧
    (cleanupDeps w store).1.deps = w.newDeps ∧
    (cleanupDeps w store).1.depIds = w.newDepIds ∧
    (cleanupDeps w store).1.newDeps = [] ∧
    (cleanupDeps w store).1.newDepIds = [] := by
  have h0 := cleanup_fold_removes w.id w.newDepIds d hnew w.deps store hd hcnt
  have hni : w.id ∉ (cleanupDeps w store).2 d := by
    intro hmem
    have hpos : 0 < ((cleanupDeps w store).2 d).count w.id :=
      List.count_pos_iff.mpr hmem
    have hz : ((cleanupDeps w store).2 d).count w.id = 0 := h0
    omega
  exact ⟨hni, hni, rfl, rfl, rfl, rfl⟩

theorem cleanupDeps_prunes_stale_witness :
    7 ∉ (cleanupDeps { sampleWatcher with deps := [1] } (fun _ => [7])).2 1 ∧
    (cleanupDeps { sampleWatcher with deps := [1] } (fun _ => [7])).1.deps = [] := by
  have h := cleanupDeps_prunes_stale { sampleWatcher with deps := [1] }
      (fun _ => [7]) 1 (by decide) (by decide) (by decide)
  exact ⟨h.1, h.2.2.1⟩

/-- Unfolding equation for `collectDeps` on a cons cell. -/
theorem collectDeps_cons (w : Watcher) (store : DepStore) (r : ℕ) (rest : List ℕ) :
    collectDeps w store (r :: rest)
      = collectDeps (watcherAddDep w store r).1 (watcherAddDep w store r).2 rest := rfl

/-- Invariant of `addDep` folded over the reactive reads of one evaluation:
the new dep list and id set grow in lock-step and stay duplicate-free, the
watcher occurs in a dep's subscriber list iff that dep is in the previous or
the new id set, never more than once, and every read ends up recorded. -/
theorem collectDeps_invariant (reads : List ℕ) :
    ∀ (w : Watcher) (store : DepStore),
      w.newDeps = w.newDepIds →
      w.newDepIds.Nodup →
      (∀ i, w.id ∈ store i ↔ (i ∈ w.depIds ∨ i ∈ w.newDepIds)) →
      (∀ i, ((store i).count w.id) ≤ 1) →
      ((collectDeps w store reads).1.id = w.id ∧
       (collectDeps w store reads).1.depIds = w.depIds ∧
       (collectDeps w store reads).1.newDeps = (collectDeps w store reads).1.newDepIds ∧
       (collectDeps w store reads).1.newDepIds.Nodup ∧
       (∀ i, w.id ∈ (collectDeps w store reads).2 i ↔
          (i ∈ w.depIds ∨ i ∈ (collectDeps w store reads).1.newDepIds)) ∧
       (∀ i, (((collectDeps w store reads).2 i).count w.id) ≤ 1) ∧
       (∀ d, d ∈ w.newDepIds → d ∈ (collectDeps w store reads).1.newDepIds) ∧
       (∀ d, d ∈ reads → d ∈ (collectDeps w store reads).1.newDepIds)) := by
  induction reads with
  | nil =>
      intro w store h1 h2 h3 h4
      exact ⟨rfl, rfl, h1, h2, h3, h4, fun d hd => hd,
        fun d hd => absurd hd (List.not_mem_nil d)⟩
  | cons r rest ih =>
      intro w store h1 h2 h3 h4
      rw [collectDeps_cons]
      by_cases hr : r ∈ w.newDepIds
      · -- already recorded this evaluation: addDep is a no-op
        have hp : watcherAddDep w store r = (w, store) := by
          unfold watcherAddDep; rw [if_pos hr]
        rw [hp]
        have this1 := ih w store h1 h2 h3 h4
        refine ⟨this1.1, this1.2.1, this1.2.2.1, this1.2.2.2.1, this1.2.2.2.2.1,
          this1.2.2.2.2.2.1, this1.2.2.2.2.2.2.1, ?_⟩
        intro d hd
        rcases List.mem_cons.mp hd with h | h
        · subst h; exact this1.2.2.2.2.2.2.1 d hr
        · exact this1.2.2.2.2.2.2.2 d h
      · have h2' : (w.newDepIds ++ [r]).Nodup := by
          rw [← List.concat_eq_append]
          exact List.Nodup.concat hr h2
        by_cases hrd : r ∈ w.depIds
        · -- recorded now, but already subscribed from the previous evaluation
          have hp : watcherAddDep w store r =
              ({ w with newDepIds := w.newDepIds ++ [r],
                        newDeps := w.newDeps ++ [r] }, store) := by
            unfold watcherAddDep; rw [if_neg hr]; simp only [if_pos hrd]
          rw [hp]
          have h1' : w.newDeps ++ [r] = w.newDepIds ++ [r] := by rw [h1]
          have h3' : ∀ i, w.id ∈ store i ↔
              (i ∈ w.depIds ∨ i ∈ w.newDepIds ++ [r]) := by
            intro i
            rw [h3 i]
            constructor
            · rintro (h | h)
              · exact Or.inl h
              · exact Or.inr (List.mem_append_left _ h)
            · rintro (h | h)
              · exact Or.inl h
              · rcases List.mem_append.mp h with h | h
                · exact Or.inr h
                · rw [List.mem_singleton.mp h]
                  exact Or.inl hrd
          have this1 := ih ({ w with newDepIds := w.newDepIds ++ [r], newDeps := w.newDeps ++ [r] }) store h1' h2' h3' h4
          refine ⟨this1.1, this1.2.1, this1.2.2.1, this1.2.2.2.1, this1.2.2.2.2.1,
            this1.2.2.2.2.2.1, ?_, ?_⟩
          · intro d hd
            exact this1.2.2.2.2.2.2.1 d (List.mem_append_left _ hd)
          · intro d hd
            rcases List.mem_cons.mp hd with h | h
            · subst h
              exact this1.2.2.2.2.2.2.1 d
                (List.mem_append_right _ (List.mem_singleton.mpr rfl))
            · exact this1.2.2.2.2.2.2.2 d h
        · -- fresh dep: record it and subscribe
          have hp : watcherAddDep w store r =
              ({ w with newDepIds := w.newDepIds ++ [r],
                        newDeps := w.newDeps ++ [r] }, depAddSub store r w.id) := by
            unfold watcherAddDep; rw [if_neg hr]; simp only [if_neg hrd]
          rw [hp]
          have h1' : w.newDeps ++ [r] = w.newDepIds ++ [r] := by rw [h1]
          have hnotin : w.id ∉ store r := by
            intro hmem
            rcases (h3 r).mp hmem with h | h
            · exact hrd h
            · exact hr h
          have h3' : ∀ i, w.id ∈ depAddSub store r w.id i ↔
              (i ∈ w.depIds ∨ i ∈ w.newDepIds ++ [r]) := by
            intro i
            unfold depAddSub
            by_cases hi : i = r
            · subst hi
              simp only [eq_self_iff_true, if_true]
              constructor
              · intro _
                exact Or.inr (List.mem_append_right _ (List.mem_singleton.mpr rfl))
              · intro _
                exact List.mem_append_right _ (List.mem_singleton.mpr rfl)
            · simp only [if_neg hi]
              rw [h3 i]
              constructor
              · rintro (h | h)
                · exact Or.inl h
                · exact Or.inr (List.mem_append_left _ h)
              · rintro (h | h)
                · exact Or.inl h
                · rcases List.mem_append.mp h with h | h
                  · exact Or.inr h
                  · exact absurd (List.mem_singleton.mp h) hi
          have h4' : ∀ i, ((depAddSub store r w.id i).count w.id) ≤ 1 := by
            intro i
            unfold depAddSub
            by_cases hi : i = r
            · subst hi
              simp only [eq_self_iff_true, if_true]
              rw [List.count_append]
              have hz : (store i).count w.id = 0 := List.count_eq_zero.mpr hnotin
              simp [hz]
            · simp only [if_neg hi]
              exact h4 i
          have this1 := ih ({ w with newDepIds := w.newDepIds ++ [r], newDeps := w.newDeps ++ [r] }) (depAddSub store r w.id) h1' h2' h3' h4'
          refine ⟨this1.1, this1.2.1, this1.2.2.1, this1.2.2.2.1, this1.2.2.2.2.1,
            this1.2.2.2.2.2.1, ?_, ?_⟩
          · intro d hd
            exact this1.2.2.2.2.2.2.1 d (List.mem_append_left _ hd)
          · intro d hd
            rcases List.mem_cons.mp hd with h | h
            · subst h
              exact this1.2.2.2.2.2.2.1 d
                (List.mem_append_right _ (List.mem_singleton.mpr rfl))
            · exact this1.2.2.2.2.2.2.2 d h

/-- **C4.** Within one evaluation, a dep whose `depend()` fires any number of
times is recorded in the watcher's new dep list exactly once, the watcher
ends up exactly once in that dep's subscriber list, and hence one later
`notify()` on that dep invokes this watcher's `update()` exactly once. -/
theorem addDep_dedup_single_update (w : Watcher) (store : DepStore)
    (reads : List ℕ) (d : ℕ)
    (hfresh1 : w.newDeps = []) (hfresh2 : w.newDepIds = [])
    (hmem : ∀ i, w.id ∈ store i ↔ i ∈ w.depIds)
    (hcnt : ∀ i, ((store i).count w.id) ≤ 1)
    (hread : d ∈ reads) :
    ((collectDeps w store reads).1.newDeps.count d) = 1 ∧
    (((collectDeps w store reads).2 d).count w.id) = 1 ∧
    ((depNotify (collectDeps w store reads).2 d).count w.id) = 1 := by
  have h3 : ∀ i, w.id ∈ store i ↔ (i ∈ w.depIds ∨ i ∈ w.newDepIds) := by
    intro i
    constructor
    · intro h; exact Or.inl ((hmem i).mp h)
    · rintro (h | h)
      · exact (hmem i).mpr h
      · rw [hfresh2] at h; exact absurd h (List.not_mem_nil i)
  have inv := collectDeps_invariant reads w store
    (by rw [hfresh1, hfresh2]) (by rw [hfresh2]; exact List.nodup_nil) h3 hcnt
  have hdmem : d ∈ (collectDeps w store reads).1.newDepIds :=
    inv.2.2.2.2.2.2.2 d hread
  have hsubmem : w.id ∈ (collectDeps w store reads).2 d :=
    (inv.2.2.2.2.1 d).mpr (Or.inr hdmem)
  have hsub1 : (((collectDeps w store reads).2 d).count w.id) = 1 := by
    have hge := List.count_pos_iff.mpr hsubmem
    have hle := inv.2.2.2.2.2.1 d
    omega
  refine ⟨?_, hsub1, hsub1⟩
  rw [inv.2.2.1]
  have hle := List.nodup_iff_count_le_one.mp inv.2.2.2.1 d
  have hge := List.count_pos_iff.mpr hdmem
  omega

theorem addDep_dedup_single_update_witness :
    ((collectDeps sampleWatcher (fun _ => []) [3, 3, 4]).1.newDeps.count 3) = 1 ∧
    (((collectDeps sampleWatcher (fun _ => []) [3, 3, 4]).2 3).count 7) = 1 := by
  have h := addDep_dedup_single_update sampleWatcher (fun _ => []) [3, 3, 4] 3
    rfl rfl
    (by intro i
        constructor
        · intro hm; exact absurd hm (List.not_mem_nil 7)
        · intro hm; exact absurd hm (List.not_mem_nil i))
    (by intro i; simp)
    (by decide)
  exact ⟨h.1, h.2.1⟩

/-! ## The virtual-DOM model (`src/core/vdom/vnode.js`, `src/core/vdom/patch.js`)

A `VNode` carries the scalar fields of the source's `VNode` class relevant to
patching, plus its children.  JavaScript object identity (the `===` checks of
`patch.js`) is modelled by the `vid` field; native DOM handles by `ℕ` ids in
`elm`.  `data` is modelled by its definedness (`hasData`) together with the
`data.attrs`/`attrs.type` chain needed by `sameInputType` (`attrs`); the
`data.hook` object (`init`/`prepatch`/`update`/`postpatch`) belongs to the
component-instantiation collaborator that the spec excludes from the core, so
in this fragment those hooks are absent — the vnodes modelled are plain
element/text/comment nodes.  `componentOptions` records definedness of the
source field of that name (the marker of a component placeholder). -/

inductive JSKey where
  | str (s : String)
  | num (n : ℤ)
deriving DecidableEq, Repr

structure VSc where
  vid : ℕ
  tag : Option String
  hasData : Bool
  attrs : Option (Option String)
  key : Option JSKey
  text : Option String
  elm : Option ℕ
  isComment : Bool
  isStatic : Bool
  isCloned : Bool
  isOnce : Bool
  isAsyncPlaceholder : Bool
  asyncFactory : Option ℕ
  asyncFactoryError : Bool
  asyncFactoryResolved : Bool
  componentInstance : Option ℕ
  componentOptions : Bool
deriving DecidableEq, Repr

inductive VNode where
  | mk (sc : VSc) (children : Option (List VNode))

def VNode.sc : VNode → VSc
  | .mk s _ => s

def VNode.children : VNode → Option (List VNode)
  | .mk _ c => c

/-- The value of `isDef(i = x.data) && isDef(i = i.attrs) && i.type` in
`sameInputType`: JavaScript leaves it as `false` when `data` or `attrs` is
undefined, as `undefined` when `attrs.type` is absent, and as the type string
otherwise. -/
inductive InType where
  | tfalse
  | tundef
  | tstr (s : String)
deriving DecidableEq, Repr

def inputTypeChain (v : VNode) : InType :=
  if v.sc.hasData then
    match v.sc.attrs with
    | none => .tfalse
    | some none => .tundef
    | some (some s) => .tstr s
  else .tfalse

/-- `isTextInputType` from `web/util/element.js` (not among the sources at
hand; per its use sites' documentation it is
`makeMap('text,number,password,search,email,tel,url')`). -/
def isTextInputType : InType → Bool
  | .tstr s => ["text", "number", "password", "search", "email", "tel", "url"].contains s
  | _ => false

/-- `sameInputType` (`src/core/vdom/patch.js`): only constrains `<input>`
elements; their `attrs.type` chains must be strictly equal or both be
text-like input types. -/
def sameInputType (a b : VNode) : Bool :=
  if a.sc.tag ≠ some "input" then true
  else
    let typeA := inputTypeChain a
    let typeB := inputTypeChain b
    decide (typeA = typeB) || (isTextInputType typeA && isTextInputType typeB)

/-- `sameVnode` (`src/core/vdom/patch.js`): equal keys, and either equal
tag/comment-flag/data-definedness with compatible input types, or the old
node is an async placeholder sharing the new node's factory with no load
error. -/
def sameVnode (a b : VNode) : Bool :=
  decide (a.sc.key = b.sc.key) &&
  ((decide (a.sc.tag = b.sc.tag) && decide (a.sc.isComment = b.sc.isComment) &&
      decide (a.sc.hasData = b.sc.hasData) && sameInputType a b)
    ||
   (a.sc.isAsyncPlaceholder && decide (a.sc.asyncFactory = b.sc.asyncFactory) &&
      !b.sc.asyncFactoryError))

/-- The kind of a Tree Node in the spec's vocabulary:
element vs text vs comment. -/
inductive NodeKind where
  | comment
  | text
  | element
deriving DecidableEq, Repr

def kindOf (v : VNode) : NodeKind :=
  if v.sc.isComment then .comment
  else if v.sc.tag = none then .text
  else .element

/-- The spec's §3 identity rule, written from its words: same logical node iff
"equal key AND equal tag AND equal kind (element vs text vs comment) AND
matching component-ness". -/
def specSameLogicalNode (a b : VNode) : Bool :=
  decide (a.sc.key = b.sc.key) && decide (a.sc.tag = b.sc.tag) &&
  decide (kindOf a = kindOf b) &&
  decide (a.sc.componentOptions = b.sc.componentOptions)

/-- An `<input type="text">` element vnode mounted at handle 10. -/
def inputTextVnode : VNode :=
  .mk { vid := 1, tag := some "input", hasData := true, attrs := some (some "text"),
        key := some (.num 1), text := none, elm := some 10, isComment := false,
        isStatic := false, isCloned := false, isOnce := false,
        isAsyncPlaceholder := false, asyncFactory := none,
        asyncFactoryError := false, asyncFactoryResolved := false,
        componentInstance := none, componentOptions := false } none

/-- An `<input type="radio">` element vnode with the same key and tag. -/
def inputRadioVnode : VNode :=
  .mk { vid := 2, tag := some "input", hasData := true, attrs := some (some "radio"),
        key := some (.num 1), text := none, elm := none, isComment := false,
        isStatic := false, isCloned := false, isOnce := false,
        isAsyncPlaceholder := false, asyncFactory := none,
        asyncFactoryError := false, asyncFactoryResolved := false,
        componentInstance := none, componentOptions := false } none

/-- **C5 counterexample.** Two `<input>` vnodes with equal key, equal tag,
equal kind and equal component-ness (both plain elements) that `sameVnode`
nevertheless distinguishes, because their `attrs.type` values ("text" vs
"radio") fail `sameInputType`: the claim's `iff` does not hold on the code. -/
theorem sameVnode_spec_identity_counterexample :
    specSameLogicalNode inputTextVnode inputRadioVnode = true ∧
    sameVnode inputTextVnode inputRadioVnode = false := by decide

/-- The amended identity rule: equal keys, and either (equal kind and tag,
equal data-definedness, compatible `<input>` types) or the async-placeholder
escape (old node is an async placeholder for the same factory and the
factory has not errored). -/
def specAmendedSameLogicalNode (a b : VNode) : Bool :=
  decide (a.sc.key = b.sc.key) &&
  ((decide (kindOf a = kindOf b) && decide (a.sc.tag = b.sc.tag) &&
      decide (a.sc.hasData = b.sc.hasData) && sameInputType a b)
    ||
   (a.sc.isAsyncPlaceholder && decide (a.sc.asyncFactory = b.sc.asyncFactory) &&
      !b.sc.asyncFactoryError))

/-- **C5 (amended).** `sameVnode(a, b)` holds iff `a` and `b` have strictly
equal keys and either agree on kind, tag, data-definedness and input type, or
`a` is an async placeholder for `b`'s unerrored factory.  (Component-ness is
not consulted beyond the tag: component placeholders carry their component
tag.) -/
theorem sameVnode_amended_characterisation (a b : VNode) :
    sameVnode a b = specAmendedSameLogicalNode a b := by
  unfold sameVnode specAmendedSameLogicalNode
  by_cases htag : a.sc.tag = b.sc.tag
  · have hk : (kindOf a = kindOf b) ↔ (a.sc.isComment = b.sc.isComment) := by
      unfold kindOf
      rw [htag]
      cases hc1 : a.sc.isComment <;> cases hc2 : b.sc.isComment <;>
        rcases hbt : b.sc.tag with _ | t <;> simp [hc1, hc2, hbt]
    have hd : decide (kindOf a = kindOf b) = decide (a.sc.isComment = b.sc.isComment) :=
      decide_eq_decide.mpr hk
    rw [hd, Bool.and_comm (decide (a.sc.tag = b.sc.tag))
      (decide (a.sc.isComment = b.sc.isComment))]
  · simp [htag]

/-! ## The native-tree (DOM) adapter and patch state

`nodeOps` (`web/runtime/node-ops.js`) is modelled by a document: an
association of parent handle to its ordered child handles.  `insertBefore`
moves the inserted node out of its previous parent first, as the DOM does. -/

abbrev Dom := List (ℕ × List ℕ)

def domChildren (dom : Dom) (p : ℕ) : List ℕ :=
  match dom.find? (fun e => e.1 = p) with
  | some e => e.2
  | none => []

def domSetChildren (dom : Dom) (p : ℕ) (l : List ℕ) : Dom :=
  if (dom.map Prod.fst).contains p then
    dom.map (fun e => if e.1 = p then (p, l) else e)
  else dom ++ [(p, l)]

/-- Detach a handle from whatever parent currently holds it. -/
def domDetach (dom : Dom) (e : ℕ) : Dom :=
  dom.map (fun ent => (ent.1, ent.2.filter (fun x => x ≠ e)))

def domParentOf (dom : Dom) (e : ℕ) : Option ℕ :=
  (dom.find? (fun ent => ent.2.contains e)).map Prod.fst

/-- Insert `x` immediately before the first occurrence of `r` (at the end if
`r` is absent, the `insertBefore(parent, x, null)` appending behaviour). -/
def listInsertBefore (l : List ℕ) (x : ℕ) (r : Option ℕ) : List ℕ :=
  match r with
  | none => l ++ [x]
  | some r =>
      match l with
      | [] => [x]
      | a :: rest =>
          if a = r then x :: a :: rest
          else a :: listInsertBefore rest x (some r)

/-- `nodeOps.insertBefore(parent, elm, ref)`: the DOM moves `elm` (detaching
it from its old position) and inserts it before `ref` (appending when `ref`
is `null`). -/
def domInsertBefore (dom : Dom) (p : ℕ) (e : ℕ) (ref : Option ℕ) : Dom :=
  let dom := domDetach dom e
  domSetChildren dom p (listInsertBefore (domChildren dom p) e ref)

def domAppendChild (dom : Dom) (p : ℕ) (e : ℕ) : Dom :=
  let dom := domDetach dom e
  domSetChildren dom p (domChildren dom p ++ [e])

def domRemoveChild (dom : Dom) (e : ℕ) : Dom :=
  domDetach dom e

/-- `nodeOps.nextSibling`. -/
def domNextSibling (dom : Dom) (e : Option ℕ) : Option ℕ :=
  match e with
  | none => none
  | some e =>
      match domParentOf dom e with
      | none => none
      | some p =>
          let l := domChildren dom p
          match l.findIdx? (fun x => x = e) with
          | some i => l.get? (i + 1)
          | none => none

/-- Native-tree operations and instrumentation events recorded by the patch
functions, in execution order.  `patched` marks an invocation of
`patchVnode(old, new)` (by the `vid`s at entry); `removeVnodesCalled` marks an
invocation of `removeVnodes`. -/
inductive POp where
  | createEl (elm : ℕ) (tag : String)
  | createText (elm : ℕ) (text : String)
  | createComment (elm : ℕ) (text : String)
  | insertBefore (parent : Option ℕ) (elm : Option ℕ) (ref : Option ℕ)
  | appendChild (parent : Option ℕ) (elm : Option ℕ)
  | removeChild (parent : ℕ) (elm : ℕ)
  | setTextContent (elm : Option ℕ) (text : String)
  | createCbs (vid : ℕ)
  | updateCbs (oldVid newVid : ℕ)
  | destroyCbs (vid : ℕ)
  | removeCbs (vid : ℕ)
  | warnDupKey (k : JSKey)
  | patched (oldVid newVid : ℕ)
  | removeVnodesCalled
  | hydrated (vid : ℕ)
deriving DecidableEq, Repr

/-- The mutable context threaded through the patch functions: fresh native
handle ids, fresh vnode object ids (for clones), the document, the event
trace. -/
structure PState where
  nextElm : ℕ
  nextVid : ℕ
  dom : Dom
  ops : List POp

def PState.emit (st : PState) (op : POp) : PState :=
  { st with ops := st.ops ++ [op] }

def nodeInsertBefore (st : PState) (parent : Option ℕ) (elm ref : Option ℕ) :
    PState :=
  match parent, elm with
  | some p, some e =>
      { st with dom := domInsertBefore st.dom p e ref,
                ops := st.ops ++ [.insertBefore parent elm ref] }
  | _, _ => st.emit (.insertBefore parent elm ref)

def nodeAppendChild (st : PState) (parent : Option ℕ) (elm : Option ℕ) : PState :=
  match parent, elm with
  | some p, some e =>
      { st with dom := domAppendChild st.dom p e,
                ops := st.ops ++ [.appendChild parent elm] }
  | _, _ => st.emit (.appendChild parent elm)

/-- `removeNode(el)`: look up the parent (the element may already be gone)
and `removeChild` it when present. -/
def nodeRemoveNode (st : PState) (elm : Option ℕ) : PState :=
  match elm with
  | none => st
  | some e =>
      match domParentOf st.dom e with
      | some p =>
          { st with dom := domRemoveChild st.dom e,
                    ops := st.ops ++ [.removeChild p e] }
      | none => st

def nodeSetTextContent (st : PState) (elm : Option ℕ) (t : String) : PState :=
  st.emit (.setTextContent elm t)

/-- `insert(parent, elm, ref)` from `createPatchFunction`: guarded insertion —
before a `ref` only if `ref`'s current parent is `parent`, else append. -/
def insertNode (st : PState) (parent : Option ℕ) (elm ref : Option ℕ) : PState :=
  match parent with
  | none => st
  | some p =>
      match ref with
      | some r =>
          if domParentOf st.dom r = some p then nodeInsertBefore st parent elm ref
          else st
      | none => nodeAppendChild st parent elm

/-! ## Pure helpers of the patch algorithm -/

/-- JavaScript array indexing `l[i]`: out-of-range (including negative)
indices read as `undefined`. -/
def getI {α : Type} (l : List α) (i : ℤ) : Option α :=
  if 0 ≤ i then l.get? i.toNat else none

/-- JavaScript array element assignment at an in-range index. -/
def setI {α : Type} (l : List α) (i : ℤ) (a : α) : List α :=
  if 0 ≤ i then l.set i.toNat a else l

def VNode.withElm (v : VNode) (e : Option ℕ) : VNode :=
  .mk { v.sc with elm := e } v.children

def VNode.withChildren (v : VNode) (cs : Option (List VNode)) : VNode :=
  .mk v.sc cs

/-- `cloneVNode` (`src/core/vdom/vnode.js`): a fresh `VNode` (fresh object
identity) built from the old one's constructor fields, with `ns`,
`isStatic`, `key`, `isComment`, `fn*`, `asyncMeta` copied over and `isCloned`
set; `componentInstance`, `isAsyncPlaceholder` and `isOnce` are reset by the
constructor. -/
def cloneVNodeM (v : VNode) (st : PState) : VNode × PState :=
  (.mk
    { v.sc with
      vid := st.nextVid, isCloned := true, isOnce := false,
      componentInstance := none, isAsyncPlaceholder := false }
    v.children,
   { st with nextVid := st.nextVid + 1 })

/-- `isPatchable`: whether the vnode has a real element tag.  (The source
first chases `componentInstance._vnode` chains; component instances are
outside this fragment, so the chase is a no-op here.) -/
def isPatchable (v : VNode) : Bool :=
  v.sc.tag.isSome

/-- `checkDuplicateKeys` (dev mode): warn once per duplicated key value. -/
def checkDuplicateKeys (children : List VNode) (st : PState) : PState :=
  (children.foldl
    (fun (acc : List JSKey × PState) c =>
      match c.sc.key with
      | none => acc
      | some k =>
          if k ∈ acc.1 then (acc.1, acc.2.emit (.warnDupKey k))
          else (acc.1 ++ [k], acc.2))
    ([], st)).2

def assocSet (m : List (JSKey × ℤ)) (k : JSKey) (v : ℤ) : List (JSKey × ℤ) :=
  if (m.map Prod.fst).contains k then
    m.map (fun p => if p.1 = k then (k, v) else p)
  else m ++ [(k, v)]

def assocGet (m : List (JSKey × ℤ)) (k : JSKey) : Option ℤ :=
  (m.find? (fun p => p.1 = k)).map Prod.snd

/-- The loop of `createKeyToOldIdx` over `i ∈ [beginIdx, endIdx]`, recorded
as remaining count plus cursor.  A later index with the same key overwrites
an earlier one, as JavaScript object assignment does.  (At the time the map
is built no entry has been unset yet, but the model is total: unset or
out-of-range entries contribute nothing.) -/
def keyToOldIdxGo (children : List (Option VNode)) :
    ℕ → ℤ → List (JSKey × ℤ) → List (JSKey × ℤ)
  | 0, _, m => m
  | n + 1, i, m =>
      let m' := match getI children i with
        | some (some c) =>
            match c.sc.key with
            | some k => assocSet m k i
            | none => m
        | _ => m
      keyToOldIdxGo children n (i + 1) m'

/-- `createKeyToOldIdx`: key → index map over the unconsumed old range. -/
def createKeyToOldIdx (children : List (Option VNode)) (beginIdx endIdx : ℤ) :
    List (JSKey × ℤ) :=
  keyToOldIdxGo children (endIdx + 1 - beginIdx).toNat beginIdx []

/-- The loop of `findIdxInOld` with the remaining iteration count made
explicit: scan `i ∈ [start, stop)` for a defined entry that is
`sameVnode` with `node`, returning the first such index. -/
def findIdxGo (node : VNode) (oldCh : List (Option VNode)) :
    ℕ → ℤ → Option ℤ
  | 0, _ => none
  | n + 1, i =>
      match getI oldCh i with
      | some (some c) =>
          if sameVnode node c then some i else findIdxGo node oldCh n (i + 1)
      | _ => findIdxGo node oldCh n (i + 1)

/-- `findIdxInOld(node, oldCh, start, end)`: linear scan over
`start ≤ i < end` — the `end` bound is exclusive
(`for (let i = start; i < end; i++)`). -/
def findIdxInOld (node : VNode) (oldCh : List (Option VNode))
    (start stop : ℤ) : Option ℤ :=
  findIdxGo node oldCh (stop - start).toNat start

/-- `removeAndInvokeRemoveHook` without a passed-down `rm`: with `data`
present, the module `remove` hooks run and the collected callback then
detaches the element (the recursion into a component root's `_vnode` and
`data.hook.remove` do not arise in this fragment); with no `data`, the
element is removed directly. -/
def removeAndInvokeRemoveHookM (v : VNode) (st : PState) : PState :=
  if v.sc.hasData then nodeRemoveNode (st.emit (.removeCbs v.sc.vid)) v.sc.elm
  else nodeRemoveNode st v.sc.elm

/-! ## The patch functions

The mutually recursive functions of `createPatchFunction`
(`src/core/vdom/patch.js`), written with an explicit `fuel` parameter
(decremented at every call) so that recursion is structural; `none` means
the fuel ran out (every theorem about a run exhibits a sufficient fuel).
Two systematic deviations from the source, both noted where they occur:
cursor vnodes are re-read from the arrays instead of cached in locals (the
arrays are never written at a live cursor index, so the reads agree), and
`vnode.isRootInsert`/`setScope`/the dev unknown-element check (transition
and scoped-CSS bookkeeping with no bearing on tree shape) are omitted. -/

mutual

/-- `createElm`: build the native subtree for `vnode`, then insert it at
`refElm` under `parentElm`.  A vnode that already has an `elm` and sits in an
owner array is cloned first.  `createComponent` consults `data.hook.init`,
which is absent in this fragment, so control always falls through to the
element/comment/text cases. -/
def createElmF : ℕ → VNode → Option ℕ → Option ℕ → Bool → PState →
    Option (VNode × PState)
  | 0, _, _, _, _, _ => none
  | fuel + 1, v0, parentElm, refElm, ownerGiven, st =>
      let p := if v0.sc.elm.isSome && ownerGiven then cloneVNodeM v0 st else (v0, st)
      let v := p.1
      let st := p.2
      match v.sc.tag with
      | some t =>
          let e := st.nextElm
          let st : PState :=
            { st with nextElm := e + 1, ops := st.ops ++ [.createEl e t] }
          let v := v.withElm (some e)
          match v.children with
          | some cs =>
              let st := checkDuplicateKeys cs st
              match createChildrenF fuel cs (some e) st with
              | none => none
              | some (cs', st) =>
                  let v := v.withChildren (some cs')
                  let st := if v.sc.hasData then st.emit (.createCbs v.sc.vid) else st
                  some (v, insertNode st parentElm (some e) refElm)
          | none =>
              let st := match v.sc.text with
                | some tx =>
                    let te := st.nextElm
                    let st : PState :=
                      { st with nextElm := te + 1, ops := st.ops ++ [.createText te tx] }
                    nodeAppendChild st (some e) (some te)
                | none => st
              let st := if v.sc.hasData then st.emit (.createCbs v.sc.vid) else st
              some (v, insertNode st parentElm (some e) refElm)
      | none =>
          if v.sc.isComment then
            let e := st.nextElm
            let st : PState :=
              { st with nextElm := e + 1,
                        ops := st.ops ++ [.createComment e (v.sc.text.getD "")] }
            some (v.withElm (some e), insertNode st parentElm (some e) refElm)
          else
            let e := st.nextElm
            let st : PState :=
              { st with nextElm := e + 1,
                        ops := st.ops ++ [.createText e (v.sc.text.getD "")] }
            some (v.withElm (some e), insertNode st parentElm (some e) refElm)

/-- The loop of `createChildren`: `createElm` each child under the new
element (nested, owner array given). -/
def createChildrenF : ℕ → List VNode → Option ℕ → PState →
    Option (List VNode × PState)
  | _, [], _, st => some ([], st)
  | 0, _ :: _, _, _ => none
  | fuel + 1, c :: rest, parentElm, st =>
      match createElmF fuel c parentElm none true st with
      | none => none
      | some (c', st) =>
          match createChildrenF fuel rest parentElm st with
          | none => none
          | some (rest', st) => some (c' :: rest', st)

/-- `addVnodes`: `createElm` each of `vnodes[startIdx..endIdx]` before
`refElm`. -/
def addVnodesF : ℕ → Option ℕ → Option ℕ → List VNode → ℤ → ℤ → PState →
    Option (List VNode × PState)
  | 0, _, _, _, _, _, _ => none
  | fuel + 1, parentElm, refElm, vnodes, startIdx, endIdx, st =>
      if startIdx ≤ endIdx then
        match getI vnodes startIdx with
        | none => none
        | some v =>
            match createElmF fuel v parentElm refElm true st with
            | none => none
            | some (v', st) =>
                addVnodesF fuel parentElm refElm (setI vnodes startIdx v')
                  (startIdx + 1) endIdx st
      else some (vnodes, st)

/-- `invokeDestroyHook`: module `destroy` hooks (when `data` is present),
then recurse over the children. -/
def invokeDestroyHookF : ℕ → VNode → PState → Option PState
  | 0, _, _ => none
  | fuel + 1, v, st =>
      let st := if v.sc.hasData then st.emit (.destroyCbs v.sc.vid) else st
      match v.children with
      | some cs => destroyChildrenF fuel cs st
      | none => some st

def destroyChildrenF : ℕ → List VNode → PState → Option PState
  | _, [], st => some st
  | 0, _ :: _, _ => none
  | fuel + 1, c :: rest, st =>
      match invokeDestroyHookF fuel c st with
      | none => none
      | some st => destroyChildrenF fuel rest st

/-- `removeVnodes`: for each defined entry of `vnodes[startIdx..endIdx]`,
detach it with remove hooks and run destroy hooks (element nodes), or just
detach it (text nodes). -/
def removeVnodesF : ℕ → List (Option VNode) → ℤ → ℤ → PState → Option PState
  | 0, _, _, _, _ => none
  | fuel + 1, vnodes, startIdx, endIdx, st =>
      if startIdx ≤ endIdx then
        match (getI vnodes startIdx).join with
        | some ch =>
            if ch.sc.tag.isSome then
              let st := removeAndInvokeRemoveHookM ch st
              match invokeDestroyHookF fuel ch st with
              | none => none
              | some st => removeVnodesF fuel vnodes (startIdx + 1) endIdx st
            else
              removeVnodesF fuel vnodes (startIdx + 1) endIdx
                (nodeRemoveNode st ch.sc.elm)
        | none => removeVnodesF fuel vnodes (startIdx + 1) endIdx st
      else some st

/-- `patchVnode(oldVnode, vnode, …)`.  The `patched` event records the
invocation with the entry `vid`s.  `data.hook`
(`prepatch`/`update`/`postpatch`) belongs to the excluded component
collaborator and is absent here; the module `update` hooks are the
`updateCbs` event. -/
def patchVnodeF : ℕ → VNode → VNode → Bool → Bool → PState →
    Option (VNode × PState)
  | 0, _, _, _, _, _ => none
  | fuel + 1, oldV, v0, ownerGiven, removeOnly, st =>
      let st := st.emit (.patched oldV.sc.vid v0.sc.vid)
      if oldV.sc.vid = v0.sc.vid then some (v0, st)
      else
        let p := if v0.sc.elm.isSome && ownerGiven then cloneVNodeM v0 st else (v0, st)
        let v := (p.1).withElm oldV.sc.elm
        let st := p.2
        if oldV.sc.isAsyncPlaceholder then
          if v.sc.asyncFactoryResolved then
            some (v, st.emit (.hydrated v.sc.vid))
          else
            some (.mk { v.sc with isAsyncPlaceholder := true } v.children, st)
        else
        if v.sc.isStatic && oldV.sc.isStatic && decide (v.sc.key = oldV.sc.key)
            && (v.sc.isCloned || v.sc.isOnce) then
          some (.mk { v.sc with componentInstance := oldV.sc.componentInstance }
            v.children, st)
        else
          let st := if v.sc.hasData && isPatchable v then
              st.emit (.updateCbs oldV.sc.vid v.sc.vid)
            else st
          match v.sc.text with
          | none =>
              match oldV.children, v.children with
              | some oldCs, some cs =>
                  -- `if (oldCh !== ch)`: array identity is not tracked in
                  -- this value model; distinct render generations are
                  -- distinct arrays, so the children are diffed
                  match updateChildrenTop fuel oldV.sc.elm oldCs cs removeOnly st with
                  | none => none
                  | some (_, cs', st) => some (v.withChildren (some cs'), st)
              | none, some cs =>
                  let st := checkDuplicateKeys cs st
                  let st := if oldV.sc.text.isSome then
                      nodeSetTextContent st oldV.sc.elm ""
                    else st
                  match addVnodesF fuel oldV.sc.elm none cs 0 ((cs.length : ℤ) - 1) st with
                  | none => none
                  | some (cs', st) => some (v.withChildren (some cs'), st)
              | some oldCs, none =>
                  match removeVnodesF fuel (oldCs.map some) 0 ((oldCs.length : ℤ) - 1)
                      (st.emit .removeVnodesCalled) with
                  | none => none
                  | some st => some (v, st)
              | none, none =>
                  if oldV.sc.text.isSome then some (v, nodeSetTextContent st oldV.sc.elm "")
                  else some (v, st)
          | some tx =>
              if oldV.sc.text ≠ some tx then
                some (v, nodeSetTextContent st oldV.sc.elm tx)
              else some (v, st)

/-- Entry into `updateChildren`: dev duplicate-key check, then the
four-cursor loop over the full ranges with no key map built yet. -/
def updateChildrenTop : ℕ → Option ℕ → List VNode → List VNode → Bool → PState →
    Option (List (Option VNode) × List VNode × PState)
  | 0, _, _, _, _, _ => none
  | fuel + 1, parentElm, oldCh, newCh, removeOnly, st =>
      let st := checkDuplicateKeys newCh st
      updateChildrenF fuel parentElm (oldCh.map some) newCh
        0 ((oldCh.length : ℤ) - 1) 0 ((newCh.length : ℤ) - 1) none removeOnly st

/-- The `while (oldStartIdx <= oldEndIdx && newStartIdx <= newEndIdx)` loop
of `updateChildren`, plus its trailing `addVnodes`/`removeVnodes`.  The
cursor state is the four indices; consumed old entries are tombstoned to
`none` in `oldCh`; patched/created new vnodes are written back into `newCh`
(the `ownerArray` writes of the source); `keyMap` is the lazily built
key→index table (`canMove = !removeOnly`). -/
def updateChildrenF : ℕ → Option ℕ → List (Option VNode) → List VNode →
    ℤ → ℤ → ℤ → ℤ → Option (List (JSKey × ℤ)) → Bool → PState →
    Option (List (Option VNode) × List VNode × PState)
  | 0, _, _, _, _, _, _, _, _, _, _ => none
  | fuel + 1, parentElm, oldCh, newCh, oldS, oldE, newS, newE, keyMap, removeOnly, st =>
      if oldS ≤ oldE ∧ newS ≤ newE then
        match (getI oldCh oldS).join with
        | none =>
            updateChildrenF fuel parentElm oldCh newCh (oldS + 1) oldE newS newE
              keyMap removeOnly st
        | some osv =>
            match (getI oldCh oldE).join with
            | none =>
                updateChildrenF fuel parentElm oldCh newCh oldS (oldE - 1) newS newE
                  keyMap removeOnly st
            | some oev =>
                match getI newCh newS, getI newCh newE with
                | some nsv, some nev =>
                    if sameVnode osv nsv then
                      match patchVnodeF fuel osv nsv true removeOnly st with
                      | none => none
                      | some (nsv', st) =>
                          updateChildrenF fuel parentElm oldCh (setI newCh newS nsv')
                            (oldS + 1) oldE (newS + 1) newE keyMap removeOnly st
                    else if sameVnode oev nev then
                      match patchVnodeF fuel oev nev true removeOnly st with
                      | none => none
                      | some (nev', st) =>
                          updateChildrenF fuel parentElm oldCh (setI newCh newE nev')
                            oldS (oldE - 1) newS (newE - 1) keyMap removeOnly st
                    else if sameVnode osv nev then
                      match patchVnodeF fuel osv nev true removeOnly st with
                      | none => none
                      | some (nev', st) =>
                          let st := if !removeOnly then
                              nodeInsertBefore st parentElm osv.sc.elm
                                (domNextSibling st.dom oev.sc.elm)
                            else st
                          updateChildrenF fuel parentElm oldCh (setI newCh newE nev')
                            (oldS + 1) oldE newS (newE - 1) keyMap removeOnly st
                    else if sameVnode oev nsv then
                      match patchVnodeF fuel oev nsv true removeOnly st with
                      | none => none
                      | some (nsv', st) =>
                          let st := if !removeOnly then
                              nodeInsertBefore st parentElm oev.sc.elm osv.sc.elm
                            else st
                          updateChildrenF fuel parentElm oldCh (setI newCh newS nsv')
                            oldS (oldE - 1) (newS + 1) newE keyMap removeOnly st
                    else
                      let m := match keyMap with
                        | some m => m
                        | none => createKeyToOldIdx oldCh oldS oldE
                      let idxInOld := match nsv.sc.key with
                        | some k => assocGet m k
                        | none => findIdxInOld nsv oldCh oldS oldE
                      match idxInOld with
                      | none =>
                          match createElmF fuel nsv parentElm osv.sc.elm true st with
                          | none => none
                          | some (nsv', st) =>
                              updateChildrenF fuel parentElm oldCh (setI newCh newS nsv')
                                oldS oldE (newS + 1) newE (some m) removeOnly st
                      | some idx =>
                          match (getI oldCh idx).join with
                          | none => none
                          | some vtm =>
                              if sameVnode vtm nsv then
                                match patchVnodeF fuel vtm nsv true removeOnly st with
                                | none => none
                                | some (nsv', st) =>
                                    let oldCh := setI oldCh idx none
                                    let st := if !removeOnly then
                                        nodeInsertBefore st parentElm vtm.sc.elm osv.sc.elm
                                      else st
                                    updateChildrenF fuel parentElm oldCh
                                      (setI newCh newS nsv') oldS oldE (newS + 1) newE
                                      (some m) removeOnly st
                              else
                                match createElmF fuel nsv parentElm osv.sc.elm true st with
                                | none => none
                                | some (nsv', st) =>
                                    updateChildrenF fuel parentElm oldCh
                                      (setI newCh newS nsv') oldS oldE (newS + 1) newE
                                      (some m) removeOnly st
                | _, _ => none
      else
        if oldS > oldE then
          let refElm := match getI newCh (newE + 1) with
            | some nv => nv.sc.elm
            | none => none
          match addVnodesF fuel parentElm refElm newCh newS newE st with
          | none => none
          | some (newCh', st) => some (oldCh, newCh', st)
        else
          match removeVnodesF fuel oldCh oldS oldE (st.emit .removeVnodesCalled) with
          | none => none
          | some st => some (oldCh, newCh, st)

end

/-! ## The static-subtree short circuit (patchVnode) -/

/-- A mounted static element vnode (previous generation), carrying a
component instance to observe whether it is carried over. -/
def staticOldVnode : VNode :=
  .mk { vid := 1, tag := some "div", hasData := true, attrs := none,
        key := some (.num 9), text := none, elm := some 10, isComment := false,
        isStatic := true, isCloned := false, isOnce := false,
        isAsyncPlaceholder := false, asyncFactory := none,
        asyncFactoryError := false, asyncFactoryResolved := false,
        componentInstance := some 3, componentOptions := false } none

/-- The next generation of the same static node, not produced by
`cloneVNode` and not a `v-once` node. -/
def staticNewVnode : VNode :=
  .mk { vid := 2, tag := some "div", hasData := true, attrs := none,
        key := some (.num 9), text := none, elm := none, isComment := false,
        isStatic := true, isCloned := false, isOnce := false,
        isAsyncPlaceholder := false, asyncFactory := none,
        asyncFactoryError := false, asyncFactoryResolved := false,
        componentInstance := none, componentOptions := false } none

def emptyPState : PState := { nextElm := 100, nextVid := 50, dom := [], ops := [] }

/-- **C6 counterexample.** Both vnodes are flagged static with equal keys,
yet `patchVnode` does not return early: the new node is neither cloned nor
`v-once` (the `isCloned || isOnce` conjunct of the guard fails), so the
module `update` hooks run and the old `componentInstance` is not carried
over. -/
theorem patchVnode_static_counterexample :
    (patchVnodeF 5 staticOldVnode staticNewVnode false false emptyPState).map
        (fun r => (r.2.ops, r.1.sc.componentInstance, r.1.sc.elm))
      = some ([.patched 1 2, .updateCbs 1 2], none, some 10) := by decide

/-- **C6 (amended).** When both vnodes are flagged static with equal keys
*and the new node is a clone or a `v-once` node* (the full guard in the
source), `patchVnode` returns before any update hooks or child diffing: the
only recorded event is the instrumentation marker, and the old node's `elm`
and `componentInstance` are carried onto the new node unchanged. -/
theorem patchVnode_static_shortcircuit (fuel : ℕ) (oldV v : VNode)
    (og removeOnly : Bool) (st : PState)
    (hvid : oldV.sc.vid ≠ v.sc.vid)
    (helm : v.sc.elm = none)
    (hasync : oldV.sc.isAsyncPlaceholder = false)
    (hstat : v.sc.isStatic = true) (hstat2 : oldV.sc.isStatic = true)
    (hkey : v.sc.key = oldV.sc.key)
    (hcl : v.sc.isCloned = true ∨ v.sc.isOnce = true) :
    patchVnodeF (fuel + 1) oldV v og removeOnly st
      = some (.mk
          { v.sc with
            elm := oldV.sc.elm,
            componentInstance := oldV.sc.componentInstance }
          v.children,
          st.emit (.patched oldV.sc.vid v.sc.vid)) := by
  have hclone : (v.sc.elm.isSome && og) = false := by simp [helm]
  have hguard : (v.sc.isStatic && oldV.sc.isStatic && decide (v.sc.key = oldV.sc.key)
      && (v.sc.isCloned || v.sc.isOnce)) = true := by
    rcases hcl with h | h <;> simp [hstat, hstat2, hkey, h]
  cases v with
  | mk vsc vch =>
      simp only [patchVnodeF, VNode.sc] at *
      rw [if_neg hvid]
      simp only [hclone, Bool.false_eq_true, if_false, VNode.withElm, VNode.sc,
        VNode.children, hasync, Bool.false_eq_true, if_false]
      rw [if_pos hguard]

/-! ## The keyed-diff fallback's keyless scan (findIdxInOld) -/

/-- `findIdxGo` returns `none` exactly when no defined entry in the scanned
window is `sameVnode` with the probe node. -/
theorem findIdxGo_none_iff (node : VNode) (oldCh : List (Option VNode)) :
    ∀ (n : ℕ) (i : ℤ),
      (findIdxGo node oldCh n i = none ↔
        ∀ j c, i ≤ j → j < i + n → (getI oldCh j).join = some c →
          sameVnode node c = false) := by
  intro n
  induction n with
  | zero =>
      intro i
      simp only [findIdxGo]
      constructor
      · intro _ j c h1 h2 _
        omega
      · intro _; trivial
  | succ n ih =>
      intro i
      simp only [findIdxGo]
      rcases hg : (getI oldCh i).join with _ | c0
      · -- entry undefined or out of range: the source skips it
        have hg' : getI oldCh i = none ∨ getI oldCh i = some none := by
          rcases hx : getI oldCh i with _ | y
          · exact Or.inl rfl
          · rcases y with _ | z
            · exact Or.inr rfl
            · rw [hx] at hg; exact absurd hg (by simp [Option.join])
        have hstep : (match getI oldCh i with
            | some (some c) => if sameVnode node c then some i
                else findIdxGo node oldCh n (i + 1)
            | _ => findIdxGo node oldCh n (i + 1)) = findIdxGo node oldCh n (i + 1) := by
          rcases hg' with h | h <;> rw [h]
        rw [hstep, ih (i + 1)]
        constructor
        · intro h j c h1 h2 hc
          by_cases hij : j = i
          · subst hij; rw [hc] at hg; exact absurd hg (by simp)
          · exact h j c (by omega) (by omega) hc
        · intro h j c h1 h2 hc
          exact h j c (by omega) (by omega) hc
      · have hsome : getI oldCh i = some (some c0) := by
          rcases hx : getI oldCh i with _ | y
          · rw [hx] at hg; exact absurd hg (by simp [Option.join])
          · rcases y with _ | z
            · rw [hx] at hg; exact absurd hg (by simp [Option.join])
            · rw [hx] at hg
              have hz : z = c0 := by simpa [Option.join] using hg
              rw [hz]
        rw [hsome]
        by_cases hs : sameVnode node c0 = true
        · simp only [hs, if_true]
          constructor
          · intro h; exact absurd h (by simp)
          · intro h
            have := h i c0 le_rfl (by omega) hg
            rw [hs] at this
            exact absurd this (by simp)
        · have hs' : sameVnode node c0 = false := Bool.eq_false_iff.mpr hs
          simp only [hs', Bool.false_eq_true, if_false]
          rw [ih (i + 1)]
          constructor
          · intro h j c h1 h2 hc
            by_cases hij : j = i
            · subst hij
              rw [hc] at hg
              cases hg
              exact hs'
            · exact h j c (by omega) (by omega) hc
          · intro h j c h1 h2 hc
            exact h j c (by omega) (by omega) hc

/-- `findIdxInOld` finds no match exactly when no defined entry with index in
`[start, stop)` — the end EXCLUSIVE — is `sameVnode` with the probe node. -/
theorem findIdxInOld_none_iff (node : VNode) (oldCh : List (Option VNode))
    (start stop : ℤ) (hle : start ≤ stop) :
    (findIdxInOld node oldCh start stop = none ↔
      ∀ j c, start ≤ j → j < stop → (getI oldCh j).join = some c →
        sameVnode node c = false) := by
  unfold findIdxInOld
  rw [findIdxGo_none_iff]
  have : start + ((stop - start).toNat : ℤ) = stop := by omega
  rw [this]

def isCreationOp : POp → Bool
  | .createEl _ _ => true
  | .createText _ _ => true
  | .createComment _ _ => true
  | _ => false

/-- Old-start: a keyless plain element, mounted at 101. -/
def plainOldStart : VNode :=
  .mk { vid := 1, tag := some "div", hasData := false, attrs := none,
        key := none, text := none, elm := some 101, isComment := false,
        isStatic := false, isCloned := false, isOnce := false,
        isAsyncPlaceholder := false, asyncFactory := none,
        asyncFactoryError := false, asyncFactoryResolved := false,
        componentInstance := none, componentOptions := false } none

/-- Old-end: the resolved vnode of an async component (it keeps its
`asyncFactory`), mounted at 102. -/
def resolvedAsyncOld : VNode :=
  .mk { vid := 2, tag := some "vue-component-5", hasData := true, attrs := none,
        key := none, text := none, elm := some 102, isComment := false,
        isStatic := false, isCloned := false, isOnce := false,
        isAsyncPlaceholder := false, asyncFactory := some 5,
        asyncFactoryError := false, asyncFactoryResolved := false,
        componentInstance := none, componentOptions := true } none

/-- New-start (also new-end): a keyless async placeholder comment for the
same factory. -/
def asyncPlaceholderNew : VNode :=
  .mk { vid := 11, tag := none, hasData := false, attrs := none,
        key := none, text := some "", elm := none, isComment := true,
        isStatic := false, isCloned := false, isOnce := false,
        isAsyncPlaceholder := true, asyncFactory := some 5,
        asyncFactoryError := false, asyncFactoryResolved := false,
        componentInstance := none, componentOptions := false } none

def c7State : PState :=
  { nextElm := 200, nextVid := 100, dom := [(50, [101, 102])], ops := [] }

/-- **C7 counterexample.** In the fallback step with a keyless new-start
node, a node of the remaining old range *at old-end inclusive* does match
the new start under `sameVnode` (the async-placeholder disjunct, which the
reversed-argument positional probes cannot see), yet `findIdxInOld` scans
the end-EXCLUSIVE range `[oldStart, oldEnd)`, finds nothing, and a fresh
native handle is created — against the claim's "exactly when no node in
that (inclusive) range matches". -/
theorem keyless_scan_excludes_old_end_counterexample :
    sameVnode asyncPlaceholderNew resolvedAsyncOld = true ∧
    sameVnode plainOldStart asyncPlaceholderNew = false ∧
    sameVnode resolvedAsyncOld asyncPlaceholderNew = false ∧
    findIdxInOld asyncPlaceholderNew [some plainOldStart, some resolvedAsyncOld]
        0 1 = none ∧
    (updateChildrenTop 10 (some 50) [plainOldStart, resolvedAsyncOld]
        [asyncPlaceholderNew] false c7State).map
        (fun r => r.2.2.ops.filter isCreationOp)
      = some [.createComment 200 ""] := by decide

/-! ## Trace-append lemmas -/

theorem nodeInsertBefore_ops (st : PState) (p e r : Option ℕ) :
    ∃ δ, (nodeInsertBefore st p e r).ops = st.ops ++ δ := by
  unfold nodeInsertBefore
  rcases p with _ | p <;> rcases e with _ | e <;>
    exact ⟨_, rfl⟩

theorem nodeAppendChild_ops (st : PState) (p e : Option ℕ) :
    ∃ δ, (nodeAppendChild st p e).ops = st.ops ++ δ := by
  unfold nodeAppendChild
  rcases p with _ | p <;> rcases e with _ | e <;>
    exact ⟨_, rfl⟩

theorem nodeRemoveNode_ops (st : PState) (e : Option ℕ) :
    ∃ δ, (nodeRemoveNode st e).ops = st.ops ++ δ := by
  rcases e with _ | e
  · exact ⟨[], by simp [nodeRemoveNode]⟩
  · rcases h : domParentOf st.dom e with _ | q
    · exact ⟨[], by simp [nodeRemoveNode, h]⟩
    · exact ⟨[.removeChild q e], by simp [nodeRemoveNode, h]⟩

theorem insertNode_ops (st : PState) (p e r : Option ℕ) :
    ∃ δ, (insertNode st p e r).ops = st.ops ++ δ := by
  rcases p with _ | p
  · exact ⟨[], by simp [insertNode]⟩
  · rcases r with _ | r
    · simpa [insertNode] using nodeAppendChild_ops st (some p) e
    · by_cases h : domParentOf st.dom r = some p
      · simpa [insertNode, h] using nodeInsertBefore_ops st (some p) e (some r)
      · exact ⟨[], by simp [insertNode, h]⟩

theorem checkDuplicateKeys_ops (cs : List VNode) :
    ∀ (seen : List JSKey) (st : PState),
      ∃ δ, (cs.foldl
        (fun (acc : List JSKey × PState) c =>
          match c.sc.key with
          | none => acc
          | some k =>
              if k ∈ acc.1 then (acc.1, acc.2.emit (.warnDupKey k))
              else (acc.1 ++ [k], acc.2)) (seen, st)).2
        = { st with ops := st.ops ++ δ } := by
  induction cs with
  | nil =>
      intro seen st
      exact ⟨[], by simp [PState.emit]⟩
  | cons c rest ih =>
      intro seen st
      rcases hk : c.sc.key with _ | k
      · simp only [List.foldl_cons, hk]
        exact ih seen st
      · simp only [List.foldl_cons, hk]
        by_cases hmem : k ∈ seen
        · rw [if_pos hmem]
          rcases ih seen (st.emit (.warnDupKey k)) with ⟨δ, hδ⟩
          exact ⟨.warnDupKey k :: δ, by
            rw [hδ]; simp [PState.emit]⟩
        · rw [if_neg hmem]
          exact ih (seen ++ [k]) st

theorem checkDuplicateKeys_ops' (cs : List VNode) (st : PState) :
    ∃ δ, checkDuplicateKeys cs st = { st with ops := st.ops ++ δ } := by
  unfold checkDuplicateKeys
  exact checkDuplicateKeys_ops cs [] st

/-- With sibling keys unique (the invariant the spec demands of keyed lists),
the dev duplicate-key check emits nothing. -/
theorem checkDuplicateKeys_nodup (cs : List VNode) :
    ∀ (seen : List JSKey) (st : PState),
      (∀ k, k ∈ cs.filterMap (fun c => c.sc.key) → k ∉ seen) →
      (cs.filterMap (fun c => c.sc.key)).Nodup →
      (cs.foldl
        (fun (acc : List JSKey × PState) c =>
          match c.sc.key with
          | none => acc
          | some k =>
              if k ∈ acc.1 then (acc.1, acc.2.emit (.warnDupKey k))
              else (acc.1 ++ [k], acc.2)) (seen, st)).2 = st := by
  induction cs with
  | nil => intro seen st _ _; rfl
  | cons c rest ih =>
      intro seen st hdisj hnd
      rcases hk : c.sc.key with _ | k
      · simp only [List.foldl_cons, hk]
        refine ih seen st ?_ ?_
        · intro k hkm
          refine hdisj k ?_
          simp [List.filterMap_cons, hk, hkm]
        · simpa [List.filterMap_cons, hk] using hnd
      · simp only [List.foldl_cons, hk]
        have hkin : k ∈ (c :: rest).filterMap (fun c => c.sc.key) := by
          simp [List.filterMap_cons, hk]
        have hmem : k ∉ seen := hdisj k hkin
        rw [if_neg hmem]
        have hnd' : (rest.filterMap (fun c => c.sc.key)).Nodup := by
          have := hnd
          rw [List.filterMap_cons, hk] at this
          exact (List.nodup_cons.mp this).2
        have hknr : k ∉ rest.filterMap (fun c => c.sc.key) := by
          have := hnd
          rw [List.filterMap_cons, hk] at this
          exact (List.nodup_cons.mp this).1
        refine ih (seen ++ [k]) st ?_ hnd'
        intro k' hk'
        intro hk'mem
        rcases List.mem_append.mp hk'mem with h | h
        · exact hdisj k' (by simp [List.filterMap_cons, hk, hk']) h
        · rw [List.mem_singleton.mp h] at hk'
          exact hknr hk'

theorem checkDuplicateKeys_nodup' (cs : List VNode) (st : PState)
    (h : (cs.filterMap (fun c => c.sc.key)).Nodup) :
    checkDuplicateKeys cs st = st := by
  unfold checkDuplicateKeys
  exact checkDuplicateKeys_nodup cs [] st (by intro k _ hk; exact absurd hk (List.not_mem_nil k)) h


theorem VNode.sc_withElm (v : VNode) (e : Option ℕ) :
    (v.withElm e).sc = { v.sc with elm := e } := by
  cases v; rfl

theorem VNode.children_withElm (v : VNode) (e : Option ℕ) :
    (v.withElm e).children = v.children := by
  cases v; rfl

theorem VNode.sc_withChildren (v : VNode) (cs : Option (List VNode)) :
    (v.withChildren cs).sc = v.sc := by
  cases v; rfl

/-- Composition of trace extensions. -/
theorem opsExt_trans {s1 s2 s3 : List POp} (h1 : ∃ δ, s2 = s1 ++ δ)
    (h2 : ∃ δ, s3 = s2 ++ δ) : ∃ δ, s3 = s1 ++ δ := by
  rcases h1 with ⟨a, ha⟩
  rcases h2 with ⟨b, hb⟩
  exact ⟨a ++ b, by rw [hb, ha, List.append_assoc]⟩

theorem emit_if_ops (st : PState) (op : POp) (b : Bool) :
    ∃ δ, (if b = true then st.emit op else st).ops = st.ops ++ δ := by
  cases b
  · exact ⟨[], by simp⟩
  · exact ⟨[op], by simp [PState.emit]⟩

/-- `createElm`/`createChildren` only append to the event trace. -/
theorem createElm_ops_mono :
    ∀ fuel : ℕ,
      (∀ (v : VNode) (p r : Option ℕ) (og : Bool) (st : PState) out,
        createElmF fuel v p r og st = some out → ∃ δ, out.2.ops = st.ops ++ δ) ∧
      (∀ (cs : List VNode) (p : Option ℕ) (st : PState) out,
        createChildrenF fuel cs p st = some out → ∃ δ, out.2.ops = st.ops ++ δ) := by
  intro fuel
  induction fuel with
  | zero =>
      constructor
      · intro v p r og st out h
        exact absurd h (by simp [createElmF])
      · intro cs p st out h
        cases cs with
        | nil =>
            simp only [createChildrenF] at h
            cases h
            exact ⟨[], by simp⟩
        | cons c rest => exact absurd h (by simp [createChildrenF])
  | succ fuel ih =>
      obtain ⟨ihE, ihC⟩ := ih
      constructor
      · intro v p r og st out h
        simp only [createElmF] at h
        rcases hP : (if v.sc.elm.isSome && og then cloneVNodeM v st else (v, st))
          with ⟨v1, st1⟩
        have hst1 : ∃ δ, st1.ops = st.ops ++ δ := by
          by_cases hc : (v.sc.elm.isSome && og) = true
          · rw [if_pos hc] at hP
            have h2 := congrArg Prod.snd hP
            simp only [cloneVNodeM] at h2
            refine ⟨[], ?_⟩
            rw [← h2]
            simp
          · rw [if_neg hc] at hP
            cases hP
            exact ⟨[], by simp⟩
        rw [hP] at h
        simp only at h
        rcases htag : v1.sc.tag with _ | t <;> rw [htag] at h <;> simp only at h
        · by_cases hcm : v1.sc.isComment = true
          · rw [if_pos hcm] at h
            cases h
            have l1 : ∃ δ, st1.ops ++ [POp.createComment st1.nextElm (v1.sc.text.getD "")]
                = st1.ops ++ δ := ⟨_, rfl⟩
            exact opsExt_trans hst1 (opsExt_trans l1 (insertNode_ops _ p _ r))
          · rw [if_neg hcm] at h
            cases h
            have l1 : ∃ δ, st1.ops ++ [POp.createText st1.nextElm (v1.sc.text.getD "")]
                = st1.ops ++ δ := ⟨_, rfl⟩
            exact opsExt_trans hst1 (opsExt_trans l1 (insertNode_ops _ p _ r))
        · rw [VNode.children_withElm] at h
          rcases hch : v1.children with _ | cs <;> rw [hch] at h <;> simp only at h
          · -- no children array: maybe a primitive text child
            rw [VNode.sc_withElm] at h
            simp only at h
            rcases htx : v1.sc.text with _ | tx <;> rw [htx] at h <;> simp only at h
            · cases h
              have l1 : ∃ δ, st1.ops ++ [POp.createEl st1.nextElm t] = st1.ops ++ δ :=
                ⟨_, rfl⟩
              exact opsExt_trans hst1 (opsExt_trans l1
                (opsExt_trans (emit_if_ops _ _ _) (insertNode_ops _ p _ r)))
            · cases h
              have l1 : ∃ δ, st1.ops ++ [POp.createEl st1.nextElm t] = st1.ops ++ δ :=
                ⟨_, rfl⟩
              have l2 : ∃ δ, st1.ops ++ [POp.createEl st1.nextElm t]
                  ++ [POp.createText (st1.nextElm + 1) tx]
                  = st1.ops ++ [POp.createEl st1.nextElm t] ++ δ := ⟨_, rfl⟩
              exact opsExt_trans hst1 (opsExt_trans l1 (opsExt_trans l2
                (opsExt_trans (nodeAppendChild_ops _ _ _)
                  (opsExt_trans (emit_if_ops _ _ _) (insertNode_ops _ p _ r)))))
          · rcases hcc : createChildrenF fuel cs (some st1.nextElm)
                (checkDuplicateKeys cs
                  { st1 with nextElm := st1.nextElm + 1,
                             ops := st1.ops ++ [.createEl st1.nextElm t] })
              with _ | csp <;> rw [hcc] at h <;> simp only at h
            · exact absurd h (by simp)
            · rcases csp with ⟨cs', st4⟩
              simp only at h
              cases h
              have l1 : ∃ δ, st1.ops ++ [POp.createEl st1.nextElm t] = st1.ops ++ δ :=
                ⟨_, rfl⟩
              rcases checkDuplicateKeys_ops' cs
                  { st1 with nextElm := st1.nextElm + 1,
                             ops := st1.ops ++ [.createEl st1.nextElm t] }
                with ⟨δ3, hδ3⟩
              have l2 : ∃ δ, (checkDuplicateKeys cs
                  { st1 with nextElm := st1.nextElm + 1,
                             ops := st1.ops ++ [.createEl st1.nextElm t] }).ops
                  = st1.ops ++ [POp.createEl st1.nextElm t] ++ δ := ⟨δ3, by rw [hδ3]⟩
              exact opsExt_trans hst1 (opsExt_trans l1 (opsExt_trans l2
                (opsExt_trans (ihC cs (some st1.nextElm) _ (cs', st4) hcc)
                  (opsExt_trans (emit_if_ops _ _ _) (insertNode_ops _ p _ r)))))
      · intro cs p st out h
        cases cs with
        | nil =>
            simp only [createChildrenF] at h
            cases h
            exact ⟨[], by simp⟩
        | cons c rest =>
            simp only [createChildrenF] at h
            rcases he : createElmF fuel c p none true st with _ | cp
            · rw [he] at h; exact absurd h (by simp)
            · rw [he] at h
              rcases cp with ⟨c', st2⟩
              simp only at h
              rcases hr : createChildrenF fuel rest p st2 with _ | rp
              · rw [hr] at h
                exact absurd h (by simp)
              · rw [hr] at h
                rcases rp with ⟨rest', st3⟩
                simp only at h
                cases h
                exact opsExt_trans (ihE c p none true st (c', st2) he)
                  (ihC rest p st2 (rest', st3) hr)

def createdHandle : POp → Option ℕ
  | .createEl e _ => some e
  | .createText e _ => some e
  | .createComment e _ => some e
  | _ => none

/-- `createElm` allocates the next fresh native handle for the vnode's root:
the returned vnode carries `elm = some st.nextElm` and the first event
appended to the trace is the creation of that handle. -/
theorem createElm_fresh_root (fuel : ℕ) (v : VNode) (p r : Option ℕ)
    (og : Bool) (st : PState) (out : VNode × PState)
    (h : createElmF (fuel + 1) v p r og st = some out) :
    out.1.sc.elm = some st.nextElm ∧
    ∃ op tail, out.2.ops = st.ops ++ op :: tail ∧
      createdHandle op = some st.nextElm := by
  simp only [createElmF] at h
  rcases hP : (if v.sc.elm.isSome && og then cloneVNodeM v st else (v, st))
    with ⟨v1, st1⟩
  have hst1 : st1.ops = st.ops ∧ st1.nextElm = st.nextElm := by
    by_cases hc : (v.sc.elm.isSome && og) = true
    · rw [if_pos hc] at hP
      have h2 := congrArg Prod.snd hP
      simp only [cloneVNodeM] at h2
      rw [← h2]
      exact ⟨rfl, rfl⟩
    · rw [if_neg hc] at hP
      cases hP
      exact ⟨rfl, rfl⟩
  rw [hP] at h
  simp only at h
  rcases htag : v1.sc.tag with _ | t <;> rw [htag] at h <;> simp only at h
  · by_cases hcm : v1.sc.isComment = true
    · rw [if_pos hcm] at h
      cases h
      constructor
      · rw [VNode.sc_withElm]
        simp [hst1.2]
      · rcases insertNode_ops
          { st1 with nextElm := st1.nextElm + 1,
                     ops := st1.ops ++ [.createComment st1.nextElm (v1.sc.text.getD "")] }
          p (some st1.nextElm) r with ⟨δ, hδ⟩
        refine ⟨.createComment st1.nextElm (v1.sc.text.getD ""), δ, ?_, by simp [createdHandle, hst1.2]⟩
        rw [hδ]
        simp [hst1.1]
    · rw [if_neg hcm] at h
      cases h
      constructor
      · rw [VNode.sc_withElm]
        simp [hst1.2]
      · rcases insertNode_ops
          { st1 with nextElm := st1.nextElm + 1,
                     ops := st1.ops ++ [.createText st1.nextElm (v1.sc.text.getD "")] }
          p (some st1.nextElm) r with ⟨δ, hδ⟩
        refine ⟨.createText st1.nextElm (v1.sc.text.getD ""), δ, ?_, by simp [createdHandle, hst1.2]⟩
        rw [hδ]
        simp [hst1.1]
  · rw [VNode.children_withElm] at h
    rcases hch : v1.children with _ | cs <;> rw [hch] at h <;> simp only at h
    · rw [VNode.sc_withElm] at h
      simp only at h
      rcases htx : v1.sc.text with _ | tx <;> rw [htx] at h <;> simp only at h
      · cases h
        constructor
        · rw [VNode.sc_withElm]
          simp [hst1.2]
        · rcases opsExt_trans (emit_if_ops
              { st1 with nextElm := st1.nextElm + 1,
                         ops := st1.ops ++ [.createEl st1.nextElm t] } _ _)
              (insertNode_ops _ p (some st1.nextElm) r) with ⟨δ, hδ⟩
          refine ⟨.createEl st1.nextElm t, δ, ?_, by simp [createdHandle, hst1.2]⟩
          rw [hδ]
          simp [hst1.1]
      · cases h
        constructor
        · rw [VNode.sc_withElm]
          simp [hst1.2]
        · have l2 : ∃ δ, st1.ops ++ [POp.createEl st1.nextElm t]
              ++ [POp.createText (st1.nextElm + 1) tx]
              = st1.ops ++ [POp.createEl st1.nextElm t] ++ δ := ⟨_, rfl⟩
          rcases opsExt_trans l2 (opsExt_trans (nodeAppendChild_ops
              { st1 with nextElm := st1.nextElm + 1 + 1,
                         ops := st1.ops ++ [POp.createEl st1.nextElm t]
                           ++ [POp.createText (st1.nextElm + 1) tx] }
              (some st1.nextElm) (some (st1.nextElm + 1)))
            (opsExt_trans (emit_if_ops _ _ _) (insertNode_ops _ p (some st1.nextElm) r)))
            with ⟨δ, hδ⟩
          refine ⟨.createEl st1.nextElm t, δ, ?_, by simp [createdHandle, hst1.2]⟩
          rw [hδ]
          simp [hst1.1]
    · rcases hcc : createChildrenF fuel cs (some st1.nextElm)
          (checkDuplicateKeys cs
            { st1 with nextElm := st1.nextElm + 1,
                       ops := st1.ops ++ [.createEl st1.nextElm t] })
        with _ | csp <;> rw [hcc] at h <;> simp only at h
      · exact absurd h (by simp)
      · rcases csp with ⟨cs', st4⟩
        simp only at h
        cases h
        constructor
        · rw [VNode.sc_withChildren, VNode.sc_withElm]
          simp [hst1.2]
        · rcases checkDuplicateKeys_ops' cs
              { st1 with nextElm := st1.nextElm + 1,
                         ops := st1.ops ++ [.createEl st1.nextElm t] }
            with ⟨δ3, hδ3⟩
          have l2 : ∃ δ, (checkDuplicateKeys cs
              { st1 with nextElm := st1.nextElm + 1,
                         ops := st1.ops ++ [.createEl st1.nextElm t] }).ops
              = st1.ops ++ [POp.createEl st1.nextElm t] ++ δ := ⟨δ3, by rw [hδ3]⟩
          rcases opsExt_trans l2
              (opsExt_trans ((createElm_ops_mono fuel).2 cs (some st1.nextElm) _ (cs', st4) hcc)
                (opsExt_trans (emit_if_ops _ _ _) (insertNode_ops _ p (some st1.nextElm) r)))
            with ⟨δ, hδ⟩
          refine ⟨.createEl st1.nextElm t, δ, ?_, by simp [createdHandle, hst1.2]⟩
          rw [hδ]
          simp [hst1.1]

/-- The static next-generation vnode as produced by `cloneVNode` (the
`isCloned` mark set), which satisfies the full static-guard of the source. -/
def staticClonedNewVnode : VNode :=
  .mk { staticNewVnode.sc with isCloned := true } none

theorem patchVnode_static_shortcircuit_witness :
    staticOldVnode.sc.vid ≠ staticClonedNewVnode.sc.vid ∧
    patchVnodeF 5 staticOldVnode staticClonedNewVnode false false emptyPState
      = some (.mk { staticClonedNewVnode.sc with
              elm := staticOldVnode.sc.elm,
              componentInstance := staticOldVnode.sc.componentInstance }
            staticClonedNewVnode.children,
          emptyPState.emit
            (.patched staticOldVnode.sc.vid staticClonedNewVnode.sc.vid)) :=
  ⟨by decide,
   patchVnode_static_shortcircuit 4 staticOldVnode staticClonedNewVnode false false
     emptyPState (by decide) (by decide) (by decide) (by decide) (by decide)
     (by decide) (Or.inl (by decide))⟩

/-! ## The keyed-diff fallback step for a keyless new-start node -/

/-- **C7 (amended).** In the fallback step (all four positional probes
failed), a keyless new-start node is matched by the linear `sameVnode` scan
`findIdxInOld` over the remaining old range from old-start *inclusive* to
old-end *exclusive* (the `for (i = beg; i < end; i++)` loop of the source):
when no defined node in that exclusive window matches, the scan yields
`none`, one `createElm` call is made for the new-start node with old-start's
handle as the insertion reference, the created vnode takes the next fresh
native handle, and the first event that call appends to the trace is the
creation of that handle. -/
theorem keyless_fallback_scan_and_create (fuel : ℕ) (parentElm : Option ℕ)
    (oldCh : List (Option VNode)) (newCh : List VNode)
    (oldS oldE newS newE : ℤ) (removeOnly : Bool) (st : PState)
    (osv oev nsv nev : VNode) (out : VNode × PState)
    (hguard : oldS ≤ oldE ∧ newS ≤ newE)
    (hosv : (getI oldCh oldS).join = some osv)
    (hoev : (getI oldCh oldE).join = some oev)
    (hnsv : getI newCh newS = some nsv)
    (hnev : getI newCh newE = some nev)
    (h1 : sameVnode osv nsv = false) (h2 : sameVnode oev nev = false)
    (h3 : sameVnode osv nev = false) (h4 : sameVnode oev nsv = false)
    (hkey : nsv.sc.key = none)
    (hnom : ∀ j c, oldS ≤ j → j < oldE → (getI oldCh j).join = some c →
      sameVnode nsv c = false)
    (hout : createElmF (fuel + 1) nsv parentElm osv.sc.elm true st = some out) :
    findIdxInOld nsv oldCh oldS oldE = none ∧
    updateChildrenF (fuel + 2) parentElm oldCh newCh oldS oldE newS newE none
        removeOnly st
      = updateChildrenF (fuel + 1) parentElm oldCh (setI newCh newS out.1)
          oldS oldE (newS + 1) newE
          (some (createKeyToOldIdx oldCh oldS oldE)) removeOnly out.2 ∧
    out.1.sc.elm = some st.nextElm ∧
    ∃ op tail, out.2.ops = st.ops ++ op :: tail ∧
      createdHandle op = some st.nextElm := by
  obtain ⟨hfresh, hops⟩ :=
    createElm_fresh_root fuel nsv parentElm osv.sc.elm true st out hout
  have hnone : findIdxInOld nsv oldCh oldS oldE = none :=
    (findIdxInOld_none_iff nsv oldCh oldS oldE hguard.1).mpr hnom
  refine ⟨hnone, ?_, hfresh, hops⟩
  obtain ⟨nv, st2⟩ := out
  simp only [updateChildrenF]
  rw [if_pos hguard]
  rw [hosv]; simp only
  rw [hoev]; simp only
  rw [hnsv, hnev]; simp only
  rw [h1]; simp only [Bool.false_eq_true, if_false]
  rw [h2]; simp only [Bool.false_eq_true, if_false]
  rw [h3]; simp only [Bool.false_eq_true, if_false]
  rw [h4]; simp only [Bool.false_eq_true, if_false]
  rw [hkey]; simp only
  rw [hnone]; simp only
  rw [hout]

/-- The concrete `createElm` output of the witness scenario. -/
def c7Out : VNode × PState :=
  (createElmF 9 asyncPlaceholderNew (some 50) plainOldStart.sc.elm true
    c7State).getD (asyncPlaceholderNew, c7State)

theorem keyless_fallback_scan_and_create_witness :
    findIdxInOld asyncPlaceholderNew [some plainOldStart, some resolvedAsyncOld]
        0 1 = none ∧
    updateChildrenF 10 (some 50) [some plainOldStart, some resolvedAsyncOld]
        [asyncPlaceholderNew] 0 1 0 0 none false c7State
      = updateChildrenF 9 (some 50) [some plainOldStart, some resolvedAsyncOld]
          (setI [asyncPlaceholderNew] 0 c7Out.1) 0 1 1 0
          (some (createKeyToOldIdx [some plainOldStart, some resolvedAsyncOld] 0 1))
          false c7Out.2 ∧
    c7Out.1.sc.elm = some c7State.nextElm ∧
    ∃ op tail, c7Out.2.ops = c7State.ops ++ op :: tail ∧
      createdHandle op = some c7State.nextElm :=
  keyless_fallback_scan_and_create 8 (some 50)
    [some plainOldStart, some resolvedAsyncOld] [asyncPlaceholderNew]
    0 1 0 0 false c7State plainOldStart resolvedAsyncOld asyncPlaceholderNew
    asyncPlaceholderNew c7Out (by decide) rfl rfl rfl rfl (by decide) (by decide)
    (by decide) (by decide) rfl
    (by
      intro j c hj hj2 hc
      have hj0 : j = 0 := by omega
      subst hj0
      have hc2 : some plainOldStart = some c := by
        rw [← hc]
        rfl
      injection hc2 with hc3
      rw [← hc3]
      decide)
    rfl

/-! ## Keyed rotation: the diff makes no creations and no removals

The remaining development characterises the run of `updateChildren` when the
new children are a rotation of the old keyed children.  Lists are written in
the form `(List.range n).map g` so that reads and in-place writes stay in
function form. -/

/-- Events a benign in-place patch of one matched pair may record: the
`patched` marker, module `update` hook runs, and dev duplicate-key
warnings. -/
def benignPatchOp : POp → Bool
  | .patched _ _ => true
  | .updateCbs _ _ => true
  | .warnDupKey _ => true
  | _ => false

/-- Events the keyed diff of a rotation may record: benign patch events plus
DOM moves (`insertBefore`, with `appendChild` as the move-to-end case of
`insertBefore(parent, el, null)`). -/
def benignMoveOp : POp → Bool
  | .patched _ _ => true
  | .updateCbs _ _ => true
  | .warnDupKey _ => true
  | .insertBefore _ _ _ => true
  | .appendChild _ _ => true
  | _ => false

theorem benignPatchOp_to_move (op : POp) (h : benignPatchOp op = true) :
    benignMoveOp op = true := by
  cases op <;> simp_all [benignPatchOp, benignMoveOp]

/-- `st2` extends `st` by benign-move events only: no native handle was
allocated (`nextElm` unchanged), no vnode was cloned (`nextVid` unchanged),
and every appended event is a patch marker, an `update` hook run, a
duplicate-key warning, or a DOM move.  (The document itself may have been
reordered by the moves.) -/
def StExt (st st2 : PState) : Prop :=
  st2.nextElm = st.nextElm ∧ st2.nextVid = st.nextVid ∧
  ∃ δ, st2.ops = st.ops ++ δ ∧ ∀ op ∈ δ, benignMoveOp op = true

theorem StExt_refl (st : PState) : StExt st st :=
  ⟨rfl, rfl, [], by simp, by simp⟩

theorem StExt_trans {s1 s2 s3 : PState} (h1 : StExt s1 s2) (h2 : StExt s2 s3) :
    StExt s1 s3 := by
  obtain ⟨e1, v1, δ1, o1, b1⟩ := h1
  obtain ⟨e2, v2, δ2, o2, b2⟩ := h2
  refine ⟨e2.trans e1, v2.trans v1, δ1 ++ δ2, ?_, ?_⟩
  · rw [o2, o1, List.append_assoc]
  · intro op hop
    rcases List.mem_append.mp hop with h | h
    · exact b1 op h
    · exact b2 op h

theorem StExt_append (st : PState) (δ : List POp)
    (hb : ∀ op ∈ δ, benignMoveOp op = true) :
    StExt st { st with ops := st.ops ++ δ } :=
  ⟨rfl, rfl, δ, rfl, hb⟩

theorem StExt_ops_mem {st st2 : PState} (h : StExt st st2) {op : POp}
    (hm : op ∈ st.ops) : op ∈ st2.ops := by
  obtain ⟨_, _, δ, ho, _⟩ := h
  rw [ho]
  exact List.mem_append_left δ hm

theorem StExt_insertBefore (st : PState) (p e r : Option ℕ) :
    StExt st (nodeInsertBefore st p e r) := by
  unfold nodeInsertBefore
  rcases p with _ | p <;> rcases e with _ | e <;>
    exact ⟨rfl, rfl, [.insertBefore _ _ _], rfl, by simp [benignMoveOp]⟩

/-- A matched old/new pair patches benignly: for any fuel of at least `N`,
`patchVnode` succeeds, leaves everything but the trace unchanged, appends the
`patched` marker followed by benign patch events only, and the returned
vnode reuses the old node's native handle. -/
def PatchBenign (N : ℕ) (o nn : VNode) : Prop :=
  ∀ fuel, N ≤ fuel → ∀ (og ro : Bool) (st : PState), ∃ v2 δ,
    patchVnodeF fuel o nn og ro st
      = some (v2, { st with ops := st.ops ++ .patched o.sc.vid nn.sc.vid :: δ }) ∧
    v2.sc.elm = o.sc.elm ∧ ∀ op ∈ δ, benignPatchOp op = true

theorem StExt_patchDelta (st : PState) (a b : ℕ) (δ : List POp)
    (hb : ∀ op ∈ δ, benignPatchOp op = true) :
    StExt st { st with ops := st.ops ++ .patched a b :: δ } := by
  refine StExt_append st (.patched a b :: δ) ?_
  intro op hop
  rcases List.mem_cons.mp hop with h | h
  · rw [h]; rfl
  · exact benignPatchOp_to_move op (hb op h)

theorem range_map_length {α : Type} (n : ℕ) (g : ℕ → α) :
    ((List.range n).map g).length = n := by simp

theorem getI_range_map {α : Type} (n : ℕ) (g : ℕ → α) (j : ℤ)
    (h0 : 0 ≤ j) (h1 : j < (n : ℤ)) :
    getI ((List.range n).map g) j = some (g j.toNat) := by
  unfold getI
  rw [if_pos h0]
  have hj : j.toNat < n := by omega
  rw [List.get?_map, List.get?_range hj]
  rfl

theorem getI_range_map_out {α : Type} (n : ℕ) (g : ℕ → α) (j : ℤ)
    (h1 : (n : ℤ) ≤ j) :
    getI ((List.range n).map g) j = none := by
  unfold getI
  by_cases h0 : 0 ≤ j
  · rw [if_pos h0]
    have hj : n ≤ j.toNat := by omega
    rw [List.get?_map]
    rw [List.get?_eq_none.mpr (by simpa using hj)]
    rfl
  · rw [if_neg h0]

theorem setI_range_map {α : Type} (n : ℕ) (g : ℕ → α) (j : ℤ) (v : α)
    (h0 : 0 ≤ j) (h1 : j < (n : ℤ)) :
    setI ((List.range n).map g) j v
      = (List.range n).map (fun i => if i = j.toNat then v else g i) := by
  unfold setI
  rw [if_pos h0]
  apply List.ext_getElem
  · simp
  · intro i hi1 hi2
    have hin : i < n := by simpa using hi2
    rw [List.getElem_set]
    rcases Decidable.em (j.toNat = i) with h | h
    · rw [if_pos h]
      simp [List.getElem_map, List.getElem_range, h.symm]
    · rw [if_neg h]
      have : ¬ i = j.toNat := fun hc => h hc.symm
      simp [List.getElem_map, List.getElem_range, this]

/-- Unequal keys make `sameVnode` fail regardless of everything else. -/
theorem sameVnode_of_key_ne (a b : VNode) (h : a.sc.key ≠ b.sc.key) :
    sameVnode a b = false := by
  unfold sameVnode
  simp [h]

/-! ### Single iterations of the `updateChildren` loop -/

/-- One loop iteration in which the old-end entry has been consumed
(tombstoned): the old-end cursor retreats. -/
theorem uc_step_skip_end (fuel : ℕ) (parentElm : Option ℕ)
    (oldCh : List (Option VNode)) (newCh : List VNode)
    (oldS oldE newS newE : ℤ) (km : Option (List (JSKey × ℤ))) (ro : Bool)
    (st : PState) (osv : VNode)
    (hguard : oldS ≤ oldE ∧ newS ≤ newE)
    (hosv : (getI oldCh oldS).join = some osv)
    (hoev : (getI oldCh oldE).join = none) :
    updateChildrenF (fuel + 1) parentElm oldCh newCh oldS oldE newS newE km ro st
      = updateChildrenF fuel parentElm oldCh newCh oldS (oldE - 1) newS newE
          km ro st := by
  simp only [updateChildrenF]
  rw [if_pos hguard]
  rw [hosv]; simp only
  rw [hoev]

/-- One loop iteration resolved by the first positional probe
(old-start / new-start match): patch in place, advance both start cursors. -/
theorem uc_step_probe1 (fuel : ℕ) (parentElm : Option ℕ)
    (oldCh : List (Option VNode)) (newCh : List VNode)
    (oldS oldE newS newE : ℤ) (km : Option (List (JSKey × ℤ))) (ro : Bool)
    (st : PState) (osv oev nsv nev : VNode) (v2 : VNode) (stp : PState)
    (hguard : oldS ≤ oldE ∧ newS ≤ newE)
    (hosv : (getI oldCh oldS).join = some osv)
    (hoev : (getI oldCh oldE).join = some oev)
    (hnsv : getI newCh newS = some nsv)
    (hnev : getI newCh newE = some nev)
    (h1 : sameVnode osv nsv = true)
    (hp : patchVnodeF fuel osv nsv true ro st = some (v2, stp)) :
    updateChildrenF (fuel + 1) parentElm oldCh newCh oldS oldE newS newE km ro st
      = updateChildrenF fuel parentElm oldCh (setI newCh newS v2)
          (oldS + 1) oldE (newS + 1) newE km ro stp := by
  simp only [updateChildrenF]
  rw [if_pos hguard]
  rw [hosv]; simp only
  rw [hoev]; simp only
  rw [hnsv, hnev]; simp only
  rw [h1]; simp only [eq_self_iff_true, if_true]
  rw [hp]

/-- One loop iteration resolved by the third positional probe
(old-start / new-end match, `removeOnly = false`): patch, move old-start's
handle behind old-end's, advance old-start, retreat new-end. -/
theorem uc_step_probe3 (fuel : ℕ) (parentElm : Option ℕ)
    (oldCh : List (Option VNode)) (newCh : List VNode)
    (oldS oldE newS newE : ℤ) (km : Option (List (JSKey × ℤ)))
    (st : PState) (osv oev nsv nev : VNode) (v2 : VNode) (stp : PState)
    (hguard : oldS ≤ oldE ∧ newS ≤ newE)
    (hosv : (getI oldCh oldS).join = some osv)
    (hoev : (getI oldCh oldE).join = some oev)
    (hnsv : getI newCh newS = some nsv)
    (hnev : getI newCh newE = some nev)
    (h1 : sameVnode osv nsv = false)
    (h2 : sameVnode oev nev = false)
    (h3 : sameVnode osv nev = true)
    (hp : patchVnodeF fuel osv nev true false st = some (v2, stp)) :
    updateChildrenF (fuel + 1) parentElm oldCh newCh oldS oldE newS newE km
        false st
      = updateChildrenF fuel parentElm oldCh (setI newCh newE v2)
          (oldS + 1) oldE newS (newE - 1) km false
          (nodeInsertBefore stp parentElm osv.sc.elm
            (domNextSibling stp.dom oev.sc.elm)) := by
  simp only [updateChildrenF]
  rw [if_pos hguard]
  rw [hosv]; simp only
  rw [hoev]; simp only
  rw [hnsv, hnev]; simp only
  rw [h1]; simp only [Bool.false_eq_true, if_false]
  rw [h2]; simp only [Bool.false_eq_true, if_false]
  rw [h3]; simp only [eq_self_iff_true, if_true]
  rw [hp]
  rfl

/-- One loop iteration resolved by the fourth positional probe
(old-end / new-start match, `removeOnly = false`): patch, move old-end's
handle before old-start's, retreat old-end, advance new-start. -/
theorem uc_step_probe4 (fuel : ℕ) (parentElm : Option ℕ)
    (oldCh : List (Option VNode)) (newCh : List VNode)
    (oldS oldE newS newE : ℤ) (km : Option (List (JSKey × ℤ)))
    (st : PState) (osv oev nsv nev : VNode) (v2 : VNode) (stp : PState)
    (hguard : oldS ≤ oldE ∧ newS ≤ newE)
    (hosv : (getI oldCh oldS).join = some osv)
    (hoev : (getI oldCh oldE).join = some oev)
    (hnsv : getI newCh newS = some nsv)
    (hnev : getI newCh newE = some nev)
    (h1 : sameVnode osv nsv = false)
    (h2 : sameVnode oev nev = false)
    (h3 : sameVnode osv nev = false)
    (h4 : sameVnode oev nsv = true)
    (hp : patchVnodeF fuel oev nsv true false st = some (v2, stp)) :
    updateChildrenF (fuel + 1) parentElm oldCh newCh oldS oldE newS newE km
        false st
      = updateChildrenF fuel parentElm oldCh (setI newCh newS v2)
          oldS (oldE - 1) (newS + 1) newE km false
          (nodeInsertBefore stp parentElm oev.sc.elm osv.sc.elm) := by
  simp only [updateChildrenF]
  rw [if_pos hguard]
  rw [hosv]; simp only
  rw [hoev]; simp only
  rw [hnsv, hnev]; simp only
  rw [h1]; simp only [Bool.false_eq_true, if_false]
  rw [h2]; simp only [Bool.false_eq_true, if_false]
  rw [h3]; simp only [Bool.false_eq_true, if_false]
  rw [h4]; simp only [eq_self_iff_true, if_true]
  rw [hp]
  rfl

/-- One fallback iteration with the key map already built: the keyed
new-start node is found in the map at a live old index, patched against that
old node, the old entry is tombstoned and its handle moved before
old-start's. -/
theorem uc_step_keyed_some (fuel : ℕ) (parentElm : Option ℕ)
    (oldCh : List (Option VNode)) (newCh : List VNode)
    (oldS oldE newS newE : ℤ) (m : List (JSKey × ℤ))
    (st : PState) (osv oev nsv nev vtm : VNode) (kk : JSKey) (idx : ℤ)
    (v2 : VNode) (stp : PState)
    (hguard : oldS ≤ oldE ∧ newS ≤ newE)
    (hosv : (getI oldCh oldS).join = some osv)
    (hoev : (getI oldCh oldE).join = some oev)
    (hnsv : getI newCh newS = some nsv)
    (hnev : getI newCh newE = some nev)
    (h1 : sameVnode osv nsv = false)
    (h2 : sameVnode oev nev = false)
    (h3 : sameVnode osv nev = false)
    (h4 : sameVnode oev nsv = false)
    (hkey : nsv.sc.key = some kk)
    (hfind : assocGet m kk = some idx)
    (hvtm : (getI oldCh idx).join = some vtm)
    (hsame : sameVnode vtm nsv = true)
    (hp : patchVnodeF fuel vtm nsv true false st = some (v2, stp)) :
    updateChildrenF (fuel + 1) parentElm oldCh newCh oldS oldE newS newE
        (some m) false st
      = updateChildrenF fuel parentElm (setI oldCh idx none)
          (setI newCh newS v2) oldS oldE (newS + 1) newE (some m) false
          (nodeInsertBefore stp parentElm vtm.sc.elm osv.sc.elm) := by
  simp only [updateChildrenF]
  rw [if_pos hguard]
  rw [hosv]; simp only
  rw [hoev]; simp only
  rw [hnsv, hnev]; simp only
  rw [h1]; simp only [Bool.false_eq_true, if_false]
  rw [h2]; simp only [Bool.false_eq_true, if_false]
  rw [h3]; simp only [Bool.false_eq_true, if_false]
  rw [h4]; simp only [Bool.false_eq_true, if_false]
  rw [hkey]; simp only
  rw [hfind]; simp only
  rw [hvtm]; simp only
  rw [hsame]; simp only [eq_self_iff_true, if_true]
  rw [hp]
  rfl

/-- The first fallback iteration: the key map is built from the whole
remaining old range, then as in `uc_step_keyed_some`. -/
theorem uc_step_keyed_none (fuel : ℕ) (parentElm : Option ℕ)
    (oldCh : List (Option VNode)) (newCh : List VNode)
    (oldS oldE newS newE : ℤ)
    (st : PState) (osv oev nsv nev vtm : VNode) (kk : JSKey) (idx : ℤ)
    (v2 : VNode) (stp : PState)
    (hguard : oldS ≤ oldE ∧ newS ≤ newE)
    (hosv : (getI oldCh oldS).join = some osv)
    (hoev : (getI oldCh oldE).join = some oev)
    (hnsv : getI newCh newS = some nsv)
    (hnev : getI newCh newE = some nev)
    (h1 : sameVnode osv nsv = false)
    (h2 : sameVnode oev nev = false)
    (h3 : sameVnode osv nev = false)
    (h4 : sameVnode oev nsv = false)
    (hkey : nsv.sc.key = some kk)
    (hfind : assocGet (createKeyToOldIdx oldCh oldS oldE) kk = some idx)
    (hvtm : (getI oldCh idx).join = some vtm)
    (hsame : sameVnode vtm nsv = true)
    (hp : patchVnodeF fuel vtm nsv true false st = some (v2, stp)) :
    updateChildrenF (fuel + 1) parentElm oldCh newCh oldS oldE newS newE
        none false st
      = updateChildrenF fuel parentElm (setI oldCh idx none)
          (setI newCh newS v2) oldS oldE (newS + 1) newE
          (some (createKeyToOldIdx oldCh oldS oldE)) false
          (nodeInsertBefore stp parentElm vtm.sc.elm osv.sc.elm) := by
  simp only [updateChildrenF]
  rw [if_pos hguard]
  rw [hosv]; simp only
  rw [hoev]; simp only
  rw [hnsv, hnev]; simp only
  rw [h1]; simp only [Bool.false_eq_true, if_false]
  rw [h2]; simp only [Bool.false_eq_true, if_false]
  rw [h3]; simp only [Bool.false_eq_true, if_false]
  rw [h4]; simp only [Bool.false_eq_true, if_false]
  rw [hkey]; simp only
  rw [hfind]; simp only
  rw [hvtm]; simp only
  rw [hsame]; simp only [eq_self_iff_true, if_true]
  rw [hp]
  rfl

/-- Loop exit with both windows exhausted: the trailing
`addVnodes`/`removeVnodes` branch adds nothing and removes nothing. -/
theorem uc_step_exit (fuel : ℕ) (parentElm : Option ℕ)
    (oldCh : List (Option VNode)) (newCh : List VNode)
    (oldS oldE newS newE : ℤ) (km : Option (List (JSKey × ℤ))) (ro : Bool)
    (st : PState)
    (hos : oldE < oldS) (hns : newE < newS) :
    updateChildrenF (fuel + 2) parentElm oldCh newCh oldS oldE newS newE km
        ro st
      = some (oldCh, newCh, st) := by
  simp only [updateChildrenF]
  rw [if_neg (by omega : ¬(oldS ≤ oldE ∧ newS ≤ newE))]
  rw [if_pos (by omega : oldS > oldE)]
  simp only [addVnodesF]
  rw [if_neg (by omega : ¬ newS ≤ newE)]


/-! ### Correctness of the key to old-index map for distinct keys -/

theorem assocGet_nil (k : JSKey) : assocGet [] k = none := rfl

theorem assocGet_cons (p : JSKey × ℤ) (rest : List (JSKey × ℤ)) (k : JSKey) :
    assocGet (p :: rest) k = if p.1 = k then some p.2 else assocGet rest k := by
  unfold assocGet
  by_cases hp : p.1 = k
  · rw [List.find?_cons_of_pos _ (by simpa using hp), if_pos hp]
    rfl
  · rw [List.find?_cons_of_neg _ (by simpa using hp), if_neg hp]

theorem assocGet_assocSet_self (m : List (JSKey × ℤ)) (k : JSKey) (v : ℤ) :
    assocGet (assocSet m k v) k = some v := by
  unfold assocSet
  by_cases hmem : ((m.map Prod.fst).contains k) = true
  · rw [if_pos hmem]
    induction m with
    | nil => simp at hmem
    | cons p rest ih =>
        rw [List.map_cons, assocGet_cons]
        by_cases hp : p.1 = k
        · rw [if_pos hp]
          simp
        · rw [if_neg (show ¬ ((if p.1 = k then (k, v) else p).1 = k) by
            rw [if_neg hp]; exact hp)]
          have hrest : ((rest.map Prod.fst).contains k) = true := by
            simp only [List.map_cons, List.contains_cons] at hmem
            rcases Bool.or_eq_true_iff.mp hmem with hx | hx
            · exact absurd (Eq.symm (by simpa using hx)) hp
            · exact hx
          exact ih hrest
  · rw [if_neg hmem]
    induction m with
    | nil => simp [assocGet_cons, assocGet_nil]
    | cons p rest ih =>
        have hp : ¬ p.1 = k := by
          intro hc
          apply hmem
          simp [hc]
        have hrest : ¬ ((rest.map Prod.fst).contains k) = true := by
          intro hc
          apply hmem
          simp only [List.map_cons, List.contains_cons]
          rw [hc]
          simp
        rw [List.cons_append, assocGet_cons, if_neg hp]
        exact ih hrest

theorem assocGet_map_overwrite (rest : List (JSKey × ℤ)) (k k2 : JSKey)
    (v : ℤ) (h : k ≠ k2) :
    assocGet (rest.map (fun p => if p.1 = k2 then (k2, v) else p)) k
      = assocGet rest k := by
  induction rest with
  | nil => rfl
  | cons p rest ih =>
      rw [List.map_cons, assocGet_cons, assocGet_cons]
      by_cases hp : p.1 = k2
      · rw [if_neg (show ¬ ((if p.1 = k2 then (k2, v) else p).1 = k) by
          rw [if_pos hp]; exact fun hc => h hc.symm)]
        rw [if_neg (by rw [hp]; exact fun hc => h hc.symm)]
        exact ih
      · rw [if_neg hp]
        by_cases hpk : p.1 = k
        · rw [if_pos hpk, if_pos hpk]
        · rw [if_neg hpk, if_neg hpk]
          exact ih

theorem assocGet_append_single (rest : List (JSKey × ℤ)) (k k2 : JSKey)
    (v : ℤ) (h : k ≠ k2) :
    assocGet (rest ++ [(k2, v)]) k = assocGet rest k := by
  induction rest with
  | nil =>
      rw [List.nil_append, assocGet_cons, assocGet_nil,
        if_neg (fun hc => h hc.symm)]
  | cons p rest ih =>
      rw [List.cons_append, assocGet_cons, assocGet_cons]
      by_cases hpk : p.1 = k
      · rw [if_pos hpk, if_pos hpk]
      · rw [if_neg hpk, if_neg hpk]
        exact ih

theorem assocGet_assocSet_ne (m : List (JSKey × ℤ)) (k k2 : JSKey) (v : ℤ)
    (h : k ≠ k2) :
    assocGet (assocSet m k2 v) k = assocGet m k := by
  unfold assocSet
  by_cases hmem : ((m.map Prod.fst).contains k2) = true
  · rw [if_pos hmem]
    exact assocGet_map_overwrite m k k2 v h
  · rw [if_neg hmem]
    exact assocGet_append_single m k k2 v h

/-- Scanning a window of distinct-keyed defined entries, the key map answers
every scanned key with its index, and leaves other keys to the
accumulator. -/
theorem keyToOldIdxGo_lookup (n : ℕ) (o : ℕ → VNode) (κ : ℕ → JSKey)
    (hκ : ∀ i, i < n → (o i).sc.key = some (κ i))
    (hinj : ∀ i j, i < n → j < n → κ i = κ j → i = j)
    (t : ℕ) (ht : t < n) :
    ∀ (c : ℕ) (i : ℤ) (m : List (JSKey × ℤ)),
      0 ≤ i → i + c ≤ (n : ℤ) →
      assocGet (keyToOldIdxGo ((List.range n).map (fun x => some (o x))) c i m)
          (κ t)
        = if i ≤ (t : ℤ) ∧ (t : ℤ) < i + c then some (t : ℤ)
          else assocGet m (κ t) := by
  intro c
  induction c with
  | zero =>
      intro i m h0 hn
      simp only [keyToOldIdxGo]
      rw [if_neg (by omega)]
  | succ c ih =>
      intro i m h0 hn
      simp only [keyToOldIdxGo]
      have hrd : getI ((List.range n).map (fun x => some (o x))) i
          = some (some (o i.toNat)) :=
        getI_range_map n _ i h0 (by omega)
      rw [hrd]
      simp only
      rw [hκ i.toNat (by omega)]
      simp only
      rw [ih (i + 1) (assocSet m (κ i.toNat) i) (by omega) (by omega)]
      by_cases hit : i.toNat = t
      · have hie : i = (t : ℤ) := by omega
        by_cases hcov : i + 1 ≤ (t : ℤ) ∧ (t : ℤ) < i + 1 + c
        · rw [if_pos hcov, if_pos (by omega)]
        · rw [if_neg hcov, if_pos (by omega)]
          rw [hit, hie]
          exact assocGet_assocSet_self m (κ t) (t : ℤ)
      · have hne : κ t ≠ κ i.toNat := fun hc =>
          hit (hinj i.toNat t (by omega) ht hc.symm)
        rw [assocGet_assocSet_ne m (κ t) (κ i.toNat) i hne]
        by_cases hcov : i + 1 ≤ (t : ℤ) ∧ (t : ℤ) < i + 1 + c
        · rw [if_pos hcov, if_pos (by omega)]
        · rw [if_neg hcov]
          rw [if_neg (by omega)]

/-- For a fully live distinct-keyed old range, `createKeyToOldIdx` over
`[0, n-1]` maps each key to its index. -/
theorem createKeyToOldIdx_rotation (n : ℕ) (o : ℕ → VNode) (κ : ℕ → JSKey)
    (hκ : ∀ i, i < n → (o i).sc.key = some (κ i))
    (hinj : ∀ i j, i < n → j < n → κ i = κ j → i = j)
    (t : ℕ) (ht : t < n) :
    assocGet
        (createKeyToOldIdx ((List.range n).map (fun x => some (o x))) 0
          ((n : ℤ) - 1)) (κ t)
      = some (t : ℤ) := by
  unfold createKeyToOldIdx
  have hc : ((n : ℤ) - 1 + 1 - 0).toNat = n := by omega
  rw [hc]
  rw [keyToOldIdxGo_lookup n o κ hκ hinj t ht n 0 [] (by omega) (by omega)]
  rw [if_pos (by omega)]

/-! ### The aligned (pointwise) run of the loop -/

/-- `c` consecutive iterations in which the first positional probe matches:
each aligned pair is patched in place, both start cursors advance, the old
array and everything outside the written new window are untouched, the state
only gains benign events, and each patched new entry reuses its old
partner's handle. -/
theorem uc_phase_pointwise (c : ℕ) :
    ∀ (N fuel n : ℕ) (parentElm : Option ℕ)
      (oE : ℕ → Option VNode) (g : ℕ → VNode)
      (oldS oldE newS newE : ℤ) (km : Option (List (JSKey × ℤ))) (st : PState),
      N ≤ fuel →
      0 ≤ oldS → oldS + c ≤ oldE + 1 → oldE < (n : ℤ) →
      0 ≤ newS → newS + c ≤ newE + 1 → newE < (n : ℤ) →
      (∃ oev, oE oldE.toNat = some oev) →
      (∀ j : ℕ, j < c → ∃ ov, oE (oldS.toNat + j) = some ov ∧
        sameVnode ov (g (newS.toNat + j)) = true ∧
        PatchBenign N ov (g (newS.toNat + j))) →
      ∃ (g2 : ℕ → VNode) (st2 : PState),
        updateChildrenF (fuel + c) parentElm ((List.range n).map oE)
            ((List.range n).map g) oldS oldE newS newE km false st
          = updateChildrenF fuel parentElm ((List.range n).map oE)
              ((List.range n).map g2) (oldS + c) oldE (newS + c) newE km
              false st2 ∧
        StExt st st2 ∧
        (∀ j : ℕ, j < c → ∃ ov, oE (oldS.toNat + j) = some ov ∧
          (g2 (newS.toNat + j)).sc.elm = ov.sc.elm ∧
          POp.patched ov.sc.vid (g (newS.toNat + j)).sc.vid ∈ st2.ops) ∧
        (∀ i : ℕ, ¬(newS.toNat ≤ i ∧ i < newS.toNat + c) → g2 i = g i) := by
  induction c with
  | zero =>
      intro N fuel n parentElm oE g oldS oldE newS newE km st
      intro hNf h0o hco hon h0n hcn hnn hoev hwin
      refine ⟨g, st, ?_, StExt_refl st, ?_, ?_⟩
      · norm_num
      · intro j hj
        omega
      · intro i hi
        rfl
  | succ c ih =>
      intro N fuel n parentElm oE g oldS oldE newS newE km st
      intro hNf h0o hco hon h0n hcn hnn hoev hwin
      obtain ⟨oev, hoevv⟩ := hoev
      obtain ⟨ov0, hov0, hsv0, hPB0⟩ := hwin 0 (by omega)
      rw [Nat.add_zero] at hov0 hsv0 hPB0
      obtain ⟨v2, δ, hpeq, helm, hδ⟩ := hPB0 (fuel + c) (by omega) true false st
      have hnsn : newS.toNat < n := by omega
      have hosv : (getI ((List.range n).map oE) oldS).join = some ov0 := by
        rw [getI_range_map n oE oldS h0o (by omega), hov0]
        rfl
      have hoevr : (getI ((List.range n).map oE) oldE).join = some oev := by
        rw [getI_range_map n oE oldE (by omega) hon, hoevv]
        rfl
      have hnsv : getI ((List.range n).map g) newS = some (g newS.toNat) :=
        getI_range_map n g newS h0n (by omega)
      have hnev : getI ((List.range n).map g) newE = some (g newE.toNat) :=
        getI_range_map n g newE (by omega) hnn
      have hstep := uc_step_probe1 (fuel + c) parentElm ((List.range n).map oE)
        ((List.range n).map g) oldS oldE newS newE km false st ov0 oev
        (g newS.toNat) (g newE.toNat) v2
        { st with ops := st.ops ++ POp.patched ov0.sc.vid (g newS.toNat).sc.vid :: δ }
        ⟨by omega, by omega⟩ hosv hoevr hnsv hnev hsv0 hpeq
      rw [setI_range_map n g newS v2 h0n (by omega)] at hstep
      have hg' : ∀ j : ℕ, j < c →
          ∃ ov, oE ((oldS + 1).toNat + j) = some ov ∧
            sameVnode ov ((fun i => if i = newS.toNat then v2 else g i)
              ((newS + 1).toNat + j)) = true ∧
            PatchBenign N ov ((fun i => if i = newS.toNat then v2 else g i)
              ((newS + 1).toNat + j)) := by
        intro j hj
        obtain ⟨ov, hov, hsv, hPB⟩ := hwin (j + 1) (by omega)
        have hio : (oldS + 1).toNat + j = oldS.toNat + (j + 1) := by omega
        have hin : (newS + 1).toNat + j = newS.toNat + (j + 1) := by omega
        rw [hio, hin]
        simp only
        refine ⟨ov, hov, ?_, ?_⟩
        · rw [if_neg (by omega)]
          exact hsv
        · rw [if_neg (by omega)]
          exact hPB
      obtain ⟨g2, st2, heq, hext, hres, hout⟩ := ih N fuel n parentElm oE
        (fun i => if i = newS.toNat then v2 else g i) (oldS + 1) oldE (newS + 1)
        newE km
        { st with ops := st.ops ++ POp.patched ov0.sc.vid (g newS.toNat).sc.vid :: δ }
        hNf (by omega) (by omega) hon (by omega) (by omega) hnn ⟨oev, hoevv⟩ hg'
      have hsx : StExt st
          { st with ops := st.ops ++ POp.patched ov0.sc.vid (g newS.toNat).sc.vid :: δ } :=
        StExt_patchDelta st ov0.sc.vid (g newS.toNat).sc.vid δ hδ
      refine ⟨g2, st2, ?_, StExt_trans hsx hext, ?_, ?_⟩
      · rw [show fuel + (c + 1) = fuel + c + 1 from rfl, hstep, heq]
        have e1 : oldS + 1 + (c : ℤ) = oldS + ((c : ℕ) + 1 : ℕ) := by omega
        have e2 : newS + 1 + (c : ℤ) = newS + ((c : ℕ) + 1 : ℕ) := by omega
        rw [e1, e2]
      · intro j hj
        rcases Nat.eq_zero_or_pos j with hj0 | hjp
        · subst hj0
          simp only [Nat.add_zero]
          refine ⟨ov0, hov0, ?_, ?_⟩
          · have hg2 : g2 newS.toNat = v2 := by
              rw [hout newS.toNat (by omega)]
              simp
            rw [hg2]
            exact helm
          · refine StExt_ops_mem hext ?_
            simp
        · obtain ⟨j', rfl⟩ : ∃ j', j = j' + 1 := ⟨j - 1, by omega⟩
          obtain ⟨ov, hov, helm2, hmem⟩ := hres j' (by omega)
          have hio : (oldS + 1).toNat + j' = oldS.toNat + (j' + 1) := by omega
          have hin : (newS + 1).toNat + j' = newS.toNat + (j' + 1) := by omega
          rw [hio] at hov
          simp only [if_neg (show ¬ ((newS + 1).toNat + j' = newS.toNat) from
            by omega)] at hmem
          rw [hin] at helm2 hmem
          exact ⟨ov, hov, helm2, hmem⟩
      · intro i hi
        rw [hout i (by omega)]
        simp only [if_neg (show ¬ (i = newS.toNat) from by omega)]

/-! ### The tombstone-skip run of the loop -/

/-- `c` consecutive iterations in which the old-end entry has been
tombstoned: the old-end cursor retreats past the block, with no other
change. -/
theorem uc_phase_skip (c : ℕ) :
    ∀ (fuel n : ℕ) (parentElm : Option ℕ) (oE : ℕ → Option VNode)
      (newCh : List VNode) (oldS oldE newS newE : ℤ)
      (km : Option (List (JSKey × ℤ))) (ro : Bool) (st : PState),
      0 ≤ oldS → oldS + c ≤ oldE + 1 → oldE < (n : ℤ) → newS ≤ newE →
      (∃ osv, oE oldS.toNat = some osv) →
      (∀ j : ℕ, j < c → oE (oldE - j).toNat = none) →
      updateChildrenF (fuel + c) parentElm ((List.range n).map oE) newCh
          oldS oldE newS newE km ro st
        = updateChildrenF fuel parentElm ((List.range n).map oE) newCh
            oldS (oldE - c) newS newE km ro st := by
  induction c with
  | zero =>
      intro fuel n parentElm oE newCh oldS oldE newS newE km ro st
      intro h0o hco hon hnse hosv htomb
      norm_num
  | succ c ih =>
      intro fuel n parentElm oE newCh oldS oldE newS newE km ro st
      intro h0o hco hon hnse hosv htomb
      obtain ⟨osv, hosvv⟩ := hosv
      have hosr : (getI ((List.range n).map oE) oldS).join = some osv := by
        rw [getI_range_map n oE oldS h0o (by omega), hosvv]
        rfl
      have ht0 : oE oldE.toNat = none := by
        have := htomb 0 (by omega)
        rwa [show (oldE - ((0 : ℕ) : ℤ)).toNat = oldE.toNat from by omega] at this
      have hoer : (getI ((List.range n).map oE) oldE).join = none := by
        rw [getI_range_map n oE oldE (by omega) hon, ht0]
        rfl
      have hstep := uc_step_skip_end (fuel + c) parentElm ((List.range n).map oE)
        newCh oldS oldE newS newE km ro st osv ⟨by omega, hnse⟩ hosr hoer
      rw [show fuel + (c + 1) = fuel + c + 1 from rfl, hstep]
      have htomb2 : ∀ j : ℕ, j < c → oE ((oldE - 1) - j).toNat = none := by
        intro j hj
        have := htomb (j + 1) (by omega)
        rwa [show (oldE - ((j : ℕ) + 1 : ℕ)).toNat = ((oldE - 1) - j).toNat from
          by omega] at this
      rw [ih fuel n parentElm oE newCh oldS (oldE - 1) newS newE km ro st h0o
        (by omega) (by omega) hnse ⟨osv, hosvv⟩ htomb2]
      rw [show oldE - 1 - (c : ℤ) = oldE - ((c : ℕ) + 1 : ℕ) from by omega]

/-! ### The keyed-fallback run of the loop -/

/-- `c` consecutive fallback iterations with the key map built: each keyed
new-start node is found in the map at a live old index, patched there, the
old entry is tombstoned and its handle moved before old-start's; new-start
advances while the four window cursors' entries at old-start, old-end and
new-end stay untouched. -/
theorem uc_phase_fallback (c : ℕ) :
    ∀ (N fuel n : ℕ) (parentElm : Option ℕ) (oE : ℕ → Option VNode)
      (g : ℕ → VNode) (oldS oldE newS newE T : ℤ)
      (m : List (JSKey × ℤ)) (st : PState) (osv oev : VNode),
      N ≤ fuel →
      0 ≤ oldS → oldS ≤ oldE → oldE < (n : ℤ) →
      0 ≤ newS → newS + c ≤ newE → newE < (n : ℤ) →
      oldS < T → T + c ≤ oldE →
      oE oldS.toNat = some osv →
      oE oldE.toNat = some oev →
      sameVnode oev (g newE.toNat) = false →
      sameVnode osv (g newE.toNat) = false →
      (∀ j : ℕ, j < c →
        sameVnode osv (g (newS.toNat + j)) = false ∧
        sameVnode oev (g (newS.toNat + j)) = false ∧
        ∃ kk vtm, (g (newS.toNat + j)).sc.key = some kk ∧
          assocGet m kk = some (T + j) ∧
          oE (T.toNat + j) = some vtm ∧
          sameVnode vtm (g (newS.toNat + j)) = true ∧
          PatchBenign N vtm (g (newS.toNat + j))) →
      ∃ (oE2 : ℕ → Option VNode) (g2 : ℕ → VNode) (st2 : PState),
        updateChildrenF (fuel + c) parentElm ((List.range n).map oE)
            ((List.range n).map g) oldS oldE newS newE (some m) false st
          = updateChildrenF fuel parentElm ((List.range n).map oE2)
              ((List.range n).map g2) oldS oldE (newS + c) newE (some m)
              false st2 ∧
        (∀ i : ℕ, ((T.toNat ≤ i ∧ i < T.toNat + c) → oE2 i = none) ∧
          (¬(T.toNat ≤ i ∧ i < T.toNat + c) → oE2 i = oE i)) ∧
        StExt st st2 ∧
        (∀ j : ℕ, j < c → ∃ vtm, oE (T.toNat + j) = some vtm ∧
          (g2 (newS.toNat + j)).sc.elm = vtm.sc.elm ∧
          POp.patched vtm.sc.vid (g (newS.toNat + j)).sc.vid ∈ st2.ops) ∧
        (∀ i : ℕ, ¬(newS.toNat ≤ i ∧ i < newS.toNat + c) → g2 i = g i) := by
  induction c with
  | zero =>
      intro N fuel n parentElm oE g oldS oldE newS newE T m st osv oev
      intro hNf h0o hoo hon h0n hcn hnn hsT hTe hosvv hoevv hp2 hp3 hpf
      refine ⟨oE, g, st, ?_, ?_, StExt_refl st, ?_, ?_⟩
      · norm_num
      · intro i
        exact ⟨fun h => absurd h (by omega), fun _ => rfl⟩
      · intro j hj
        omega
      · intro i hi
        rfl
  | succ c ih =>
      intro N fuel n parentElm oE g oldS oldE newS newE T m st osv oev
      intro hNf h0o hoo hon h0n hcn hnn hsT hTe hosvv hoevv hp2 hp3 hpf
      obtain ⟨hp1, hp4, kk0, vtm0, hkk0, hfind0, hvtm0, hsame0, hPB0⟩ :=
        hpf 0 (by omega)
      simp only [Nat.add_zero, Nat.cast_zero, add_zero] at hp1 hp4 hkk0 hfind0 hvtm0 hsame0 hPB0
      have h0T : 0 ≤ T := by omega
      have hTn : T < (n : ℤ) := by omega
      have hosr : (getI ((List.range n).map oE) oldS).join = some osv := by
        rw [getI_range_map n oE oldS h0o (by omega), hosvv]
        rfl
      have hoer : (getI ((List.range n).map oE) oldE).join = some oev := by
        rw [getI_range_map n oE oldE (by omega) hon, hoevv]
        rfl
      have hnsr : getI ((List.range n).map g) newS = some (g newS.toNat) :=
        getI_range_map n g newS h0n (by omega)
      have hner : getI ((List.range n).map g) newE = some (g newE.toNat) :=
        getI_range_map n g newE (by omega) hnn
      have hvtr : (getI ((List.range n).map oE) T).join = some vtm0 := by
        rw [getI_range_map n oE T h0T hTn, hvtm0]
        rfl
      obtain ⟨v2, δ, hpeq, helm, hδ⟩ := hPB0 (fuel + c) (by omega) true false st
      have hstep := uc_step_keyed_some (fuel + c) parentElm
        ((List.range n).map oE) ((List.range n).map g) oldS oldE newS newE m
        st osv oev (g newS.toNat) (g newE.toNat) vtm0 kk0 T v2
        { st with ops := st.ops ++ POp.patched vtm0.sc.vid (g newS.toNat).sc.vid :: δ }
        ⟨by omega, by omega⟩ hosr hoer hnsr hner hp1 hp2 hp3 hp4 hkk0 hfind0
        hvtr hsame0 hpeq
      rw [setI_range_map n oE T (none : Option VNode) h0T hTn,
        setI_range_map n g newS v2 h0n (by omega)] at hstep
      have hg' : ∀ j : ℕ, j < c →
          sameVnode osv ((fun i => if i = newS.toNat then v2 else g i)
            ((newS + 1).toNat + j)) = false ∧
          sameVnode oev ((fun i => if i = newS.toNat then v2 else g i)
            ((newS + 1).toNat + j)) = false ∧
          ∃ kk vtm, ((fun i => if i = newS.toNat then v2 else g i)
              ((newS + 1).toNat + j)).sc.key = some kk ∧
            assocGet m kk = some (T + 1 + j) ∧
            (fun i => if i = T.toNat then none else oE i)
              ((T + 1).toNat + j) = some vtm ∧
            sameVnode vtm ((fun i => if i = newS.toNat then v2 else g i)
              ((newS + 1).toNat + j)) = true ∧
            PatchBenign N vtm ((fun i => if i = newS.toNat then v2 else g i)
              ((newS + 1).toNat + j)) := by
        intro j hj
        obtain ⟨hq1, hq4, kk, vtm, hkk, hfind, hvtm, hsame, hPB⟩ :=
          hpf (j + 1) (by omega)
        have hin : (newS + 1).toNat + j = newS.toNat + (j + 1) := by omega
        have hio : (T + 1).toNat + j = T.toNat + (j + 1) := by omega
        have hiz : T + 1 + (j : ℤ) = T + ((j : ℕ) + 1 : ℕ) := by omega
        rw [hin, hio, hiz]
        simp only [if_neg (show ¬ (newS.toNat + (j + 1) = newS.toNat) from
          by omega), if_neg (show ¬ (T.toNat + (j + 1) = T.toNat) from
          by omega)]
        exact ⟨hq1, hq4, kk, vtm, hkk, hfind, hvtm, hsame, hPB⟩
      obtain ⟨oE2, g2, st2, heq, hoE2, hext, hres, hout⟩ := ih N fuel n
        parentElm (fun i => if i = T.toNat then none else oE i)
        (fun i => if i = newS.toNat then v2 else g i) oldS oldE (newS + 1)
        newE (T + 1) m
        (nodeInsertBefore
          { st with ops := st.ops ++ POp.patched vtm0.sc.vid (g newS.toNat).sc.vid :: δ }
          parentElm vtm0.sc.elm osv.sc.elm)
        osv oev hNf h0o hoo hon (by omega) (by omega) hnn (by omega) (by omega)
        (by simp only [if_neg (show ¬ (oldS.toNat = T.toNat) from by omega)]
            exact hosvv)
        (by simp only [if_neg (show ¬ (oldE.toNat = T.toNat) from by omega)]
            exact hoevv)
        (by simp only [if_neg (show ¬ (newE.toNat = newS.toNat) from by omega)]
            exact hp2)
        (by simp only [if_neg (show ¬ (newE.toNat = newS.toNat) from by omega)]
            exact hp3)
        hg'
      have hsx : StExt st
          (nodeInsertBefore
            { st with ops := st.ops ++ POp.patched vtm0.sc.vid (g newS.toNat).sc.vid :: δ }
            parentElm vtm0.sc.elm osv.sc.elm) :=
        StExt_trans
          (StExt_patchDelta st vtm0.sc.vid (g newS.toNat).sc.vid δ hδ)
          (StExt_insertBefore _ parentElm vtm0.sc.elm osv.sc.elm)
      refine ⟨oE2, g2, st2, ?_, ?_, StExt_trans hsx hext, ?_, ?_⟩
      · rw [show fuel + (c + 1) = fuel + c + 1 from rfl, hstep, heq]
        rw [show newS + 1 + (c : ℤ) = newS + ((c : ℕ) + 1 : ℕ) from by omega]
      · intro i
        obtain ⟨hin2, hout2⟩ := hoE2 i
        constructor
        · intro hw
          rcases Decidable.em ((T + 1).toNat ≤ i ∧ i < (T + 1).toNat + c)
            with h | h
          · exact hin2 h
          · have hiT : i = T.toNat := by omega
            rw [hout2 h]
            simp only [if_pos hiT]
        · intro hw
          rw [hout2 (by omega)]
          simp only [if_neg (show ¬ (i = T.toNat) from by omega)]
      · intro j hj
        rcases Nat.eq_zero_or_pos j with hj0 | hjp
        · subst hj0
          simp only [Nat.add_zero]
          refine ⟨vtm0, hvtm0, ?_, ?_⟩
          · have hg2 : g2 newS.toNat = v2 := by
              rw [hout newS.toNat (by omega)]
              simp
            rw [hg2]
            exact helm
          · refine StExt_ops_mem hext ?_
            refine StExt_ops_mem
              (StExt_insertBefore
                { st with ops := st.ops ++ POp.patched vtm0.sc.vid (g newS.toNat).sc.vid :: δ }
                parentElm vtm0.sc.elm osv.sc.elm) ?_
            simp
        · obtain ⟨j', rfl⟩ : ∃ j', j = j' + 1 := ⟨j - 1, by omega⟩
          obtain ⟨vtm, hvtm, helm2, hmem⟩ := hres j' (by omega)
          have hio : (T + 1).toNat + j' = T.toNat + (j' + 1) := by omega
          have hin : (newS + 1).toNat + j' = newS.toNat + (j' + 1) := by omega
          rw [hio] at hvtm
          simp only [if_neg (show ¬ (T.toNat + (j' + 1) = T.toNat) from
            by omega)] at hvtm
          simp only [if_neg (show ¬ ((newS + 1).toNat + j' = newS.toNat) from
            by omega)] at hmem
          rw [hin] at helm2 hmem
          exact ⟨vtm, hvtm, helm2, hmem⟩
      · intro i hi
        rw [hout i (by omega)]
        simp only [if_neg (show ¬ (i = newS.toNat) from by omega)]

/-! ### Rotated keyed lists -/

/-- The rotation scenario: the old children are `o 0 … o (n-1)` with
pairwise distinct defined keys `κ i`; the new children `nn i` are
re-renders of the old nodes rotated by `k` (`nn i` corresponds to
`o ((i + k) % n)`): same key, `sameVnode`-matched, and patching the pair is
a benign in-place patch. -/
structure RotCtx (N n k : ℕ) (o nn : ℕ → VNode) (κ : ℕ → JSKey) : Prop where
  hn : 0 < n
  hk : k < n
  hkey : ∀ i, i < n → (o i).sc.key = some (κ i)
  hinj : ∀ i j, i < n → j < n → κ i = κ j → i = j
  hnkey : ∀ i, i < n → (nn i).sc.key = some (κ ((i + k) % n))
  hsame : ∀ i, i < n → sameVnode (o ((i + k) % n)) (nn i) = true
  hpb : ∀ i, i < n → PatchBenign N (o ((i + k) % n)) (nn i)

/-- Any non-matching old/new pair of a rotation fails `sameVnode`, because
their keys differ. -/
theorem RotCtx.same_false {N n k : ℕ} {o nn : ℕ → VNode} {κ : ℕ → JSKey}
    (H : RotCtx N n k o nn κ) (a b : ℕ) (ha : a < n) (hb : b < n)
    (hne : (b + k) % n ≠ a) : sameVnode (o a) (nn b) = false := by
  apply sameVnode_of_key_ne
  rw [H.hkey a ha, H.hnkey b hb]
  intro hc
  exact hne (H.hinj a ((b + k) % n) ha (Nat.mod_lt _ H.hn)
    (Option.some.inj hc)).symm

/-- The identity rotation: the loop is a pure pointwise run. -/
theorem rot_case_zero (N n : ℕ) (o nn : ℕ → VNode) (κ : ℕ → JSKey)
    (parentElm : Option ℕ) (R : ℕ) (st : PState)
    (H : RotCtx N n 0 o nn κ) (hR : N ≤ R) :
    ∃ (oldCh2 : List (Option VNode)) (g2 : ℕ → VNode) (st2 : PState),
      updateChildrenF (R + 2 + n) parentElm
          ((List.range n).map (fun i => some (o i))) ((List.range n).map nn)
          0 ((n : ℤ) - 1) 0 ((n : ℤ) - 1) none false st
        = some (oldCh2, (List.range n).map g2, st2) ∧
      StExt st st2 ∧
      ∀ i, i < n → (g2 i).sc.elm = (o ((i + 0) % n)).sc.elm ∧
        POp.patched (o ((i + 0) % n)).sc.vid (nn i).sc.vid ∈ st2.ops := by
  have hm : ∀ i, i < n → (i + 0) % n = i := fun i hi => by
    rw [Nat.add_zero]
    exact Nat.mod_eq_of_lt hi
  have hwin : ∀ j : ℕ, j < n →
      ∃ ov, (fun i => some (o i)) ((0 : ℤ).toNat + j) = some ov ∧
        sameVnode ov (nn ((0 : ℤ).toNat + j)) = true ∧
        PatchBenign N ov (nn ((0 : ℤ).toNat + j)) := by
    intro j hj
    refine ⟨o ((0 : ℤ).toNat + j), rfl, ?_, ?_⟩
    · simp only [Int.toNat_zero, Nat.zero_add]
      have := H.hsame j hj
      rwa [hm j hj] at this
    · simp only [Int.toNat_zero, Nat.zero_add]
      have := H.hpb j hj
      rwa [hm j hj] at this
  obtain ⟨g2, st2, heq, hext, hres, hout⟩ := uc_phase_pointwise n N (R + 2) n
    parentElm (fun i => some (o i)) nn 0 ((n : ℤ) - 1) 0 ((n : ℤ) - 1) none st
    (by omega) (by omega) (by omega) (by omega) (by omega) (by omega)
    (by omega) ⟨o (((n : ℤ) - 1).toNat), rfl⟩ hwin
  refine ⟨(List.range n).map (fun i => some (o i)), g2, st2, ?_, hext, ?_⟩
  · rw [heq]
    exact uc_step_exit R parentElm ((List.range n).map (fun i => some (o i)))
      ((List.range n).map g2) (0 + (n : ℤ)) ((n : ℤ) - 1) (0 + (n : ℤ))
      ((n : ℤ) - 1) none false st2 (by omega) (by omega)
  · intro i hi
    rw [hm i hi]
    obtain ⟨ov, hov, helm2, hmem⟩ := hres i hi
    simp only [Int.toNat_zero, Nat.zero_add] at hov helm2 hmem
    rw [← Option.some.inj hov] at helm2 hmem
    exact ⟨helm2, hmem⟩

/-- Rotation by one: the fourth-probe mirror image is taken by the third
probe (old-start matches new-end), then the rest is a pointwise run. -/
theorem rot_case_one (N n : ℕ) (o nn : ℕ → VNode) (κ : ℕ → JSKey)
    (parentElm : Option ℕ) (R : ℕ) (st : PState)
    (H : RotCtx N n 1 o nn κ) (hR : N ≤ R) :
    ∃ (oldCh2 : List (Option VNode)) (g2 : ℕ → VNode) (st2 : PState),
      updateChildrenF (R + 2 + (n - 1) + 1) parentElm
          ((List.range n).map (fun i => some (o i))) ((List.range n).map nn)
          0 ((n : ℤ) - 1) 0 ((n : ℤ) - 1) none false st
        = some (oldCh2, (List.range n).map g2, st2) ∧
      StExt st st2 ∧
      ∀ i, i < n → (g2 i).sc.elm = (o ((i + 1) % n)).sc.elm ∧
        POp.patched (o ((i + 1) % n)).sc.vid (nn i).sc.vid ∈ st2.ops := by
  have hn2 : 2 ≤ n := H.hk
  have hts : (n - 1 + 1) % n = 0 := by
    rw [Nat.sub_add_cancel (by omega), Nat.mod_self]
  have hosr : (getI ((List.range n).map (fun i => some (o i))) 0).join
      = some (o 0) := by
    rw [getI_range_map n (fun i => some (o i)) 0 (by omega) (by omega)]
    rfl
  have hent : ((n : ℤ) - 1).toNat = n - 1 := by omega
  have hoer : (getI ((List.range n).map (fun i => some (o i))) ((n : ℤ) - 1)).join
      = some (o (n - 1)) := by
    rw [getI_range_map n (fun i => some (o i)) ((n : ℤ) - 1) (by omega)
      (by omega), hent]
    rfl
  have hnsr : getI ((List.range n).map nn) 0 = some (nn 0) := by
    rw [getI_range_map n nn 0 (by omega) (by omega)]
    rfl
  have hner : getI ((List.range n).map nn) ((n : ℤ) - 1) = some (nn (n - 1)) := by
    rw [getI_range_map n nn ((n : ℤ) - 1) (by omega) (by omega), hent]
  have hp1 : sameVnode (o 0) (nn 0) = false :=
    H.same_false 0 0 (by omega) (by omega)
      (by rw [Nat.mod_eq_of_lt (show 0 + 1 < n from by omega)]; omega)
  have hp2 : sameVnode (o (n - 1)) (nn (n - 1)) = false :=
    H.same_false (n - 1) (n - 1) (by omega) (by omega) (by rw [hts]; omega)
  have hp3 : sameVnode (o 0) (nn (n - 1)) = true := by
    have := H.hsame (n - 1) (by omega)
    rwa [hts] at this
  have hPB3 : PatchBenign N (o 0) (nn (n - 1)) := by
    have := H.hpb (n - 1) (by omega)
    rwa [hts] at this
  obtain ⟨v2, δ, hpeq, helm, hδ⟩ := hPB3 (R + 2 + (n - 1)) (by omega) true
    false st
  have hstep := uc_step_probe3 (R + 2 + (n - 1)) parentElm
    ((List.range n).map (fun i => some (o i))) ((List.range n).map nn)
    0 ((n : ℤ) - 1) 0 ((n : ℤ) - 1) none st (o 0) (o (n - 1)) (nn 0)
    (nn (n - 1)) v2
    { st with ops := st.ops ++ POp.patched (o 0).sc.vid (nn (n - 1)).sc.vid :: δ }
    ⟨by omega, by omega⟩ hosr hoer hnsr hner hp1 hp2 hp3 hpeq
  rw [setI_range_map n nn ((n : ℤ) - 1) v2 (by omega) (by omega)] at hstep
  have hsx : StExt st
      (nodeInsertBefore
        { st with ops := st.ops ++ POp.patched (o 0).sc.vid (nn (n - 1)).sc.vid :: δ }
        parentElm (o 0).sc.elm
        (domNextSibling
          { st with ops := st.ops ++ POp.patched (o 0).sc.vid (nn (n - 1)).sc.vid :: δ }.dom
          (o (n - 1)).sc.elm)) :=
    StExt_trans (StExt_patchDelta st (o 0).sc.vid (nn (n - 1)).sc.vid δ hδ)
      (StExt_insertBefore _ parentElm (o 0).sc.elm _)
  have hwin : ∀ j : ℕ, j < n - 1 →
      ∃ ov, (fun i => some (o i)) ((0 + 1 : ℤ).toNat + j) = some ov ∧
        sameVnode ov ((fun i => if i = ((n : ℤ) - 1).toNat then v2 else nn i)
          ((0 : ℤ).toNat + j)) = true ∧
        PatchBenign N ov ((fun i => if i = ((n : ℤ) - 1).toNat then v2 else nn i)
          ((0 : ℤ).toNat + j)) := by
    intro j hj
    refine ⟨o ((0 + 1 : ℤ).toNat + j), rfl, ?_, ?_⟩
    · simp only [show ((0 + 1 : ℤ)).toNat + j = j + 1 from by omega,
        show ((0 : ℤ)).toNat + j = j from by omega,
        if_neg (show ¬ (j = ((n : ℤ) - 1).toNat) from by omega)]
      have := H.hsame j (by omega)
      rwa [Nat.mod_eq_of_lt (by omega)] at this
    · simp only [show ((0 + 1 : ℤ)).toNat + j = j + 1 from by omega,
        show ((0 : ℤ)).toNat + j = j from by omega,
        if_neg (show ¬ (j = ((n : ℤ) - 1).toNat) from by omega)]
      have := H.hpb j (by omega)
      rwa [Nat.mod_eq_of_lt (by omega)] at this
  obtain ⟨g2, st2, heq2, hext2, hres2, hout2⟩ := uc_phase_pointwise (n - 1) N
    (R + 2) n parentElm (fun i => some (o i))
    (fun i => if i = ((n : ℤ) - 1).toNat then v2 else nn i)
    (0 + 1) ((n : ℤ) - 1) 0 ((n : ℤ) - 1 - 1) none
    (nodeInsertBefore
      { st with ops := st.ops ++ POp.patched (o 0).sc.vid (nn (n - 1)).sc.vid :: δ }
      parentElm (o 0).sc.elm
      (domNextSibling
        { st with ops := st.ops ++ POp.patched (o 0).sc.vid (nn (n - 1)).sc.vid :: δ }.dom
        (o (n - 1)).sc.elm))
    (by omega) (by omega) (by omega) (by omega) (by omega) (by omega)
    (by omega) ⟨o (((n : ℤ) - 1).toNat), rfl⟩ hwin
  refine ⟨(List.range n).map (fun i => some (o i)), g2, st2, ?_,
    StExt_trans hsx hext2, ?_⟩
  · rw [hstep, heq2]
    exact uc_step_exit R parentElm ((List.range n).map (fun i => some (o i)))
      ((List.range n).map g2) (0 + 1 + ((n - 1 : ℕ) : ℤ)) ((n : ℤ) - 1)
      (0 + ((n - 1 : ℕ) : ℤ)) ((n : ℤ) - 1 - 1) none false st2 (by omega)
      (by omega)
  · intro i hi
    rcases Decidable.em (i = n - 1) with hieq | hine
    · subst hieq
      rw [hts]
      have hg2 : g2 (n - 1) = v2 := by
        rw [hout2 (n - 1) (by omega)]
        simp only [if_pos (show n - 1 = ((n : ℤ) - 1).toNat from by omega)]
      refine ⟨by rw [hg2]; exact helm, ?_⟩
      refine StExt_ops_mem hext2 ?_
      refine StExt_ops_mem (StExt_insertBefore
        { st with ops := st.ops ++ POp.patched (o 0).sc.vid (nn (n - 1)).sc.vid :: δ }
        parentElm (o 0).sc.elm _) ?_
      simp
    · obtain ⟨ov, hov, helm2, hmem⟩ := hres2 i (by omega)
      simp only [show ((0 + 1 : ℤ)).toNat + i = i + 1 from by omega] at hov
      simp only [show ((0 : ℤ)).toNat + i = i from by omega,
        if_neg (show ¬ (i = ((n : ℤ) - 1).toNat) from by omega)] at helm2 hmem
      rw [← Option.some.inj hov] at helm2 hmem
      rw [Nat.mod_eq_of_lt (by omega)]
      exact ⟨helm2, hmem⟩

/-- Rotation by `n - 1` (with `n ≥ 3`): the fourth probe fires immediately
(old-end matches new-start), then the rest is a pointwise run. -/
theorem rot_case_top (N n k : ℕ) (o nn : ℕ → VNode) (κ : ℕ → JSKey)
    (parentElm : Option ℕ) (R : ℕ) (st : PState)
    (H : RotCtx N n k o nn κ) (hR : N ≤ R) (hk1 : k = n - 1) (hk2 : 2 ≤ k) :
    ∃ (oldCh2 : List (Option VNode)) (g2 : ℕ → VNode) (st2 : PState),
      updateChildrenF (R + 2 + (n - 1) + 1) parentElm
          ((List.range n).map (fun i => some (o i))) ((List.range n).map nn)
          0 ((n : ℤ) - 1) 0 ((n : ℤ) - 1) none false st
        = some (oldCh2, (List.range n).map g2, st2) ∧
      StExt st st2 ∧
      ∀ i, i < n → (g2 i).sc.elm = (o ((i + k) % n)).sc.elm ∧
        POp.patched (o ((i + k) % n)).sc.vid (nn i).sc.vid ∈ st2.ops := by
  have hn3 : 3 ≤ n := by omega
  have hm0 : (0 + k) % n = n - 1 := by
    rw [Nat.zero_add, Nat.mod_eq_of_lt (by omega)]
    omega
  have hme : (n - 1 + k) % n = n - 2 := by
    rw [show n - 1 + k = n + (n - 2) from by omega, Nat.add_mod_left,
      Nat.mod_eq_of_lt (by omega)]
  have hosr : (getI ((List.range n).map (fun i => some (o i))) 0).join
      = some (o 0) := by
    rw [getI_range_map n (fun i => some (o i)) 0 (by omega) (by omega)]
    rfl
  have hent : ((n : ℤ) - 1).toNat = n - 1 := by omega
  have hoer : (getI ((List.range n).map (fun i => some (o i))) ((n : ℤ) - 1)).join
      = some (o (n - 1)) := by
    rw [getI_range_map n (fun i => some (o i)) ((n : ℤ) - 1) (by omega)
      (by omega), hent]
    rfl
  have hnsr : getI ((List.range n).map nn) 0 = some (nn 0) := by
    rw [getI_range_map n nn 0 (by omega) (by omega)]
    rfl
  have hner : getI ((List.range n).map nn) ((n : ℤ) - 1) = some (nn (n - 1)) := by
    rw [getI_range_map n nn ((n : ℤ) - 1) (by omega) (by omega), hent]
  have hp1 : sameVnode (o 0) (nn 0) = false :=
    H.same_false 0 0 (by omega) (by omega) (by rw [hm0]; omega)
  have hp2 : sameVnode (o (n - 1)) (nn (n - 1)) = false :=
    H.same_false (n - 1) (n - 1) (by omega) (by omega) (by rw [hme]; omega)
  have hp3 : sameVnode (o 0) (nn (n - 1)) = false :=
    H.same_false 0 (n - 1) (by omega) (by omega) (by rw [hme]; omega)
  have hp4 : sameVnode (o (n - 1)) (nn 0) = true := by
    have := H.hsame 0 (by omega)
    rwa [hm0] at this
  have hPB4 : PatchBenign N (o (n - 1)) (nn 0) := by
    have := H.hpb 0 (by omega)
    rwa [hm0] at this
  obtain ⟨v2, δ, hpeq, helm, hδ⟩ := hPB4 (R + 2 + (n - 1)) (by omega) true
    false st
  have hstep := uc_step_probe4 (R + 2 + (n - 1)) parentElm
    ((List.range n).map (fun i => some (o i))) ((List.range n).map nn)
    0 ((n : ℤ) - 1) 0 ((n : ℤ) - 1) none st (o 0) (o (n - 1)) (nn 0)
    (nn (n - 1)) v2
    { st with ops := st.ops ++ POp.patched (o (n - 1)).sc.vid (nn 0).sc.vid :: δ }
    ⟨by omega, by omega⟩ hosr hoer hnsr hner hp1 hp2 hp3 hp4 hpeq
  rw [setI_range_map n nn 0 v2 (by omega) (by omega)] at hstep
  have hsx : StExt st
      (nodeInsertBefore
        { st with ops := st.ops ++ POp.patched (o (n - 1)).sc.vid (nn 0).sc.vid :: δ }
        parentElm (o (n - 1)).sc.elm (o 0).sc.elm) :=
    StExt_trans (StExt_patchDelta st (o (n - 1)).sc.vid (nn 0).sc.vid δ hδ)
      (StExt_insertBefore _ parentElm (o (n - 1)).sc.elm (o 0).sc.elm)
  have hwin : ∀ j : ℕ, j < n - 1 →
      ∃ ov, (fun i => some (o i)) ((0 : ℤ).toNat + j) = some ov ∧
        sameVnode ov ((fun i => if i = (0 : ℤ).toNat then v2 else nn i)
          ((0 + 1 : ℤ).toNat + j)) = true ∧
        PatchBenign N ov ((fun i => if i = (0 : ℤ).toNat then v2 else nn i)
          ((0 + 1 : ℤ).toNat + j)) := by
    intro j hj
    refine ⟨o ((0 : ℤ).toNat + j), rfl, ?_, ?_⟩
    · simp only [show ((0 + 1 : ℤ)).toNat + j = j + 1 from by omega,
        show ((0 : ℤ)).toNat + j = j from by omega,
        if_neg (show ¬ (j + 1 = (0 : ℤ).toNat) from by omega)]
      have := H.hsame (j + 1) (by omega)
      rwa [show j + 1 + k = n + j from by omega, Nat.add_mod_left,
        Nat.mod_eq_of_lt (by omega)] at this
    · simp only [show ((0 + 1 : ℤ)).toNat + j = j + 1 from by omega,
        show ((0 : ℤ)).toNat + j = j from by omega,
        if_neg (show ¬ (j + 1 = (0 : ℤ).toNat) from by omega)]
      have := H.hpb (j + 1) (by omega)
      rwa [show j + 1 + k = n + j from by omega, Nat.add_mod_left,
        Nat.mod_eq_of_lt (by omega)] at this
  obtain ⟨g2, st2, heq2, hext2, hres2, hout2⟩ := uc_phase_pointwise (n - 1) N
    (R + 2) n parentElm (fun i => some (o i))
    (fun i => if i = (0 : ℤ).toNat then v2 else nn i)
    0 ((n : ℤ) - 1 - 1) (0 + 1) ((n : ℤ) - 1) none
    (nodeInsertBefore
      { st with ops := st.ops ++ POp.patched (o (n - 1)).sc.vid (nn 0).sc.vid :: δ }
      parentElm (o (n - 1)).sc.elm (o 0).sc.elm)
    (by omega) (by omega) (by omega) (by omega) (by omega) (by omega)
    (by omega) ⟨o (((n : ℤ) - 1 - 1).toNat), rfl⟩ hwin
  refine ⟨(List.range n).map (fun i => some (o i)), g2, st2, ?_,
    StExt_trans hsx hext2, ?_⟩
  · rw [hstep, heq2]
    exact uc_step_exit R parentElm ((List.range n).map (fun i => some (o i)))
      ((List.range n).map g2) (0 + ((n - 1 : ℕ) : ℤ)) ((n : ℤ) - 1 - 1)
      (0 + 1 + ((n - 1 : ℕ) : ℤ)) ((n : ℤ) - 1) none false st2 (by omega)
      (by omega)
  · intro i hi
    rcases Nat.eq_zero_or_pos i with hieq | hine
    · subst hieq
      rw [hm0]
      have hg2 : g2 0 = v2 := by
        rw [hout2 0 (by omega)]
        simp only [if_pos (show 0 = (0 : ℤ).toNat from rfl)]
      refine ⟨by rw [hg2]; exact helm, ?_⟩
      refine StExt_ops_mem hext2 ?_
      refine StExt_ops_mem (StExt_insertBefore
        { st with ops := st.ops ++ POp.patched (o (n - 1)).sc.vid (nn 0).sc.vid :: δ }
        parentElm (o (n - 1)).sc.elm (o 0).sc.elm) ?_
      simp
    · obtain ⟨j, rfl⟩ : ∃ j, i = j + 1 := ⟨i - 1, by omega⟩
      obtain ⟨ov, hov, helm2, hmem⟩ := hres2 j (by omega)
      simp only [show ((0 : ℤ)).toNat + j = j from by omega] at hov
      simp only [show ((0 + 1 : ℤ)).toNat + j = j + 1 from by omega,
        if_neg (show ¬ (j + 1 = (0 : ℤ).toNat) from by omega)] at helm2 hmem
      rw [← Option.some.inj hov] at helm2 hmem
      rw [show j + 1 + k = n + j from by omega, Nat.add_mod_left,
        Nat.mod_eq_of_lt (by omega)]
      exact ⟨helm2, hmem⟩

/-- General rotation (`2 ≤ k ≤ n - 2`): one keyed fallback step builds the
key map, `n - 2 - k` further fallback steps consume the moved block,
probe four consumes the old tail, the tombstones are skipped, and the rest
is a pointwise run. -/
theorem rot_case_mid (N n k : ℕ) (o nn : ℕ → VNode) (κ : ℕ → JSKey)
    (parentElm : Option ℕ) (R : ℕ) (st : PState)
    (H : RotCtx N n k o nn κ) (hR : N ≤ R) (hk2 : 2 ≤ k) (hkn : k ≤ n - 2) :
    ∃ (oldCh2 : List (Option VNode)) (g2 : ℕ → VNode) (st2 : PState),
      updateChildrenF (R + 2 + k + (n - 1 - k) + 1 + (n - 2 - k) + 1) parentElm
          ((List.range n).map (fun i => some (o i))) ((List.range n).map nn)
          0 ((n : ℤ) - 1) 0 ((n : ℤ) - 1) none false st
        = some (oldCh2, (List.range n).map g2, st2) ∧
      StExt st st2 ∧
      ∀ i, i < n → (g2 i).sc.elm = (o ((i + k) % n)).sc.elm ∧
        POp.patched (o ((i + k) % n)).sc.vid (nn i).sc.vid ∈ st2.ops := by
  have hn4 : 4 ≤ n := by omega
  have hent : ((n : ℤ) - 1).toNat = n - 1 := by omega
  have hm0 : (0 + k) % n = k := by
    rw [Nat.zero_add, Nat.mod_eq_of_lt (by omega)]
  have hme : (n - 1 + k) % n = k - 1 := by
    rw [show n - 1 + k = n + (k - 1) from by omega, Nat.add_mod_left,
      Nat.mod_eq_of_lt (by omega)]
  -- initial reads
  have hosr : (getI ((List.range n).map (fun i => some (o i))) 0).join
      = some (o 0) := by
    rw [getI_range_map n (fun i => some (o i)) 0 (by omega) (by omega)]
    rfl
  have hoer : (getI ((List.range n).map (fun i => some (o i))) ((n : ℤ) - 1)).join
      = some (o (n - 1)) := by
    rw [getI_range_map n (fun i => some (o i)) ((n : ℤ) - 1) (by omega)
      (by omega), hent]
    rfl
  have hnsr : getI ((List.range n).map nn) 0 = some (nn 0) := by
    rw [getI_range_map n nn 0 (by omega) (by omega)]
    rfl
  have hner : getI ((List.range n).map nn) ((n : ℤ) - 1) = some (nn (n - 1)) := by
    rw [getI_range_map n nn ((n : ℤ) - 1) (by omega) (by omega), hent]
  have hp1 : sameVnode (o 0) (nn 0) = false :=
    H.same_false 0 0 (by omega) (by omega) (by rw [hm0]; omega)
  have hp2 : sameVnode (o (n - 1)) (nn (n - 1)) = false :=
    H.same_false (n - 1) (n - 1) (by omega) (by omega) (by rw [hme]; omega)
  have hp3 : sameVnode (o 0) (nn (n - 1)) = false :=
    H.same_false 0 (n - 1) (by omega) (by omega) (by rw [hme]; omega)
  have hp4 : sameVnode (o (n - 1)) (nn 0) = false :=
    H.same_false (n - 1) 0 (by omega) (by omega) (by rw [hm0]; omega)
  have hkey0 : (nn 0).sc.key = some (κ k) := by
    have := H.hnkey 0 (by omega)
    rwa [hm0] at this
  have hfind0 : assocGet
      (createKeyToOldIdx ((List.range n).map (fun i => some (o i))) 0
        ((n : ℤ) - 1)) (κ k) = some ((k : ℕ) : ℤ) :=
    createKeyToOldIdx_rotation n o κ H.hkey H.hinj k (by omega)
  have hvtr : (getI ((List.range n).map (fun i => some (o i))) ((k : ℕ) : ℤ)).join
      = some (o k) := by
    rw [getI_range_map n (fun i => some (o i)) ((k : ℕ) : ℤ) (by omega)
      (by omega)]
    rfl
  have hsm0 : sameVnode (o k) (nn 0) = true := by
    have := H.hsame 0 (by omega)
    rwa [hm0] at this
  have hPB0 : PatchBenign N (o k) (nn 0) := by
    have := H.hpb 0 (by omega)
    rwa [hm0] at this
  obtain ⟨v2, δ1, hpeq1, helm1, hδ1⟩ := hPB0
    (R + 2 + k + (n - 1 - k) + 1 + (n - 2 - k)) (by omega) true false st
  set stp1 := { st with ops := st.ops ++ POp.patched (o k).sc.vid (nn 0).sc.vid :: δ1 }
    with hstp1
  have hstep1 := uc_step_keyed_none (R + 2 + k + (n - 1 - k) + 1 + (n - 2 - k))
    parentElm ((List.range n).map (fun i => some (o i)))
    ((List.range n).map nn) 0 ((n : ℤ) - 1) 0 ((n : ℤ) - 1) st (o 0) (o (n - 1))
    (nn 0) (nn (n - 1)) (o k) (κ k) ((k : ℕ) : ℤ) v2 stp1
    ⟨by omega, by omega⟩ hosr hoer hnsr hner hp1 hp2 hp3 hp4 hkey0 hfind0 hvtr
    hsm0 hpeq1
  rw [setI_range_map n (fun i => some (o i)) ((k : ℕ) : ℤ) none (by omega)
    (by omega), setI_range_map n nn 0 v2 (by omega) (by omega)] at hstep1
  set st1 := nodeInsertBefore stp1 parentElm (o k).sc.elm (o 0).sc.elm with hst1
  have hsx1 : StExt st st1 := by
    rw [hst1, hstp1]
    exact StExt_trans
      (StExt_patchDelta st (o k).sc.vid (nn 0).sc.vid δ1 hδ1)
      (StExt_insertBefore _ parentElm (o k).sc.elm (o 0).sc.elm)
  -- the fallback run over the moved block
  have hfwin : ∀ j : ℕ, j < n - 2 - k →
      sameVnode (o 0) ((fun i => if i = (0 : ℤ).toNat then v2 else nn i)
        ((0 + 1 : ℤ).toNat + j)) = false ∧
      sameVnode (o (n - 1)) ((fun i => if i = (0 : ℤ).toNat then v2 else nn i)
        ((0 + 1 : ℤ).toNat + j)) = false ∧
      ∃ kk vtm, ((fun i => if i = (0 : ℤ).toNat then v2 else nn i)
          ((0 + 1 : ℤ).toNat + j)).sc.key = some kk ∧
        assocGet (createKeyToOldIdx ((List.range n).map (fun i => some (o i)))
          0 ((n : ℤ) - 1)) kk = some ((k : ℤ) + 1 + j) ∧
        (fun i => if i = ((k : ℕ) : ℤ).toNat then none else some (o i))
          (((k : ℤ) + 1).toNat + j) = some vtm ∧
        sameVnode vtm ((fun i => if i = (0 : ℤ).toNat then v2 else nn i)
          ((0 + 1 : ℤ).toNat + j)) = true ∧
        PatchBenign N vtm ((fun i => if i = (0 : ℤ).toNat then v2 else nn i)
          ((0 + 1 : ℤ).toNat + j)) := by
    intro j hj
    have hmj : (1 + j + k) % n = 1 + j + k :=
      Nat.mod_eq_of_lt (by omega)
    simp only [show ((0 + 1 : ℤ)).toNat + j = 1 + j from by omega,
      show (((k : ℤ) + 1)).toNat + j = k + 1 + j from by omega,
      if_neg (show ¬ (1 + j = (0 : ℤ).toNat) from by omega),
      if_neg (show ¬ (k + 1 + j = ((k : ℕ) : ℤ).toNat) from by omega)]
    refine ⟨H.same_false 0 (1 + j) (by omega) (by omega) (by rw [hmj]; omega),
      H.same_false (n - 1) (1 + j) (by omega) (by omega) (by rw [hmj]; omega),
      κ (1 + j + k), o (k + 1 + j), ?_, ?_, rfl, ?_, ?_⟩
    · have := H.hnkey (1 + j) (by omega)
      rwa [hmj] at this
    · have := createKeyToOldIdx_rotation n o κ H.hkey H.hinj (1 + j + k)
        (by omega)
      rw [this]
      congr 1
      omega
    · have := H.hsame (1 + j) (by omega)
      rw [hmj] at this
      rwa [show 1 + j + k = k + 1 + j from by omega] at this
    · have := H.hpb (1 + j) (by omega)
      rw [hmj] at this
      rwa [show 1 + j + k = k + 1 + j from by omega] at this
  obtain ⟨oE2, g2f, st2f, heqF, hoE2, hextF, hresF, houtF⟩ :=
    uc_phase_fallback (n - 2 - k) N (R + 2 + k + (n - 1 - k) + 1) n parentElm
    (fun i => if i = ((k : ℕ) : ℤ).toNat then none else some (o i))
    (fun i => if i = (0 : ℤ).toNat then v2 else nn i)
    0 ((n : ℤ) - 1) (0 + 1) ((n : ℤ) - 1) ((k : ℤ) + 1)
    (createKeyToOldIdx ((List.range n).map (fun i => some (o i))) 0
      ((n : ℤ) - 1)) st1 (o 0) (o (n - 1))
    (by omega) (by omega) (by omega) (by omega) (by omega) (by omega)
    (by omega) (by omega) (by omega)
    (by simp only [Int.toNat_zero,
          if_neg (show ¬ ((0 : ℕ) = ((k : ℕ) : ℤ).toNat) from by omega)])
    (by simp only [hent,
          if_neg (show ¬ (n - 1 = ((k : ℕ) : ℤ).toNat) from by omega)])
    (by simp only [hent, if_neg (show ¬ (n - 1 = (0 : ℤ).toNat) from by omega)]
        exact hp2)
    (by simp only [hent, if_neg (show ¬ (n - 1 = (0 : ℤ).toNat) from by omega)]
        exact hp3)
    hfwin
  -- probe four consumes the old tail
  have hg2f_at : ∀ i : ℕ, ¬ (1 ≤ i ∧ i < 1 + (n - 2 - k)) → i ≠ 0 →
      g2f i = nn i := by
    intro i hi h0
    have := houtF i (by omega)
    rw [this]
    simp only [if_neg (show ¬ (i = (0 : ℤ).toNat) from by omega)]
  have hoE2_at : ∀ i : ℕ, ¬ (k + 1 ≤ i ∧ i < k + 1 + (n - 2 - k)) → i ≠ k →
      oE2 i = some (o i) := by
    intro i hi hk0
    have := (hoE2 i).2 (by
      intro hc
      exact hi (by omega))
    rw [this]
    simp only [if_neg (show ¬ (i = ((k : ℕ) : ℤ).toNat) from by omega)]
  have hoE2_tomb : ∀ i : ℕ, k ≤ i → i < n - 1 → oE2 i = none := by
    intro i h1 h2
    rcases Decidable.em (i = k) with hik | hik
    · have := (hoE2 i).2 (by
        intro hc
        omega)
      rw [this]
      simp only [if_pos (show i = ((k : ℕ) : ℤ).toNat from by omega)]
    · exact (hoE2 i).1 (by omega)
  have hosr2 : (getI ((List.range n).map oE2) 0).join = some (o 0) := by
    rw [getI_range_map n oE2 0 (by omega) (by omega),
      show (0 : ℤ).toNat = 0 from rfl, hoE2_at 0 (by omega) (by omega)]
    rfl
  have hoer2 : (getI ((List.range n).map oE2) ((n : ℤ) - 1)).join
      = some (o (n - 1)) := by
    rw [getI_range_map n oE2 ((n : ℤ) - 1) (by omega) (by omega), hent,
      hoE2_at (n - 1) (by omega) (by omega)]
    rfl
  have hnsv4 : getI ((List.range n).map g2f) (0 + 1 + ((n - 2 - k : ℕ) : ℤ))
      = some (nn (n - 1 - k)) := by
    rw [getI_range_map n g2f (0 + 1 + ((n - 2 - k : ℕ) : ℤ)) (by omega)
      (by omega)]
    rw [show ((0 + 1 + ((n - 2 - k : ℕ) : ℤ))).toNat = n - 1 - k from by omega]
    rw [hg2f_at (n - 1 - k) (by omega) (by omega)]
  have hnev4 : getI ((List.range n).map g2f) ((n : ℤ) - 1)
      = some (nn (n - 1)) := by
    rw [getI_range_map n g2f ((n : ℤ) - 1) (by omega) (by omega), hent,
      hg2f_at (n - 1) (by omega) (by omega)]
  have hq1 : sameVnode (o 0) (nn (n - 1 - k)) = false :=
    H.same_false 0 (n - 1 - k) (by omega) (by omega)
      (by rw [show n - 1 - k + k = n - 1 from by omega,
            Nat.mod_eq_of_lt (by omega)]
          omega)
  have hq4 : sameVnode (o (n - 1)) (nn (n - 1 - k)) = true := by
    have := H.hsame (n - 1 - k) (by omega)
    rwa [show n - 1 - k + k = n - 1 from by omega,
      Nat.mod_eq_of_lt (by omega)] at this
  have hPB4 : PatchBenign N (o (n - 1)) (nn (n - 1 - k)) := by
    have := H.hpb (n - 1 - k) (by omega)
    rwa [show n - 1 - k + k = n - 1 from by omega,
      Nat.mod_eq_of_lt (by omega)] at this
  obtain ⟨v4, δ4, hpeq4, helm4, hδ4⟩ := hPB4 (R + 2 + k + (n - 1 - k))
    (by omega) true false st2f
  set stp4 := { st2f with
    ops := st2f.ops ++ POp.patched (o (n - 1)).sc.vid (nn (n - 1 - k)).sc.vid :: δ4 }
    with hstp4
  have hstep4 := uc_step_probe4 (R + 2 + k + (n - 1 - k)) parentElm
    ((List.range n).map oE2) ((List.range n).map g2f) 0 ((n : ℤ) - 1)
    (0 + 1 + ((n - 2 - k : ℕ) : ℤ)) ((n : ℤ) - 1)
    (some (createKeyToOldIdx ((List.range n).map (fun i => some (o i))) 0
      ((n : ℤ) - 1))) st2f (o 0) (o (n - 1)) (nn (n - 1 - k)) (nn (n - 1)) v4
    stp4 ⟨by omega, by omega⟩ hosr2 hoer2 hnsv4 hnev4 hq1 hp2 hp3 hq4 hpeq4
  rw [setI_range_map n g2f (0 + 1 + ((n - 2 - k : ℕ) : ℤ)) v4 (by omega)
    (by omega)] at hstep4
  set st4 := nodeInsertBefore stp4 parentElm (o (n - 1)).sc.elm (o 0).sc.elm
    with hst4
  have hsx4 : StExt st2f st4 := by
    rw [hst4, hstp4]
    exact StExt_trans
      (StExt_patchDelta st2f (o (n - 1)).sc.vid (nn (n - 1 - k)).sc.vid δ4 hδ4)
      (StExt_insertBefore _ parentElm (o (n - 1)).sc.elm (o 0).sc.elm)
  -- skip the tombstone block
  have hskip := uc_phase_skip (n - 1 - k) (R + 2 + k) n parentElm oE2
    ((List.range n).map (fun i =>
      if i = ((0 + 1 + ((n - 2 - k : ℕ) : ℤ))).toNat then v4 else g2f i))
    0 ((n : ℤ) - 1 - 1) (0 + 1 + ((n - 2 - k : ℕ) : ℤ) + 1) ((n : ℤ) - 1)
    (some (createKeyToOldIdx ((List.range n).map (fun i => some (o i))) 0
      ((n : ℤ) - 1))) false st4
    (by omega) (by omega) (by omega) (by omega)
    ⟨o 0, by rw [show (0 : ℤ).toNat = 0 from rfl]
             exact hoE2_at 0 (by omega) (by omega)⟩
    (by
      intro j hj
      rw [show (((n : ℤ) - 1 - 1 - (j : ℤ))).toNat = n - 2 - j from by omega]
      exact hoE2_tomb (n - 2 - j) (by omega) (by omega))
  -- the closing pointwise run
  have hpwin : ∀ j : ℕ, j < k →
      ∃ ov, oE2 ((0 : ℤ).toNat + j) = some ov ∧
        sameVnode ov ((fun i =>
          if i = ((0 + 1 + ((n - 2 - k : ℕ) : ℤ))).toNat then v4 else g2f i)
          ((0 + 1 + ((n - 2 - k : ℕ) : ℤ) + 1).toNat + j)) = true ∧
        PatchBenign N ov ((fun i =>
          if i = ((0 + 1 + ((n - 2 - k : ℕ) : ℤ))).toNat then v4 else g2f i)
          ((0 + 1 + ((n - 2 - k : ℕ) : ℤ) + 1).toNat + j)) := by
    intro j hj
    have hidx : ((0 + 1 + ((n - 2 - k : ℕ) : ℤ) + 1)).toNat + j
        = n - k + j := by omega
    have hval : (fun i =>
        if i = ((0 + 1 + ((n - 2 - k : ℕ) : ℤ))).toNat then v4 else g2f i)
        (n - k + j) = nn (n - k + j) := by
      simp only [if_neg (show ¬ (n - k + j
        = ((0 + 1 + ((n - 2 - k : ℕ) : ℤ))).toNat) from by omega)]
      exact hg2f_at (n - k + j) (by omega) (by omega)
    have hmj : (n - k + j + k) % n = j := by
      rw [show n - k + j + k = n + j from by omega, Nat.add_mod_left,
        Nat.mod_eq_of_lt (by omega)]
    refine ⟨o j, ?_, ?_, ?_⟩
    · rw [show (0 : ℤ).toNat + j = j from by omega]
      exact hoE2_at j (by omega) (by omega)
    · rw [hidx, hval]
      have := H.hsame (n - k + j) (by omega)
      rwa [hmj] at this
    · rw [hidx, hval]
      have := H.hpb (n - k + j) (by omega)
      rwa [hmj] at this
  obtain ⟨g5, st5, heqP, hextP, hresP, houtP⟩ := uc_phase_pointwise k N (R + 2)
    n parentElm oE2
    (fun i => if i = ((0 + 1 + ((n - 2 - k : ℕ) : ℤ))).toNat then v4 else g2f i)
    0 ((n : ℤ) - 1 - 1 - ((n - 1 - k : ℕ) : ℤ))
    (0 + 1 + ((n - 2 - k : ℕ) : ℤ) + 1) ((n : ℤ) - 1)
    (some (createKeyToOldIdx ((List.range n).map (fun i => some (o i))) 0
      ((n : ℤ) - 1))) st4
    (by omega) (by omega) (by omega) (by omega) (by omega) (by omega)
    (by omega)
    ⟨o (k - 1), by
      rw [show (((n : ℤ) - 1 - 1 - ((n - 1 - k : ℕ) : ℤ))).toNat = k - 1 from
        by omega]
      exact hoE2_at (k - 1) (by omega) (by omega)⟩
    hpwin
  -- assemble
  refine ⟨(List.range n).map oE2, g5, st5, ?_,
    StExt_trans hsx1 (StExt_trans hextF (StExt_trans hsx4 hextP)), ?_⟩
  · rw [hstep1, heqF, hstep4, hskip, heqP]
    exact uc_step_exit R parentElm ((List.range n).map oE2)
      ((List.range n).map g5) (0 + (k : ℤ))
      ((n : ℤ) - 1 - 1 - ((n - 1 - k : ℕ) : ℤ))
      (0 + 1 + ((n - 2 - k : ℕ) : ℤ) + 1 + (k : ℤ)) ((n : ℤ) - 1)
      (some (createKeyToOldIdx ((List.range n).map (fun i => some (o i))) 0
        ((n : ℤ) - 1))) false st5 (by omega) (by omega)
  · intro i hi
    rcases Nat.eq_zero_or_pos i with hi0 | hip
    · -- the first new child was patched against o k by the keyed step
      subst hi0
      rw [hm0]
      have hg5 : g5 0 = v2 := by
        rw [houtP 0 (by omega)]
        simp only [if_neg (show ¬ ((0 : ℕ)
          = ((0 + 1 + ((n - 2 - k : ℕ) : ℤ))).toNat) from by omega)]
        exact (houtF 0 (by omega)).trans (by
          simp only [if_pos (show (0 : ℕ) = (0 : ℤ).toNat from rfl)])
      refine ⟨by rw [hg5]; exact helm1, ?_⟩
      refine StExt_ops_mem hextP ?_
      refine StExt_ops_mem hsx4 ?_
      refine StExt_ops_mem hextF ?_
      rw [hst1]
      refine StExt_ops_mem (StExt_insertBefore stp1 parentElm (o k).sc.elm
        (o 0).sc.elm) ?_
      rw [hstp1]
      simp
    · rcases Decidable.em (i ≤ n - 2 - k) with him | him
      · -- the moved block, consumed by the fallback run
        obtain ⟨j, rfl⟩ : ∃ j, i = 1 + j := ⟨i - 1, by omega⟩
        obtain ⟨vtm, hvtm, helmF, hmemF⟩ := hresF j (by omega)
        simp only [show (((k : ℤ) + 1)).toNat + j = k + 1 + j from by omega,
          if_neg (show ¬ (k + 1 + j = ((k : ℕ) : ℤ).toNat) from by omega)]
          at hvtm
        rw [← Option.some.inj hvtm] at helmF hmemF
        simp only [show ((0 + 1 : ℤ)).toNat + j = 1 + j from by omega,
          if_neg (show ¬ (1 + j = (0 : ℤ).toNat) from by omega)] at helmF hmemF
        have hmod : (1 + j + k) % n = k + 1 + j := by
          rw [Nat.mod_eq_of_lt (by omega)]
          omega
        rw [hmod]
        have hg5 : g5 (1 + j) = g2f (1 + j) := by
          rw [houtP (1 + j) (by omega)]
          simp only [if_neg (show ¬ (1 + j
            = ((0 + 1 + ((n - 2 - k : ℕ) : ℤ))).toNat) from by omega)]
        refine ⟨by rw [hg5]; exact helmF, ?_⟩
        exact StExt_ops_mem hextP (StExt_ops_mem hsx4 hmemF)
      · rcases Decidable.em (i = n - 1 - k) with hieq | hine
        · -- the old tail, consumed by probe four
          subst hieq
          rw [show n - 1 - k + k = n - 1 from by omega,
            Nat.mod_eq_of_lt (by omega)]
          have hg5 : g5 (n - 1 - k) = v4 := by
            rw [houtP (n - 1 - k) (by omega)]
            simp only [if_pos (show n - 1 - k
              = ((0 + 1 + ((n - 2 - k : ℕ) : ℤ))).toNat from by omega)]
          refine ⟨by rw [hg5]; exact helm4, ?_⟩
          refine StExt_ops_mem hextP ?_
          rw [hst4]
          refine StExt_ops_mem (StExt_insertBefore stp4 parentElm
            (o (n - 1)).sc.elm (o 0).sc.elm) ?_
          rw [hstp4]
          simp
        · -- the head block, consumed by the pointwise run
          obtain ⟨j, rfl⟩ : ∃ j, i = n - k + j := ⟨i - (n - k), by omega⟩
          obtain ⟨ov, hov, helmP, hmemP⟩ := hresP j (by omega)
          rw [show (0 : ℤ).toNat + j = j from by omega] at hov
          rw [hoE2_at j (by omega) (by omega)] at hov
          rw [← Option.some.inj hov] at helmP hmemP
          rw [show ((0 + 1 + ((n - 2 - k : ℕ) : ℤ) + 1)).toNat + j
            = n - k + j from by omega] at helmP hmemP
          simp only [if_neg (show ¬ (n - k + j
            = ((0 + 1 + ((n - 2 - k : ℕ) : ℤ))).toNat) from by omega)]
            at hmemP
          rw [hg2f_at (n - k + j) (by omega) (by omega)] at hmemP
          rw [show n - k + j + k = n + j from by omega, Nat.add_mod_left,
            Nat.mod_eq_of_lt (by omega)]
          exact ⟨helmP, hmemP⟩

theorem filterMap_key_range (n2 : ℕ) (f : ℕ → VNode) (kf : ℕ → JSKey)
    (hf : ∀ i, i < n2 → (f i).sc.key = some (kf i)) :
    ((List.range n2).map f).filterMap (fun c => c.sc.key)
      = (List.range n2).map kf := by
  induction n2 with
  | zero => rfl
  | succ m ih =>
      rw [List.range_succ, List.map_append, List.filterMap_append,
        List.map_append, ih (fun i hi => hf i (by omega))]
      simp [hf m (by omega)]

/-- The rotated new list's keys are pairwise distinct, so the dev
duplicate-key check is silent. -/
theorem rot_new_keys_nodup (N n k : ℕ) (o nn : ℕ → VNode) (κ : ℕ → JSKey)
    (H : RotCtx N n k o nn κ) :
    (((List.range n).map nn).filterMap (fun c => c.sc.key)).Nodup := by
  rw [filterMap_key_range n nn (fun i => κ ((i + k) % n))
    (fun i hi => H.hnkey i hi)]
  refine List.Nodup.map_on ?_ (List.nodup_range n)
  intro x hx y hy hxy
  simp only [List.mem_range] at hx hy
  have hmm : (x + k) % n = (y + k) % n :=
    H.hinj ((x + k) % n) ((y + k) % n) (Nat.mod_lt _ H.hn) (Nat.mod_lt _ H.hn)
      hxy
  have hce : x % n = y % n := Nat.ModEq.add_right_cancel' k hmm
  rwa [Nat.mod_eq_of_lt hx, Nat.mod_eq_of_lt hy] at hce

/-- **C1.** For every pair of keyed sibling lists in which the new list is a
rotation of the old (the same logical nodes with the same pairwise-distinct
keys, reordered by `i ↦ (i + k) % n`, each pair `sameVnode`-matched and
patching in place benignly), `updateChildren` performs zero node creations
and zero removals: the run succeeds, allocates no native handle and no vnode
id, every event it records is a `patched` marker, an `update`-hook run, a
duplicate-key warning or an `insertBefore`/`appendChild` move (in
particular no `createElm` event, no `removeChild` and no `removeVnodes`
invocation), every new child is patched against its matching old child, and
every new child's native handle is the matching old child's handle. -/
theorem rotation_diff_moves_only (N n k fuel : ℕ) (o nn : ℕ → VNode)
    (κ : ℕ → JSKey) (parentElm : Option ℕ) (st : PState)
    (H : RotCtx N n k o nn κ)
    (hfuel : N + 2 * n + 4 ≤ fuel) :
    ∃ (oldCh2 : List (Option VNode)) (g2 : ℕ → VNode) (st2 : PState),
      updateChildrenTop fuel parentElm ((List.range n).map o)
          ((List.range n).map nn) false st
        = some (oldCh2, (List.range n).map g2, st2) ∧
      st2.nextElm = st.nextElm ∧ st2.nextVid = st.nextVid ∧
      (∃ δ, st2.ops = st.ops ++ δ ∧ ∀ op ∈ δ, benignMoveOp op = true) ∧
      ∀ i, i < n → (g2 i).sc.elm = (o ((i + k) % n)).sc.elm ∧
        POp.patched (o ((i + k) % n)).sc.vid (nn i).sc.vid ∈ st2.ops := by
  obtain ⟨F, rfl⟩ : ∃ F, fuel = F + 1 := ⟨fuel - 1, by omega⟩
  simp only [updateChildrenTop]
  rw [checkDuplicateKeys_nodup' _ st (rot_new_keys_nodup N n k o nn κ H)]
  rw [List.map_map, range_map_length, range_map_length]
  rw [show ((List.range n).map (some ∘ o)) = (List.range n).map
    (fun i => some (o i)) from rfl]
  rcases Nat.lt_or_ge k 2 with hk2 | hk2
  · rcases Nat.lt_or_ge k 1 with hk0 | hk1
    · obtain rfl : k = 0 := by omega
      rw [show F = (F - (2 + n)) + 2 + n from by omega]
      obtain ⟨oldCh2, g2, st2, heq, hext, hres⟩ := rot_case_zero N n o nn κ
        parentElm (F - (2 + n)) st H (by omega)
      exact ⟨oldCh2, g2, st2, heq, hext.1, hext.2.1, hext.2.2, hres⟩
    · obtain rfl : k = 1 := by omega
      rw [show F = (F - (2 + (n - 1) + 1)) + 2 + (n - 1) + 1 from by omega]
      obtain ⟨oldCh2, g2, st2, heq, hext, hres⟩ := rot_case_one N n o nn κ
        parentElm (F - (2 + (n - 1) + 1)) st H (by omega)
      exact ⟨oldCh2, g2, st2, heq, hext.1, hext.2.1, hext.2.2, hres⟩
  · rcases Nat.lt_or_ge k (n - 1) with hkm | hkt
    · rw [show F = (F - (2 + k + (n - 1 - k) + 1 + (n - 2 - k) + 1))
        + 2 + k + (n - 1 - k) + 1 + (n - 2 - k) + 1 from by
          have := H.hk
          omega]
      obtain ⟨oldCh2, g2, st2, heq, hext, hres⟩ := rot_case_mid N n k o nn κ
        parentElm (F - (2 + k + (n - 1 - k) + 1 + (n - 2 - k) + 1)) st H
        (by omega) hk2 (by omega)
      exact ⟨oldCh2, g2, st2, heq, hext.1, hext.2.1, hext.2.2, hres⟩
    · have hkeq : k = n - 1 := by
        have := H.hk
        omega
      rw [show F = (F - (2 + (n - 1) + 1)) + 2 + (n - 1) + 1 from by omega]
      obtain ⟨oldCh2, g2, st2, heq, hext, hres⟩ := rot_case_top N n k o nn κ
        parentElm (F - (2 + (n - 1) + 1)) st H (by omega) hkeq hk2
      exact ⟨oldCh2, g2, st2, heq, hext.1, hext.2.1, hext.2.2, hres⟩

/-- A childless re-rendered node patches benignly against its mounted
previous generation: the only events are the `patched` marker and (when the
node has data) the module `update` hooks, nothing else in the state
changes, and the old handle is reused. -/
theorem PatchBenign_childless (ov nv : VNode)
    (hvid : ov.sc.vid ≠ nv.sc.vid)
    (helm : nv.sc.elm = none)
    (hasync : ov.sc.isAsyncPlaceholder = false)
    (hstat : (nv.sc.isStatic && ov.sc.isStatic
      && decide (nv.sc.key = ov.sc.key)
      && (nv.sc.isCloned || nv.sc.isOnce)) = false)
    (hch : ov.children = none) (hch2 : nv.children = none)
    (htext : nv.sc.text = ov.sc.text) :
    PatchBenign 1 ov nv := by
  intro fuel hf og ro st
  obtain ⟨f, rfl⟩ : ∃ f, fuel = f + 1 := ⟨fuel - 1, by omega⟩
  cases nv with
  | mk nsc nch =>
  cases ov with
  | mk osc och =>
  simp only [VNode.sc, VNode.children] at hvid helm hasync hstat hch hch2 htext
  subst hch
  subst hch2
  by_cases hd : (nsc.hasData && nsc.tag.isSome) = true
  · refine ⟨.mk { nsc with elm := osc.elm } none,
      [POp.updateCbs osc.vid nsc.vid], ?_, rfl, ?_⟩
    · simp only [patchVnodeF, VNode.sc, VNode.children, VNode.withElm,
        isPatchable]
      rw [if_neg hvid]
      rw [helm]
      simp only [Option.isSome_none, Bool.false_and, Bool.false_eq_true,
        if_false]
      rw [hasync]
      simp only [Bool.false_eq_true, if_false, VNode.sc, VNode.children]
      rw [hstat]
      simp only [Bool.false_eq_true, if_false]
      rw [hd]
      simp only [eq_self_iff_true, if_true]
      rcases htx : nsc.text with _ | tx
      · simp only
        rw [← htext, htx]
        simp only [Option.isSome_none, Bool.false_eq_true, if_false]
        simp [PState.emit, List.append_assoc]
      · simp only
        rw [← htext, htx]
        rw [if_neg (by simp)]
        simp [PState.emit, List.append_assoc]
    · intro op hop
      rw [List.mem_singleton.mp hop]
      rfl
  · have hd2 : (nsc.hasData && nsc.tag.isSome) = false :=
      Bool.eq_false_iff.mpr hd
    refine ⟨.mk { nsc with elm := osc.elm } none, [], ?_, rfl, ?_⟩
    · simp only [patchVnodeF, VNode.sc, VNode.children, VNode.withElm,
        isPatchable]
      rw [if_neg hvid]
      rw [helm]
      simp only [Option.isSome_none, Bool.false_and, Bool.false_eq_true,
        if_false]
      rw [hasync]
      simp only [Bool.false_eq_true, if_false, VNode.sc, VNode.children]
      rw [hstat]
      simp only [Bool.false_eq_true, if_false]
      rw [hd2]
      simp only [Bool.false_eq_true, if_false]
      rcases htx : nsc.text with _ | tx
      · simp only
        rw [← htext, htx]
        simp only [Option.isSome_none, Bool.false_eq_true, if_false]
        simp [PState.emit]
      · simp only
        rw [← htext, htx]
        rw [if_neg (by simp)]
        simp [PState.emit]
    · intro op hop
      exact absurd hop (List.not_mem_nil op)

/-- One keyed `<li>` of the mounted old generation, key `i`, handle
`100 + i`. -/
def rotOld (i : ℕ) : VNode :=
  .mk { vid := 10 + i, tag := some "li", hasData := false, attrs := none,
        key := some (.num (i : ℤ)), text := none, elm := some (100 + i),
        isComment := false, isStatic := false, isCloned := false,
        isOnce := false, isAsyncPlaceholder := false, asyncFactory := none,
        asyncFactoryError := false, asyncFactoryResolved := false,
        componentInstance := none, componentOptions := false } none

/-- The fresh re-render of the same list rotated by two
(`rotNew i` is the re-render of `rotOld ((i + 2) % 4)`). -/
def rotNew (i : ℕ) : VNode :=
  .mk { vid := 30 + i, tag := some "li", hasData := false, attrs := none,
        key := some (.num (((i + 2) % 4 : ℕ) : ℤ)), text := none, elm := none,
        isComment := false, isStatic := false, isCloned := false,
        isOnce := false, isAsyncPlaceholder := false, asyncFactory := none,
        asyncFactoryError := false, asyncFactoryResolved := false,
        componentInstance := none, componentOptions := false } none

def rotSt : PState :=
  { nextElm := 200, nextVid := 90, dom := [(50, [100, 101, 102, 103])],
    ops := [] }

theorem rotation_diff_moves_only_witness :
    ∃ (oldCh2 : List (Option VNode)) (g2 : ℕ → VNode) (st2 : PState),
      updateChildrenTop 13 (some 50) ((List.range 4).map rotOld)
          ((List.range 4).map rotNew) false rotSt
        = some (oldCh2, (List.range 4).map g2, st2) ∧
      st2.nextElm = rotSt.nextElm ∧ st2.nextVid = rotSt.nextVid ∧
      (∃ δ, st2.ops = rotSt.ops ++ δ ∧ ∀ op ∈ δ, benignMoveOp op = true) ∧
      ∀ i, i < 4 → (g2 i).sc.elm = (rotOld ((i + 2) % 4)).sc.elm ∧
        POp.patched (rotOld ((i + 2) % 4)).sc.vid (rotNew i).sc.vid ∈ st2.ops :=
  rotation_diff_moves_only 1 4 2 13 rotOld rotNew (fun i => JSKey.num (i : ℤ))
    (some 50) rotSt
    ⟨by omega, by omega, fun i _ => rfl,
     (by intro i j hi hj h
         have := JSKey.num.inj h
         omega),
     fun i _ => rfl,
     (by intro i hi
         interval_cases i <;> decide),
     (by intro i hi
         interval_cases i <;>
           exact PatchBenign_childless _ _ (by decide) rfl rfl (by decide)
             rfl rfl rfl)⟩
    (by omega)
